import Mathlib

/-!
# Musical Mood Detector and Visualizer: feature extraction, SVR prediction, display

A shallow embedding of `src/src/featureExtraction.c`, `src/src/moodRecognition.c` and the
colour conversion and texture update of `src/imageDisplay.c`.

Conventions of the embedding:

* A C `float` is an element of a linearly ordered field `K`; every arithmetic
  operation is exact and every `(float)` / `(double)` cast is the identity.
  Rounding, infinities and NaN are outside the model, so a statement about a
  quotient is only meaningful where its divisor is non-zero. Where the program
  branches on such a quotient (the loop test of `fe_spectral_rolloff`) the test is
  modelled with the outcome that float arithmetic gives for a zero divisor, and the
  functions named `…_checked` have no result when a division by zero is executed.
* The `<math.h>` functions `sqrt`, `exp`, `log`, `cos` are the fields of a
  `MathLib K` record handed to every function that calls them.
* A `float *` is the map `Nat → K` from the offset to the value stored there;
  `p + k` is `offset p k`, and a store through the pointer is `store`.
* The `int` fields that hold sizes, counts and indices are natural numbers; the two
  counts of the struct `mr_model`, which `mr_create_model` reads from files and
  leaves unassigned when it fails, are integers, and a loop bounded by an integer
  `n` runs `n.toNat` times.
* A pointer field of a struct that may be `NULL` is an `Option`; a function whose C
  behaviour is undefined on some input (a `NULL` buffer, a read past the end of an
  array) returns an `Option`, and `none` stands for that case.
* `for( i=0; i<n; i++ )` is `forLoop n body s`, which runs the body for
  `i = 0, 1, …, n-1` on the loop-carried state `s`.
* A conversion `(int)x` of a float is the truncation toward zero, `castInt`.
* A text file is the list of its whitespace-separated tokens, and the conversions of
  `fscanf` are the fields of a `ScanLib K` record.
-/

namespace MoodDetector

/-! ## Memory and loops -/

/-- The functions of `<math.h>` used by the program. -/
structure MathLib (K : Type) where
  sqrt : K → K
  exp : K → K
  log : K → K
  cos : K → K

/-- The assignment `*(p + i) = v`. -/
def store {K : Type} (p : Nat → K) (i : Nat) (v : K) : Nat → K :=
  fun k => if k = i then v else p k

/-- The pointer `p + k`. -/
def offset {K : Type} (p : Nat → K) (k : Nat) : Nat → K :=
  fun i => p (k + i)

/-- The loop `for( i=0; i<n; i++ ) s = body i s`. -/
def forLoop {σ : Type} : Nat → (Nat → σ → σ) → σ → σ
  | 0, _, s => s
  | n + 1, body, s => body n (forLoop n body s)

/-- The loop `for( i=lo; i<hi; i++ ) s = body i s`. -/
def forLoopFrom {σ : Type} (lo hi : Nat) (body : Nat → σ → σ) (s : σ) : σ :=
  forLoop (hi - lo) (fun k => body (lo + k)) s

/-! ## `moodRecognition.h`: the SVR model -/

/-- The struct `mr_model`. -/
structure mr_model (K : Type) where
  init_success : Int
  num_features : Int
  num_sv : Int
  mu : Nat → K
  sigma : Nat → K
  scale : K
  bias : K
  alpha : Nat → K
  support_vectors : Nat → K

section Predict

variable {K : Type} [LinearOrderedField K]

/-- The body of the normalisation loop of `mr_predict`:
`x_normed[i] = ( *(x+i) - *( mdl.mu + i ) ) / *( mdl.sigma + i )`. The quotient is the
field's, which is meaningful for a non-zero `sigma` entry only; `mr_normalize_checked`
has no result on a zero entry. -/
def mr_normalize (x : Nat → K) (mdl : mr_model K) : Nat → K :=
  forLoop mdl.num_features.toNat
    (fun i x_normed => store x_normed i ((x i - mdl.mu i) / mdl.sigma i))
    (fun _ => 0)

/-- The function `mr_predict` of `moodRecognition.c`: the statements from the test of
`init_success` on. The declaration `float x_normed[mdl.num_features]`, which precedes
the test and requires `num_features > 0`, and the divisions by zero are in
`mr_predict_checked`. -/
def mr_predict (m : MathLib K) (x : Nat → K) (mdl : mr_model K) : K :=
  if mdl.init_success ≠ 1 then 0
  else
    let varience := mdl.scale ^ 2
    let x_normed := mr_normalize x mdl
    let sum := forLoop mdl.num_sv.toNat
      (fun i sum =>
        let norm_sum := forLoop mdl.num_features.toNat
          (fun j norm_sum =>
            norm_sum + (mdl.support_vectors (i * mdl.num_features.toNat + j) - x_normed j) ^ 2)
          0
        let x_transformed := m.exp (-norm_sum / varience)
        sum + mdl.alpha i * x_transformed)
      0
    sum + mdl.bias

end Predict

/-! ## `featureExtraction.h`: configuration and statistics -/

/-- The enum `fe_spec_flux_t`. -/
inductive fe_spec_flux_t where
  | FE_SPEC_FLUX_UNRECTIFIED
  | FE_SPEC_FLUX_RECTIFIED
  deriving DecidableEq, Repr

/-- The struct `fe_extraction_info`. -/
structure fe_extraction_info (K : Type) where
  fs : Nat
  frame_length : Nat
  dft_length : Nat
  window_length : K
  frames_in_window : Nat
  bands : Nat
  rolloff : K
  num_timbre_features : Nat
  num_onset_features : Nat

section FeatureExtraction

variable {K : Type} [LinearOrderedField K]

/-- The function `fe_mean`: the sum of `num` values divided by `(float)num`. -/
def fe_mean (values : Nat → K) (num : Nat) : K :=
  forLoop num (fun i sum => sum + values i) 0 / (num : K)

/-- The function `fe_stdv`. The divisor `(float)(num-1)` is computed in `int`,
so it is `-1` for `num = 0`. -/
def fe_stdv (m : MathLib K) (values : Nat → K) (num : Nat) : K :=
  let mean := fe_mean values num
  let sum := forLoop num (fun i sum => sum + (values i - mean) ^ 2) 0
  m.sqrt (sum / (((num : Int) - 1 : Int) : K))

/-- The constant `PI` of `featureExtraction.c`. -/
def PI : K := 31415926536 / 10000000000

/-- The function `fe_hamming_win`. -/
def fe_hamming_win (m : MathLib K) (win : Nat → K) (N : Nat) : Nat → K :=
  forLoopFrom 1 (N + 1)
    (fun i win => store win (i - 1) (54 / 100 - 46 / 100 * m.cos (2 * PI * (i : K) / (N : K))))
    win

/-- The function `fe_compute_magnitude`; a complex bin is the pair of its real and
imaginary part. -/
def fe_compute_magnitude (m : MathLib K) (fft : Nat → K × K) (magnitude : Nat → K)
    (N : Nat) : Nat → K :=
  forLoop N
    (fun i magnitude =>
      let a := (fft i).1
      let b := (fft i).2
      store magnitude i (m.sqrt (a ^ 2 + b ^ 2)))
    magnitude

/-- The inner loop of `fe_autocorrelate`: the circular sum for lag `i`. -/
def fe_autocorrelate_lag (x : Nat → K) (N i : Nat) : K :=
  forLoop N
    (fun j sum =>
      if i + j < N then sum + x j * x (j + i)
      else sum + x j * x (j + i - N))
    0

/-- The function `fe_autocorrelate`: writes the lags `0 .. N/2 - 1` into `ac`. -/
def fe_autocorrelate (x : Nat → K) (ac : Nat → K) (N : Nat) : Nat → K :=
  forLoop (N / 2) (fun i ac => store ac i (fe_autocorrelate_lag x N i)) ac

/-- The function `fe_timbre_stats`. The loop carries the output array together with
the position of the moving pointer `stat_array`. -/
def fe_timbre_stats (m : MathLib K) (feature_array : Nat → K) (stat_array : Nat → K)
    (info : fe_extraction_info K) : Nat → K :=
  let rows := info.num_timbre_features
  let columns := info.frames_in_window
  (forLoop rows
    (fun i (st : (Nat → K) × Nat) =>
      let mem := store st.1 st.2 (fe_mean (offset feature_array (i * columns)) columns)
      let mem := store mem (st.2 + 1) (fe_stdv m (offset feature_array (i * columns)) columns)
      (mem, st.2 + 2))
    (stat_array, 0)).1

/-! ## Spectral features -/

/-- The first loop of `fe_spectral_rolloff` (also the `mag_sum` of the centroid): the
total magnitude of the `dft_length` bins. -/
def fe_magnitude_sum (magnitude : Nat → K) (dft_length : Nat) : K :=
  forLoop dft_length (fun i sum => sum + magnitude i) 0

/-- The loop test `temp/sum < info->rolloff` of `fe_spectral_rolloff` on C floats. The
total `sum` is zero on a silent spectrum, and the float quotient by zero is an infinity
or a NaN: the test then holds only for the quotient −∞, that is, for a negative `temp`,
and fails for `0/0` (NaN) and for +∞. -/
def fe_rolloff_test (temp sum rolloff : K) : Bool :=
  if sum = 0 then decide (temp < 0) else decide (temp / sum < rolloff)

/-- The `do … while( temp/sum < rolloff )` loop of `fe_spectral_rolloff`, entered with
the running sum `temp` and the counter `i`. The magnitude array has `dft_length`
entries; `remaining` counts the entries not yet read, and the loop has no result
(`none`) when it would read past the end of the array. -/
def fe_rolloff_loop (magnitude : Nat → K) (sum rolloff : K) :
    (remaining : Nat) → (temp : K) → (i : Nat) → Option Nat
  | 0, _, _ => none
  | remaining + 1, temp, i =>
    let temp := temp + magnitude i
    let i := i + 1
    if fe_rolloff_test temp sum rolloff then
      fe_rolloff_loop magnitude sum rolloff remaining temp i
    else some i

/-- The function `fe_spectral_rolloff`. -/
def fe_spectral_rolloff (magnitude : Nat → K) (info : fe_extraction_info K) : Option K :=
  if info.rolloff < 0 ∨ info.rolloff > 1 then some (-1)
  else
    let sum := fe_magnitude_sum magnitude info.dft_length
    (fe_rolloff_loop magnitude sum info.rolloff info.dft_length 0 0).map
      (fun (i : Nat) => (i : K) * (info.fs : K) / (info.frame_length : K))

/-- The function `fe_spectral_centroid`. -/
def fe_spectral_centroid (magnitude : Nat → K) (info : fe_extraction_info K) : K :=
  let fs_f : K := (info.fs : K)
  let N_f : K := (info.frame_length : K)
  let st := forLoop info.dft_length
    (fun i (st : K × K) =>
      (st.1 + magnitude i, st.2 + (i : K) * fs_f / N_f * magnitude i))
    (0, 0)
  st.2 / st.1

/-- The function `fe_spectral_flux`. -/
def fe_spectral_flux (mag_cur mag_prev : Nat → K) (fluxType : fe_spec_flux_t)
    (info : fe_extraction_info K) : K :=
  let sum :=
    if fluxType = fe_spec_flux_t.FE_SPEC_FLUX_UNRECTIFIED then
      forLoop info.dft_length (fun i sum => sum + (mag_cur i - mag_prev i) ^ 2) 0
    else
      forLoop info.dft_length
        (fun i sum =>
          let flux := mag_cur i - mag_prev i
          let flux := (flux + |flux|) / 2
          sum + flux ^ 2)
        0
  sum / (info.dft_length : K)

/-- The array `boundary` of `fe_spectral_contrast`. The C expression
`frame_length / pow(2, bands-(i-1)) - 1` is a `double` truncated to `int`; for
`frame_length ≥ 1` that is the natural-number quotient minus one, cut off at 0. -/
def fe_boundary (info : fe_extraction_info K) (i : Nat) : Nat :=
  if i = 0 then 0 else info.frame_length / 2 ^ (info.bands - (i - 1)) - 1

/-- The library call `qsort( base + start, count, sizeof(float), fe_compare )`: the
`count` values from `start` on are put in ascending order. -/
def qsort (base : Nat → K) (start count : Nat) : Nat → K :=
  let sorted := List.insertionSort (· ≤ ·) ((List.range count).map (fun k => base (start + k)))
  fun k => if start ≤ k ∧ k < start + count then sorted.getD (k - start) 0 else base k

/-- The loop-carried state of the band loop of `fe_spectral_contrast`: the working copy
`mag_cpy`, the position of `mag_cpy_ptr` in it, the memory written through
`contrast_features` and the position of that pointer. -/
structure fe_contrast_state (K : Type) where
  mag_cpy : Nat → K
  mag_cpy_ptr : Nat
  mem : Nat → K
  contrast_features : Nat

/-- The averages that one iteration of the band loop of `fe_spectral_contrast` computes
for band `i` from the working copy and the position of `mag_cpy_ptr`: the band is
sorted, and the pair is `(peak, valley)` after the two divisions. The neighbourhood
`(int)(0.2 * width)` is the quotient `width / 5`. -/
def fe_band_peak_valley (info : fe_extraction_info K) (i : Nat) (mag_cpy : Nat → K)
    (mag_cpy_ptr : Nat) : K × K :=
  let width := fe_boundary info (i + 1) - fe_boundary info i
  let mag_cpy := qsort mag_cpy mag_cpy_ptr width
  let neighborhood := width / 5
  let pv := forLoop neighborhood
    (fun j (pv : K × K) =>
      (pv.1 + mag_cpy (mag_cpy_ptr + (width - neighborhood) + j),
       pv.2 + mag_cpy (mag_cpy_ptr + j)))
    (0, 0)
  (pv.1 / (neighborhood : K), pv.2 / (neighborhood : K))

/-- One iteration of the band loop of `fe_spectral_contrast`. -/
def fe_contrast_band (m : MathLib K) (info : fe_extraction_info K) (i : Nat)
    (st : fe_contrast_state K) : fe_contrast_state K :=
  let width := fe_boundary info (i + 1) - fe_boundary info i
  let pv := fe_band_peak_valley info i st.mag_cpy st.mag_cpy_ptr
  let peak := pv.1
  let valley := pv.2
  let mem := store st.mem st.contrast_features (m.log peak)
  let mem := store mem (st.contrast_features + info.bands * info.frames_in_window)
    (m.log valley)
  let mem := store mem (st.contrast_features + info.bands * 2 * info.frames_in_window)
    (m.log (peak - valley))
  { mag_cpy := qsort st.mag_cpy st.mag_cpy_ptr width
    mag_cpy_ptr := fe_boundary info (i + 1)
    mem := mem
    contrast_features := st.contrast_features + info.frames_in_window }

/-- The state of the band loop of `fe_spectral_contrast` on entry to the iteration for
band `b`, the function writing through the pointer `mem + p`. The working copy
`mag_cpy` has `dft_length` entries and the model reads 0 behind them; the bands end at
`boundary[bands] = frame_length/2 - 1`, so no band reaches behind the copy on a
configuration with `frame_length/2 - 1 ≤ dft_length`, as the shipped one is. On another
configuration the C function reads past the array, which this model does not
represent. -/
def fe_contrast_entry (m : MathLib K) (magnitude : Nat → K) (mem : Nat → K) (p : Nat)
    (info : fe_extraction_info K) (b : Nat) : fe_contrast_state K :=
  let mag_cpy := forLoop info.dft_length (fun i mag_cpy => store mag_cpy i (magnitude i))
    (fun _ => 0)
  forLoop b (fe_contrast_band m info)
    { mag_cpy := mag_cpy, mag_cpy_ptr := 0, mem := mem, contrast_features := p }

/-- The function `fe_spectral_contrast`, writing through the pointer `mem + p`. -/
def fe_spectral_contrast (m : MathLib K) (magnitude : Nat → K) (mem : Nat → K) (p : Nat)
    (info : fe_extraction_info K) : Nat → K :=
  (fe_contrast_entry m magnitude mem p info info.bands).mem

/-- The pair `(peak, valley)` that `fe_spectral_contrast` computes for band `b` of a
magnitude spectrum. It does not depend on the output pointer, which is taken as 0
here. -/
def fe_contrast_peak_valley (m : MathLib K) (magnitude : Nat → K)
    (info : fe_extraction_info K) (b : Nat) : K × K :=
  let st := fe_contrast_entry m magnitude (fun _ => 0) 0 info b
  fe_band_peak_valley info b st.mag_cpy st.mag_cpy_ptr

/-! ## Rhythmic features -/

/-- The onset loop of `fe_rhythmic_features`: the pair `(sum_onset_amp, onset_counter)`
after scanning the samples `1 .. frames_in_window - 2` against `threshold`. -/
def fe_onset_scan (flux_buffer : Nat → K) (threshold : K) (frames_in_window : Nat) :
    K × Nat :=
  forLoopFrom 1 (frames_in_window - 1)
    (fun i (st : K × Nat) =>
      if flux_buffer i > flux_buffer (i - 1) ∧ flux_buffer i > flux_buffer (i + 1)
          ∧ flux_buffer i > threshold then
        (st.1 + flux_buffer i, st.2 + 1)
      else st)
    (0, 0)

/-- The search for the valley between two peaks in `fe_rhythmic_features`: the minimum
of `ac[leftpoint]` and the values strictly between `leftpoint` and `rightpoint`. -/
def fe_valley_min (ac : Nat → K) (leftpoint rightpoint : Nat) : K :=
  forLoopFrom 1 (rightpoint - leftpoint)
    (fun j min => if ac (leftpoint + j) < min then ac (leftpoint + j) else min)
    (ac leftpoint)

/-- The loop-carried state of the peak loop of `fe_rhythmic_features`. -/
structure fe_peak_state (K : Type) where
  sum_ac_peaks : K
  ac_peak_counter : Nat
  leftpoint : Nat
  sum_ac_valleys : K

/-- The test of the peak loop for the lag `i`. -/
def fe_is_ac_peak (ac : Nat → K) (threshold : K) (i : Nat) : Bool :=
  decide (ac i > ac (i - 1) ∧ ac i > ac (i + 1) ∧ ac i > threshold)

/-- One iteration of the peak loop of `fe_rhythmic_features`. -/
def fe_peak_step (ac : Nat → K) (threshold : K) (i : Nat) (st : fe_peak_state K) :
    fe_peak_state K :=
  if fe_is_ac_peak ac threshold i then
    let sum_ac_peaks := st.sum_ac_peaks + ac i
    let ac_peak_counter := st.ac_peak_counter + 1
    if ac_peak_counter = 1 then
      { sum_ac_peaks := sum_ac_peaks, ac_peak_counter := ac_peak_counter,
        leftpoint := i, sum_ac_valleys := st.sum_ac_valleys }
    else
      let rightpoint := i
      let min := fe_valley_min ac st.leftpoint rightpoint
      { sum_ac_peaks := sum_ac_peaks, ac_peak_counter := ac_peak_counter,
        leftpoint := rightpoint, sum_ac_valleys := st.sum_ac_valleys + min }
  else st

/-- The peak loop `for( i=2; i<ac_length-1; i++ )` of `fe_rhythmic_features`. The
variable `leftpoint` is uninitialised on entry and assigned before its first use;
it is entered as 0. -/
def fe_peak_scan (ac : Nat → K) (threshold : K) (ac_length : Nat) : fe_peak_state K :=
  forLoopFrom 2 (ac_length - 1) (fe_peak_step ac threshold)
    { sum_ac_peaks := 0, ac_peak_counter := 0, leftpoint := 0, sum_ac_valleys := 0 }

/-- The autocorrelation curve `ac` that `fe_rhythmic_features` computes from the flux
buffer. -/
def fe_rhythm_ac (flux_buffer : Nat → K) (info : fe_extraction_info K) : Nat → K :=
  fe_autocorrelate flux_buffer (fun _ => 0) info.frames_in_window

/-- The second `threshold` of `fe_rhythmic_features`: mean plus deviation of
`ac[1 .. ac_length-1]`. The count `ac_length - 1` is not negative as long as
`frames_in_window ≥ 2`, which the array `ac` needs anyway. -/
def fe_rhythm_ac_threshold (m : MathLib K) (flux_buffer : Nat → K)
    (info : fe_extraction_info K) : K :=
  let ac_length := info.frames_in_window / 2
  let ac := fe_rhythm_ac flux_buffer info
  fe_mean (offset ac 1) (ac_length - 1) + fe_stdv m (offset ac 1) (ac_length - 1)

/-- The state of the peak loop of `fe_rhythmic_features` on exit. -/
def fe_rhythm_peaks (m : MathLib K) (flux_buffer : Nat → K)
    (info : fe_extraction_info K) : fe_peak_state K :=
  fe_peak_scan (fe_rhythm_ac flux_buffer info) (fe_rhythm_ac_threshold m flux_buffer info)
    (info.frames_in_window / 2)

/-- The lags at which the test of the peak loop of `fe_rhythmic_features` succeeds, in
the order in which the loop `for( i=2; i<ac_length-1; i++ )` meets them. -/
def fe_ac_peak_lags (ac : Nat → K) (threshold : K)
    (ac_length : Nat) : List Nat :=
  (List.range' 2 (ac_length - 1 - 2)).filter (fe_is_ac_peak ac threshold)

/-- The lags that `fe_rhythmic_features` detects as autocorrelation peaks of a flux
window. -/
def fe_rhythm_peak_lags (m : MathLib K)
    (flux_buffer : Nat → K) (info : fe_extraction_info K) : List Nat :=
  fe_ac_peak_lags (fe_rhythm_ac flux_buffer info) (fe_rhythm_ac_threshold m flux_buffer info)
    (info.frames_in_window / 2)

/-- The pair `(sum_onset_amp, onset_counter)` of `fe_rhythmic_features` after its onset
loop, run against the first `threshold`: mean plus deviation of the flux buffer. -/
def fe_rhythm_onsets (m : MathLib K) (flux_buffer : Nat → K)
    (info : fe_extraction_info K) : K × Nat :=
  let threshold := fe_mean flux_buffer info.frames_in_window
    + fe_stdv m flux_buffer info.frames_in_window
  fe_onset_scan flux_buffer threshold info.frames_in_window

/-- The function `fe_rhythmic_features`, writing through the pointer `mem + p`. -/
def fe_rhythmic_features (m : MathLib K) (flux_buffer : Nat → K) (mem : Nat → K) (p : Nat)
    (info : fe_extraction_info K) : Nat → K :=
  let onsets := fe_rhythm_onsets m flux_buffer info
  let sum_onset_amp := onsets.1
  let onset_counter := onsets.2
  let mem := store mem p ((onset_counter : K) / info.window_length)
  let mem := store mem (p + 1) (sum_onset_amp / (onset_counter : K))
  let st := fe_rhythm_peaks m flux_buffer info
  let mem := store mem (p + 2) (st.sum_ac_peaks / (st.ac_peak_counter : K))
  store mem (p + 3)
    (if st.ac_peak_counter > 1 then
      st.sum_ac_valleys / (((st.ac_peak_counter : Int) - 1 : Int) : K)
    else st.sum_ac_peaks)

/-! ## The audio callback -/

/-- The struct `fe_extraction_thread_data`. A pointer field is `none` when it is
`NULL`; `fftPlan` tells whether the plan exists. -/
structure fe_extraction_thread_data (K : Type) where
  audio : Option (Nat → K)
  hamm_win : Option (Nat → K)
  dft : Option (Nat → K × K)
  magnitude : Option (Nat → K)
  prev_mag : Option (Nat → K)
  rectified_flux_buffer : Option (Nat → K)
  timbre_matrix : Option (Nat → K)
  columnPtr : Nat
  info : fe_extraction_info K
  fftPlan : Bool
  boolOutputDevice : Int
  init_success : Int

/-- What the allocator and the FFT planner hand to
`fe_initialize_extraction_thread_data`: for each call either `NULL` (`none`) or a
fresh block, whose contents the C standard leaves unspecified. -/
structure fe_allocation (K : Type) where
  audio : Option (Nat → K)
  hamm_win : Option (Nat → K)
  dft : Option (Nat → K × K)
  magnitude : Option (Nat → K)
  prev_mag : Option (Nat → K)
  rectified_flux_buffer : Option (Nat → K)
  timbre_matrix : Option (Nat → K)
  fftPlan : Bool

/-- The `exit:` path of `fe_initialize_extraction_thread_data` with
`init_success == 0`: every buffer is released and its pointer is `NULL`. The field
`boolOutputDevice` is not assigned on this path; it is entered as 0. -/
def fe_initialize_failed (info : fe_extraction_info K) : fe_extraction_thread_data K :=
  { audio := none, hamm_win := none, dft := none, magnitude := none, prev_mag := none,
    rectified_flux_buffer := none, timbre_matrix := none, columnPtr := 0, info := info,
    fftPlan := false, boolOutputDevice := 0, init_success := 0 }

/-- The function `fe_initialize_extraction_thread_data`. -/
def fe_initialize_extraction_thread_data (m : MathLib K) (heap : fe_allocation K)
    (info : fe_extraction_info K) : fe_extraction_thread_data K :=
  match heap.audio with
  | none => fe_initialize_failed info
  | some audio =>
  match heap.hamm_win with
  | none => fe_initialize_failed info
  | some hamm_win =>
  let hamm_win := fe_hamming_win m hamm_win info.frame_length
  match heap.dft with
  | none => fe_initialize_failed info
  | some dft =>
  match heap.magnitude with
  | none => fe_initialize_failed info
  | some magnitude =>
  match heap.prev_mag with
  | none => fe_initialize_failed info
  | some prev_mag =>
  let magnitude := forLoop info.dft_length (fun i magnitude => store magnitude i 0) magnitude
  match heap.rectified_flux_buffer with
  | none => fe_initialize_failed info
  | some rectified_flux_buffer =>
  match heap.timbre_matrix with
  | none => fe_initialize_failed info
  | some timbre_matrix =>
  if heap.fftPlan = false then fe_initialize_failed info
  else
    { audio := some audio, hamm_win := some hamm_win, dft := some dft,
      magnitude := some magnitude, prev_mag := some prev_mag,
      rectified_flux_buffer := some rectified_flux_buffer,
      timbre_matrix := some timbre_matrix, columnPtr := 0, info := info,
      fftPlan := true, boolOutputDevice := 0, init_success := 1 }

/-- The first loop of `paCallBack`: the stereo input is mirrored to the output when an
output device is in use, and its channel average times the Hamming window is stored in
`audio`. The state is the pair `(out, audio)`. -/
def paCallBack_downmix (inputBuffer : Nat → K) (hamm_win : Nat → K) (boolOutputDevice : Int)
    (framesPerBuffer : Nat) (st : (Nat → K) × (Nat → K)) : (Nat → K) × (Nat → K) :=
  forLoop framesPerBuffer
    (fun i (st : (Nat → K) × (Nat → K)) =>
      let out :=
        if boolOutputDevice = 1 then
          store (store st.1 (2 * i) (inputBuffer (2 * i))) (2 * i + 1) (inputBuffer (2 * i + 1))
        else st.1
      let audio := store st.2 i ((inputBuffer (2 * i) + inputBuffer (2 * i + 1)) / 2)
      let audio := store audio i (audio i * hamm_win i)
      (out, audio))
    st

/-- The timbre matrix after `paCallBack` has filled the column `columnPtr` from the
magnitude spectrum, given the value `rolloff` returned by `fe_spectral_rolloff`. -/
def paCallBack_fill_column (m : MathLib K) (magnitude prev_mag timbre_matrix : Nat → K)
    (columnPtr : Nat) (rolloff : K) (info : fe_extraction_info K) : Nat → K :=
  let tm := store timbre_matrix columnPtr (fe_spectral_centroid magnitude info)
  let tm := store tm (columnPtr + info.frames_in_window)
    (fe_spectral_flux magnitude prev_mag fe_spec_flux_t.FE_SPEC_FLUX_UNRECTIFIED info)
  let tm := store tm (columnPtr + 2 * info.frames_in_window) rolloff
  fe_spectral_contrast m magnitude tm (columnPtr + 3 * info.frames_in_window) info

/-- The cursor update at the end of `paCallBack`:
`(data->columnPtr)++; if( data->columnPtr == frames_in_window ) data->columnPtr = 0;`. -/
def paCallBack_advance (columnPtr frames_in_window : Nat) : Nat :=
  let columnPtr := columnPtr + 1
  if columnPtr = frames_in_window then 0 else columnPtr

/-- The magnitude spectrum that `paCallBack` computes from its input block: the
down-mixed and windowed frame is transformed by `fftwf_execute` and
`fe_compute_magnitude` overwrites the first `dft_length` entries of `magnitude`. -/
def paCallBack_spectrum (m : MathLib K) (fftwf_execute : Nat → (Nat → K) → Nat → K × K)
    (inputBuffer outputBuffer : Nat → K) (framesPerBuffer : Nat) (boolOutputDevice : Int)
    (info : fe_extraction_info K) (audio hamm_win magnitude : Nat → K) : Nat → K :=
  let io := paCallBack_downmix inputBuffer hamm_win boolOutputDevice framesPerBuffer
    (outputBuffer, audio)
  let dft := fftwf_execute info.frame_length io.2
  fe_compute_magnitude m dft magnitude info.dft_length

/-- The function `paCallBack`. `fftwf_execute frame_length audio` is the transform
that the plan of the FFTW library computes from the `audio` buffer. The result is the
updated thread data and output buffer; there is none when a pointer of the thread data
is `NULL` or `fe_spectral_rolloff` runs off its array, which it does only when the
array has no entry (`dft_length = 0`). -/
def paCallBack (m : MathLib K) (fftwf_execute : Nat → (Nat → K) → Nat → K × K)
    (inputBuffer outputBuffer : Nat → K) (framesPerBuffer : Nat)
    (data : fe_extraction_thread_data K) :
    Option (fe_extraction_thread_data K × (Nat → K)) :=
  match data.audio, data.hamm_win, data.dft, data.magnitude, data.prev_mag,
      data.rectified_flux_buffer, data.timbre_matrix, data.fftPlan with
  | some audio, some hamm_win, some _, some magnitude, some prev_mag,
      some rectified_flux_buffer, some timbre_matrix, true =>
    let io := paCallBack_downmix inputBuffer hamm_win data.boolOutputDevice framesPerBuffer
      (outputBuffer, audio)
    let dft := fftwf_execute data.info.frame_length io.2
    let magnitude := paCallBack_spectrum m fftwf_execute inputBuffer outputBuffer
      framesPerBuffer data.boolOutputDevice data.info audio hamm_win magnitude
    match fe_spectral_rolloff magnitude data.info with
    | none => none
    | some rolloff =>
      let timbre_matrix := paCallBack_fill_column m magnitude prev_mag timbre_matrix
        data.columnPtr rolloff data.info
      let rectified_flux_buffer := store rectified_flux_buffer data.columnPtr
        (fe_spectral_flux magnitude prev_mag fe_spec_flux_t.FE_SPEC_FLUX_RECTIFIED data.info)
      some
        ({ data with
            audio := some io.2
            dft := some dft
            magnitude := some prev_mag
            prev_mag := some magnitude
            rectified_flux_buffer := some rectified_flux_buffer
            timbre_matrix := some timbre_matrix
            columnPtr := paCallBack_advance data.columnPtr data.info.frames_in_window },
          io.1)
  | _, _, _, _, _, _, _, _ => none

/-- Successive invocations of `paCallBack`, one for each input block of the list, on the
thread data that the previous invocation left. The result is the final thread data and
the list of the columns that the invocations wrote, in order; there is none when an
invocation has none. -/
def paCallBack_run (m : MathLib K)
    (fftwf_execute : Nat → (Nat → K) → Nat → K × K) (outputBuffer : Nat → K)
    (framesPerBuffer : Nat) :
    List (Nat → K) → fe_extraction_thread_data K → Option (fe_extraction_thread_data K × List Nat)
  | [], data => some (data, [])
  | inputBuffer :: rest, data =>
    match paCallBack m fftwf_execute inputBuffer outputBuffer framesPerBuffer data with
    | none => none
    | some (data', _) =>
      match paCallBack_run m fftwf_execute outputBuffer framesPerBuffer rest data' with
      | none => none
      | some (data'', cursors) => some (data'', data.columnPtr :: cursors)

/-- The state of the thread data after a successful initialisation: no buffer pointer
is `NULL` and the FFT plan exists. -/
def fe_buffers_allocated (data : fe_extraction_thread_data K) : Prop :=
  data.audio.isSome = true ∧ data.hamm_win.isSome = true ∧ data.dft.isSome = true ∧
  data.magnitude.isSome = true ∧ data.prev_mag.isSome = true ∧
  data.rectified_flux_buffer.isSome = true ∧ data.timbre_matrix.isSome = true ∧
  data.fftPlan = true

/-! ## The prediction loop -/

/-- The struct `mr_detection_thread_data`; the three buffers are live for as long as
the prediction thread runs. -/
structure mr_detection_thread_data (K : Type) where
  terminate_thread : Int
  init_success : Int
  extraction_info : fe_extraction_info K
  timbre_matrix : Nat → K
  rec_flux_buffer : Nat → K
  features : Nat → K
  arousal_mdl : mr_model K
  valence_mdl : mr_model K
  arousal_prediction : K
  valence_prediction : K

/-- The feature vector after the two extraction calls in the body of the `while` loop of
`MoodDetectionRoutine`. -/
def MoodDetectionRoutine_features (m : MathLib K) (threadData : mr_detection_thread_data K) :
    Nat → K :=
  let features := fe_timbre_stats m threadData.timbre_matrix threadData.features
    threadData.extraction_info
  fe_rhythmic_features m threadData.rec_flux_buffer features
    (threadData.extraction_info.num_timbre_features * 2) threadData.extraction_info

/-- The body of the `while( !(threadData->terminate_thread) )` loop of
`MoodDetectionRoutine`: one prediction cycle. -/
def MoodDetectionRoutine_body (m : MathLib K) (threadData : mr_detection_thread_data K) :
    mr_detection_thread_data K :=
  let features := MoodDetectionRoutine_features m threadData
  { threadData with
    features := features
    arousal_prediction := mr_predict m features threadData.arousal_mdl
    valence_prediction := mr_predict m features threadData.valence_mdl }

/-! ## Reordered models -/

/-- The checked float division `a / b`. -/
def fdiv (a b : K) : Option K :=
  if b = 0 then none else some (a / b)

/-- The checked call `log( x )`. -/
def flog (m : MathLib K) (x : K) : Option K :=
  if x ≤ 0 then none else some (m.log x)

/-- The function `fe_mean` with its division checked. -/
def fe_mean_checked (values : Nat → K) (num : Nat) : Option K :=
  fdiv (forLoop num (fun i sum => sum + values i) 0) (num : K)

/-- The function `fe_stdv` with its divisions checked. -/
def fe_stdv_checked (m : MathLib K) (values : Nat → K) (num : Nat) : Option K :=
  match fe_mean_checked values num with
  | none => none
  | some mean =>
    let sum := forLoop num (fun i sum => sum + (values i - mean) ^ 2) 0
    (fdiv sum (((num : Int) - 1 : Int) : K)).map m.sqrt

/-- The function `fe_spectral_centroid` with its divisions checked: the division by
`N_f` in every iteration of the loop and the final division by `mag_sum`. -/
def fe_spectral_centroid_checked (magnitude : Nat → K) (info : fe_extraction_info K) :
    Option K :=
  let fs_f : K := (info.fs : K)
  let N_f : K := (info.frame_length : K)
  let st := forLoop info.dft_length
    (fun i (st : Option (K × K)) =>
      match st, fdiv ((i : K) * fs_f) N_f with
      | some st, some bin_frequency =>
        some (st.1 + magnitude i, st.2 + bin_frequency * magnitude i)
      | _, _ => none)
    (some (0, 0))
  match st with
  | none => none
  | some st => fdiv st.2 st.1

/-- The function `fe_spectral_flux` with its division checked. -/
def fe_spectral_flux_checked (mag_cur mag_prev : Nat → K) (fluxType : fe_spec_flux_t)
    (info : fe_extraction_info K) : Option K :=
  let sum :=
    if fluxType = fe_spec_flux_t.FE_SPEC_FLUX_UNRECTIFIED then
      forLoop info.dft_length (fun i sum => sum + (mag_cur i - mag_prev i) ^ 2) 0
    else
      forLoop info.dft_length
        (fun i sum =>
          let flux := mag_cur i - mag_prev i
          let flux := (flux + |flux|) / 2
          sum + flux ^ 2)
        0
  fdiv sum (info.dft_length : K)

/-- The width `boundary[i+1] - boundary[i]` of band `i` of `fe_spectral_contrast`. -/
def fe_band_width (info : fe_extraction_info K) (i : Nat) : Nat :=
  fe_boundary info (i + 1) - fe_boundary info i

/-- The variable `neighborhood` of `fe_spectral_contrast` for band `i`:
`(int)(0.2 * width)`, the quotient `width / 5`. -/
def fe_band_neighborhood (info : fe_extraction_info K) (i : Nat) : Nat :=
  fe_band_width info i / 5

/-- The averages `fe_band_peak_valley` with the two divisions by `neighborhood`
checked. -/
def fe_band_peak_valley_checked (info : fe_extraction_info K) (i : Nat) (mag_cpy : Nat → K)
    (mag_cpy_ptr : Nat) : Option (K × K) :=
  let width := fe_boundary info (i + 1) - fe_boundary info i
  let mag_cpy := qsort mag_cpy mag_cpy_ptr width
  let neighborhood := width / 5
  let pv := forLoop neighborhood
    (fun j (pv : K × K) =>
      (pv.1 + mag_cpy (mag_cpy_ptr + (width - neighborhood) + j),
       pv.2 + mag_cpy (mag_cpy_ptr + j)))
    (0, 0)
  match fdiv pv.2 (neighborhood : K), fdiv pv.1 (neighborhood : K) with
  | some valley, some peak => some (peak, valley)
  | _, _ => none

/-- One iteration of the band loop of `fe_spectral_contrast` with the divisions and the
three calls of `log` checked. -/
def fe_contrast_band_checked (m : MathLib K) (info : fe_extraction_info K) (i : Nat)
    (st : fe_contrast_state K) : Option (fe_contrast_state K) :=
  let width := fe_boundary info (i + 1) - fe_boundary info i
  match fe_band_peak_valley_checked info i st.mag_cpy st.mag_cpy_ptr with
  | none => none
  | some (peak, valley) =>
    match flog m peak, flog m valley, flog m (peak - valley) with
    | some log_peak, some log_valley, some log_contrast =>
      let mem := store st.mem st.contrast_features log_peak
      let mem := store mem (st.contrast_features + info.bands * info.frames_in_window)
        log_valley
      let mem := store mem (st.contrast_features + info.bands * 2 * info.frames_in_window)
        log_contrast
      some
        { mag_cpy := qsort st.mag_cpy st.mag_cpy_ptr width
          mag_cpy_ptr := fe_boundary info (i + 1)
          mem := mem
          contrast_features := st.contrast_features + info.frames_in_window }
    | _, _, _ => none

/-- The function `fe_spectral_contrast` with the divisions and the calls of `log`
checked. -/
def fe_spectral_contrast_checked (m : MathLib K) (magnitude : Nat → K) (mem : Nat → K)
    (p : Nat) (info : fe_extraction_info K) : Option (Nat → K) :=
  let mag_cpy := forLoop info.dft_length (fun i mag_cpy => store mag_cpy i (magnitude i))
    (fun _ => 0)
  (forLoop info.bands
    (fun i (st : Option (fe_contrast_state K)) =>
      match st with
      | none => none
      | some st => fe_contrast_band_checked m info i st)
    (some { mag_cpy := mag_cpy, mag_cpy_ptr := 0, mem := mem, contrast_features := p })).map
    (fun st => st.mem)

/-- The first half of `fe_rhythmic_features`, up to the two onset outputs, with the
divisions checked: the pair is `(rhythm_features[0], rhythm_features[1])`. -/
def fe_rhythm_onset_features_checked (m : MathLib K) (flux_buffer : Nat → K)
    (info : fe_extraction_info K) : Option (K × K) :=
  match fe_mean_checked flux_buffer info.frames_in_window,
      fe_stdv_checked m flux_buffer info.frames_in_window with
  | some mean, some stdv =>
    let threshold := mean + stdv
    let onsets := fe_onset_scan flux_buffer threshold info.frames_in_window
    let sum_onset_amp := onsets.1
    let onset_counter := onsets.2
    match fdiv (onset_counter : K) info.window_length,
        fdiv sum_onset_amp (onset_counter : K) with
    | some onsets_per_sec, some mean_onset_amp => some (onsets_per_sec, mean_onset_amp)
    | _, _ => none
  | _, _ => none

/-! ## The shipped configuration -/

/-- The macro `N_SAMPS`. -/
def N_SAMPS : Nat := 2048

/-- The macro `FS`. -/
def FS : Nat := 44100

/-- The macro `ROLLOFF`. -/
def ROLLOFF : K := 85 / 100

/-- The macro `BANDS`. -/
def BANDS : Nat := 7

/-- The macro `NUM_TIMBRE_FEATURES`. -/
def NUM_TIMBRE_FEATURES : Nat := 24

/-- The macro `NUM_ONSET_FEATURES`. -/
def NUM_ONSET_FEATURES : Nat := 4

/-- The function `fe_initialize_extraction_info`. The conversions of a float to `int`,
`(int)info->window_length` and the assignment to `frames_in_window`, are on values that
are not negative and round down. -/
def fe_initialize_extraction_info [FloorRing K] : fe_extraction_info K :=
  let fs := FS
  let frame_length := N_SAMPS
  let window_length : K := 3
  { fs := fs
    frame_length := frame_length
    dft_length := N_SAMPS / 2 + 1
    window_length := window_length
    frames_in_window :=
      ⌊(window_length * (fs : K) - ((⌊window_length⌋₊ * fs % frame_length : Nat) : K))
        / (frame_length : K)⌋₊
    bands := BANDS
    rolloff := ROLLOFF
    num_timbre_features := NUM_TIMBRE_FEATURES
    num_onset_features := NUM_ONSET_FEATURES }

/-- Bin `k` belongs to band `i` of `fe_spectral_contrast`: it is one of the
`boundary[i+1] - boundary[i]` entries, from `mag_cpy + boundary[i]` on, that the
iteration for band `i` sorts and averages. -/
def fe_band_contains (info : fe_extraction_info K) (i k : Nat) : Bool :=
  decide (fe_boundary info i ≤ k ∧ k < fe_boundary info i + fe_band_width info i)

end FeatureExtraction

/-! ## `imageDisplay.c`: colour conversion and the texture update -/

section ImageDisplay

variable {K : Type} [LinearOrderedField K]

/-- The function `minOfThree`. -/
def minOfThree (a b c : K) : K :=
  let minimum := a
  let minimum := if b < minimum then b else minimum
  let minimum := if c < minimum then c else minimum
  minimum

/-- The function `maxOfThree`. -/
def maxOfThree (a b c : K) : K :=
  let maximum := a
  let maximum := if b > maximum then b else maximum
  let maximum := if c > maximum then c else maximum
  maximum

/-- The conversion `(int)x` of a float: the fractional part is discarded, which rounds
toward zero. -/
def castInt [FloorRing K] (x : K) : Int :=
  if 0 ≤ x then ⌊x⌋ else ⌈x⌉

/-- The function `RGBtoHSV`; the result is the triple `(*h, *s, *v)`. -/
def RGBtoHSV (r_int g_int b_int : Int) : K × K × K :=
  let r : K := (r_int : K) / 255
  let g : K := (g_int : K) / 255
  let b : K := (b_int : K) / 255
  let minimum := minOfThree r g b
  let maximum := maxOfThree r g b
  let v := maximum
  let delta := maximum - minimum
  if maximum ≠ 0 ∧ delta ≠ 0 then
    let s := delta / maximum
    let h :=
      if r = maximum then (g - b) / delta
      else if g = maximum then 2 + (b - r) / delta
      else 4 + (r - g) / delta
    let h := h * 60
    let h := if h < 0 then h + 360 else h
    (h, s, v)
  else
    (-1, 0, v)

/-- The function `HSVtoRGB`; the result is the triple `(*r, *g, *b)`. -/
def HSVtoRGB [FloorRing K] (h s v : K) : Int × Int × Int :=
  if s = 0 then
    (castInt (v * 255), castInt (v * 255), castInt (v * 255))
  else
    let h := h / 60
    let i := castInt h
    let f := h - (i : K)
    let p := v * (1 - s)
    let q := v * (1 - s * f)
    let t := v * (1 - s * (1 - f))
    if i = 0 then (castInt (v * 255), castInt (t * 255), castInt (p * 255))
    else if i = 1 then (castInt (q * 255), castInt (v * 255), castInt (p * 255))
    else if i = 2 then (castInt (p * 255), castInt (v * 255), castInt (t * 255))
    else if i = 3 then (castInt (p * 255), castInt (q * 255), castInt (v * 255))
    else if i = 4 then (castInt (t * 255), castInt (p * 255), castInt (v * 255))
    else (castInt (v * 255), castInt (p * 255), castInt (q * 255))

/-- The macro `LAMBDA`. -/
def LAMBDA : K := 5 / 10

/-- The saturation and brightness modifiers `(beta, gamma)` that `id_updateTexture`
computes from its arguments `arousal` and `valence` before it touches the texture. -/
def id_updateTexture_modifiers (arousal valence : K) : K × K :=
  let beta := if arousal > 0 then 1 - arousal else 1 / (1 + arousal)
  let gamma := if valence > 0 then 1 - valence else 1 / (1 + valence)
  (beta, gamma)

/-- The modifiers of `id_updateTexture` with the two float divisions checked: there is
no result when a division by zero is executed. -/
def id_updateTexture_modifiers_checked (arousal valence : K) : Option (K × K) :=
  match (if arousal > 0 then some (1 - arousal) else fdiv 1 (1 + arousal)) with
  | none => none
  | some beta =>
    match (if valence > 0 then some (1 - valence) else fdiv 1 (1 + valence)) with
    | none => none
    | some gamma => some (beta, gamma)

/-- The variables `prev_arousal` and `prev_valence` of `id_textureUpdateRoutine`. -/
structure id_texture_state (K : Type) where
  prev_arousal : K
  prev_valence : K

/-- One pass of the `while` loop of `id_textureUpdateRoutine` up to the call of
`id_updateTexture`, reading the predictions `arousal` and `valence` through the two
pointers of the thread data: the result is the state of the next pass and the pair
`(cur_arousal, cur_valence)` passed to `id_updateTexture`. -/
def id_textureUpdateRoutine_pass (arousal valence : K) (st : id_texture_state K) :
    id_texture_state K × (K × K) :=
  let cur_arousal := (1 - LAMBDA) * st.prev_arousal + LAMBDA * arousal
  let cur_valence := (1 - LAMBDA) * st.prev_valence + LAMBDA * valence
  let cur_arousal :=
    if ¬ (cur_arousal < 1) ∨ ¬ (cur_arousal > -1) then st.prev_arousal else cur_arousal
  let cur_valence :=
    if ¬ (cur_valence < 1) ∨ ¬ (cur_valence > -1) then st.prev_valence else cur_valence
  let prev_arousal := cur_arousal
  let prev_valence := cur_valence
  let cur_arousal := cur_arousal * 2
  let cur_arousal :=
    if cur_arousal > 1 then 1 else if cur_arousal < -1 then -1 else cur_arousal
  let cur_valence := cur_valence * 3
  let cur_valence :=
    if cur_valence > 1 then 1 else if cur_valence < -1 then -1 else cur_valence
  ({ prev_arousal := prev_arousal, prev_valence := prev_valence },
    (cur_arousal, cur_valence))

/-- The passes of `id_textureUpdateRoutine` from the state `st` on, one for each pair of
predictions `(arousal, valence)` of the list that the loop finds behind the two pointers:
the list of the pairs passed to `id_updateTexture`, in order. -/
def id_textureUpdateRoutine_from : List (K × K) → id_texture_state K → List (K × K)
  | [], _ => []
  | p :: rest, st =>
    let r := id_textureUpdateRoutine_pass p.1 p.2 st
    r.2 :: id_textureUpdateRoutine_from rest r.1

/-- The function `id_textureUpdateRoutine`, which enters its loop with
`prev_arousal = prev_valence = 0`. -/
def id_textureUpdateRoutine (predictions : List (K × K)) : List (K × K) :=
  id_textureUpdateRoutine_from predictions { prev_arousal := 0, prev_valence := 0 }

end ImageDisplay

/-! ## `moodRecognition.c`: loading a model

A text file is the list of its whitespace-separated tokens in reading order, and `fopen`
is a function from paths to files, `none` for a file that cannot be opened. A conversion
of `fscanf` reads one token; which tokens are numbers, and which numbers, is the C
library's matter (`ScanLib`). A token of which only a proper prefix is a number, and a
token longer than the buffer `header`, are outside this model. -/

/-- The conversions `%d` and `%f` of `fscanf` on one token: the number read, or `none`
when the token is not a number. A number that `%d` yields is a C `int`. -/
structure ScanLib (K : Type) where
  scan_d : String → Option Int
  scan_f : String → Option K

/-- The struct `mr_array`; `data_ptr` is `none` when it is `NULL`. -/
structure mr_array (K : Type) where
  data_ptr : Option (Nat → K)
  N : Int
  M : Int

section ModelLoading

variable {K : Type} [LinearOrderedField K]

/-- The call `fscanf( filePtr, "%s", header )`, whose return value the program ignores:
the next token is copied to `header`; at the end of the file `header` keeps its
contents. The result is the new `header` and the rest of the file. -/
def fscanf_s (file : List String) (header : String) : String × List String :=
  match file with
  | [] => (header, [])
  | t :: rest => (t, rest)

/-- The call `fscanf( filePtr, "%d", &n )` where it returns 1: the number read and the
rest of the file. -/
def fscanf_d (lib : ScanLib K) (file : List String) : Option (Int × List String) :=
  match file with
  | [] => none
  | t :: rest =>
    match lib.scan_d t with
    | none => none
    | some n => some (n, rest)

/-- The call `fscanf( filePtr, "%f", &x )` where it returns 1: the number read and the
rest of the file. -/
def fscanf_f (lib : ScanLib K) (file : List String) : Option (K × List String) :=
  match file with
  | [] => none
  | t :: rest =>
    match lib.scan_f t with
    | none => none
    | some x => some (x, rest)

/-- The product `a * b` of two C `int`s as the compiled program evaluates it: the exact
product brought back into the range −2³¹ … 2³¹ − 1 of a 32-bit `int` (the C standard
leaves the overflow of a signed product undefined). -/
def int_mul (a b : Int) : Int :=
  (a * b + 2 ^ 31) % 2 ^ 32 - 2 ^ 31

/-- The data loop of `mr_fill_array` over `count` entries: the values stored and the rest
of the file, or `none` when a conversion fails and the loop is left by `break`. -/
def mr_fill_array_data (lib : ScanLib K) : Nat → List String → Option (List K × List String)
  | 0, file => some ([], file)
  | count + 1, file =>
    match fscanf_f lib file with
    | none => none
    | some (x, rest) =>
      match mr_fill_array_data lib count rest with
      | none => none
      | some (data, rest) => some (x :: data, rest)

/-- The function `mr_fill_array` on the file that `fopen( path, "r" )` returns.
`malloc N M` tells whether `malloc( sizeof(float) * N * M )` returns a block, and
`header` is the unspecified initial content of the local array `header`. The bound
`array_struct.N * array_struct.M` of the data loop and of the test that follows it is a
product of `int`s, `int_mul N M`; the loop does not run when it is not positive, and the
test for extra data is made only when the counter has reached it. The fields `N` and `M`
are entered as 0 until they are assigned. There is no result when the file cannot be
opened: the `exit:` path then calls `fclose` on a null pointer, which is undefined. -/
def mr_fill_array (lib : ScanLib K) (malloc : Int → Int → Bool) (header : String)
    (file : Option (List String)) : Option (mr_array K) :=
  match file with
  | none => none
  | some file =>
    let hf := fscanf_s file header
    if hf.1 ≠ "COLS" then some { data_ptr := none, N := 0, M := 0 }
    else
      match fscanf_d lib hf.2 with
      | none => some { data_ptr := none, N := 0, M := 0 }
      | some (N, file) =>
        let hf := fscanf_s file hf.1
        if hf.1 ≠ "ROWS" then some { data_ptr := none, N := N, M := 0 }
        else
          match fscanf_d lib hf.2 with
          | none => some { data_ptr := none, N := N, M := 0 }
          | some (M, file) =>
            let hf := fscanf_s file hf.1
            if hf.1 ≠ "DATA" then some { data_ptr := none, N := N, M := M }
            else if malloc N M = false then some { data_ptr := none, N := N, M := M }
            else
              match mr_fill_array_data lib (int_mul N M).toNat hf.2 with
              | none => some { data_ptr := none, N := N, M := M }
              | some (data, file) =>
                if int_mul N M < 0 then
                  some { data_ptr := some (fun i => data.getD i 0), N := N, M := M }
                else
                  match fscanf_f lib file with
                  | some _ => some { data_ptr := none, N := N, M := M }
                  | none =>
                    some { data_ptr := some (fun i => data.getD i 0), N := N, M := M }

/-- The model that `mr_create_model` returns through `exit:` with `init_success == 0`:
the three pointers it frees are `NULL`, and so is `support_vectors`, which is assigned on
the successful path only. The arguments are the fields assigned before the failure; a
field that the path taken has not assigned is entered as 0. -/
def mr_create_model_failed (bias scale : K) (num_features num_sv : Int) : mr_model K :=
  { init_success := 0, num_features := num_features, num_sv := num_sv,
    mu := fun _ => 0, sigma := fun _ => 0, scale := scale, bias := bias,
    alpha := fun _ => 0, support_vectors := fun _ => 0 }

end ModelLoading

/-! ## The predictor with its array declaration and divisions checked -/

section PredictChecked

variable {K : Type} [LinearOrderedField K]

/-- The normalisation loop of `mr_predict` with its division checked. -/
def mr_normalize_checked (x : Nat → K) (mdl : mr_model K) : Option (Nat → K) :=
  forLoop mdl.num_features.toNat
    (fun i (x_normed : Option (Nat → K)) =>
      match x_normed with
      | none => none
      | some x_normed =>
        match fdiv (x i - mdl.mu i) (mdl.sigma i) with
        | none => none
        | some q => some (store x_normed i q))
    (some (fun _ => 0))

/-- The function `mr_predict` with the declaration `float x_normed[mdl.num_features]` and
the float divisions checked. The declaration is evaluated on entry, before the test of
`init_success`; the size of a variable-length array has to be greater than zero, and
there is no result (`none`) when `num_features` is not. There is no result either when
a division by a zero `sigma` entry or by a zero `varience` is executed. -/
def mr_predict_checked (m : MathLib K) (x : Nat → K) (mdl : mr_model K) : Option K :=
  if mdl.num_features ≤ 0 then none
  else if mdl.init_success ≠ 1 then some 0
  else
    let varience := mdl.scale ^ 2
    match mr_normalize_checked x mdl with
    | none => none
    | some x_normed =>
      let sum := forLoop mdl.num_sv.toNat
        (fun i (sum : Option K) =>
          match sum with
          | none => none
          | some sum =>
            let norm_sum := forLoop mdl.num_features.toNat
              (fun j norm_sum =>
                norm_sum
                  + (mdl.support_vectors (i * mdl.num_features.toNat + j) - x_normed j) ^ 2)
              0
            match fdiv (-norm_sum) varience with
            | none => none
            | some q => some (sum + mdl.alpha i * m.exp q))
        (some 0)
      match sum with
      | none => none
      | some sum => some (sum + mdl.bias)

end PredictChecked

/-! ## Concrete inputs

Small inputs over `ℚ` on which the definitions above are evaluated. The theorems hold
for every `MathLib` record, so `ratMath` fills it with rational functions, which is all
an evaluation needs. -/

/-- A `<math.h>` record over `ℚ`: rational stand-ins for the four functions. -/
def ratMath : MathLib ℚ :=
  { sqrt := fun q => q
    exp := fun q => 1 + q
    log := fun q => q - 1
    cos := fun q => 1 - q * q / 2 }

/-- A valid model with two support vectors in two dimensions. -/
def demoModel : mr_model ℚ :=
  { init_success := 1, num_features := 2, num_sv := 2,
    mu := fun _ => 1, sigma := fun _ => 2, scale := 2, bias := 3,
    alpha := fun i => if i = 0 then 1 else -2,
    support_vectors := fun k => (k : ℚ) }

/-- The sequence 3, 5, 5, 5, …. -/
def demoInput : Nat → ℚ := fun j => if j = 0 then 3 else 5

/-- A configuration with four transform bins and six frames per window. -/
def demoInfo (rolloff : ℚ) : fe_extraction_info ℚ :=
  { fs := 44100, frame_length := 2048, dft_length := 4, window_length := 3,
    frames_in_window := 6, bands := 1, rolloff := rolloff,
    num_timbre_features := 6, num_onset_features := 4 }

/-- A configuration whose single contrast band, the bins 0 … 6, lies within the nine
transform bins. -/
def demoInfoFit : fe_extraction_info ℚ :=
  { fs := 44100, frame_length := 16, dft_length := 9, window_length := 3,
    frames_in_window := 6, bands := 1, rolloff := 1 / 2,
    num_timbre_features := 6, num_onset_features := 4 }

/-- The flat spectrum 1, 1, 1, …. -/
def demoSpectrum : Nat → ℚ := fun _ => 1

/-- The spectrum 2, 0, 0, …. -/
def demoCur : Nat → ℚ := fun j => if j = 0 then 2 else 0

/-- The spectrum 1, 3, 3, …. -/
def demoPrev : Nat → ℚ := fun j => if j = 0 then 1 else 3

/-- Thread data of the prediction loop over `demoInfo`: the timbre matrix holds
0, 1, 2, … and the flux buffer the sequence 3, 5, 5, 5, …. -/
def demoThreadData : mr_detection_thread_data ℚ :=
  { terminate_thread := 0, init_success := 1, extraction_info := demoInfo (1 / 2),
    timbre_matrix := fun k => (k : ℚ), rec_flux_buffer := demoInput,
    features := fun _ => 0, arousal_mdl := demoModel, valence_mdl := demoModel,
    arousal_prediction := 0, valence_prediction := 0 }

/-- A configuration with eight frames per window. -/
def demoInfo8 : fe_extraction_info ℚ :=
  { fs := 44100, frame_length := 2048, dft_length := 4, window_length := 3,
    frames_in_window := 8, bands := 1, rolloff := 1 / 2,
    num_timbre_features := 6, num_onset_features := 4 }

/-- The flux window 1/2, 0, 1/2, 0, …, of period two. -/
def demoPulse : Nat → ℚ := fun j => if j % 2 = 0 then 1 / 2 else 0

/-- A configuration with frames of four samples, three transform bins, one contrast
band and two frames per window. -/
def demoInfoCb : fe_extraction_info ℚ :=
  { fs := 44100, frame_length := 4, dft_length := 3, window_length := 3,
    frames_in_window := 2, bands := 1, rolloff := 1 / 2,
    num_timbre_features := 6, num_onset_features := 4 }

/-- A transform over `ℚ` for evaluating the callback: bin `k` is the sample `k`. -/
def demoFFT : Nat → (Nat → ℚ) → Nat → ℚ × ℚ := fun _ audio k => (audio k, 0)

/-- Thread data over `demoInfoCb` with a flat window, zeroed buffers and the cursor on
column `columnPtr`. -/
def demoData (columnPtr : Nat) : fe_extraction_thread_data ℚ :=
  { audio := some (fun _ => 0), hamm_win := some (fun _ => 1), dft := some (fun _ => (0, 0)),
    magnitude := some (fun _ => 0), prev_mag := some (fun _ => 0),
    rectified_flux_buffer := some (fun _ => 0), timbre_matrix := some (fun _ => 0),
    columnPtr := columnPtr, info := demoInfoCb, fftPlan := true, boolOutputDevice := 0,
    init_success := 1 }

/-- The input block whose samples are all 1. -/
def demoBlock : Nat → ℚ := fun _ => 1

/-- A configuration with sixteen frames per window. -/
def demoInfo16 : fe_extraction_info ℚ :=
  { fs := 44100, frame_length := 2048, dft_length := 4, window_length := 3,
    frames_in_window := 16, bands := 1, rolloff := 1 / 2,
    num_timbre_features := 6, num_onset_features := 4 }

/-- The flux window 1/4, 0, 1/4, 0, …, of period two. -/
def demoPulse16 : Nat → ℚ := fun j => if j % 2 = 0 then 1 / 4 else 0

/-- A `<math.h>` record over `ℚ` whose `exp` takes values in (0,1] on arguments that are
not positive, as the real exponential does. -/
def ratKernelMath : MathLib ℚ :=
  { sqrt := fun q => q
    exp := fun q => 1 / (1 - q)
    log := fun q => q - 1
    cos := fun q => 1 - q * q / 2 }

/-- An allocation in which every call succeeds and every fresh block holds the value 7
in each entry, a content that `malloc` is free to hand out. -/
def demoHeap : fe_allocation ℚ :=
  { audio := some (fun _ => 7), hamm_win := some (fun _ => 7), dft := some (fun _ => (7, 7)),
    magnitude := some (fun _ => 7), prev_mag := some (fun _ => 7),
    rectified_flux_buffer := some (fun _ => 7), timbre_matrix := some (fun _ => 7),
    fftPlan := true }

/-- A conversion table for the tokens `0`, `1`, `2`, `3` and `5`, and for `32768` and
`65536` as integers; no other token is a number. -/
def demoScanLib : ScanLib ℚ :=
  { scan_d := fun t =>
      if t = "0" then some 0 else if t = "1" then some 1 else if t = "2" then some 2
      else if t = "3" then some 3 else if t = "5" then some 5
      else if t = "32768" then some 32768 else if t = "65536" then some 65536 else none
    scan_f := fun t =>
      if t = "0" then some 0 else if t = "1" then some 1 else if t = "2" then some 2
      else if t = "3" then some 3 else if t = "5" then some 5 else none }

/-- The model `demoModel` with a zero in the first entry of `sigma`. -/
def demoZeroSigma : mr_model ℚ :=
  { demoModel with sigma := fun j => if j = 0 then 0 else 2 }

/-! ## Lemmas on memory and loops -/

section MemoryLemmas

variable {K : Type}

theorem store_same (p : Nat → K) (i : Nat) (v : K) : store p i v i = v := by
  simp [store]

theorem store_other (p : Nat → K) (i k : Nat) (v : K) (h : k ≠ i) : store p i v k = p k := by
  simp [store, h]

theorem forLoop_store_get (n : Nat) (f : Nat → K) (p : Nat → K) (j : Nat) :
    forLoop n (fun i q => store q i (f i)) p j = if j < n then f j else p j := by
  induction n with
  | zero => simp [forLoop]
  | succ n ih =>
    simp only [forLoop, store]
    by_cases hj : j = n
    · subst hj; simp
    · rw [if_neg hj, ih]
      by_cases h1 : j < n
      · simp [h1, Nat.lt_succ_of_lt h1]
      · have : ¬ j < n + 1 := by omega
        simp [h1, this]

theorem store3_other (mem : Nat → K) (i₁ i₂ i₃ k : Nat) (v₁ v₂ v₃ : K)
    (h₁ : k ≠ i₁) (h₂ : k ≠ i₂) (h₃ : k ≠ i₃) :
    store (store (store mem i₁ v₁) i₂ v₂) i₃ v₃ k = mem k := by
  rw [store_other _ _ _ _ h₃, store_other _ _ _ _ h₂, store_other _ _ _ _ h₁]

end MemoryLemmas

/-! ## Lemmas on sums -/

section LoopLemmas

variable {K : Type} [LinearOrderedField K]

theorem forLoop_add_eq_sum (n : Nat) (f : Nat → K) (s : K) :
    forLoop n (fun i acc => acc + f i) s = s + ∑ i in Finset.range n, f i := by
  induction n with
  | zero => simp [forLoop]
  | succ n ih => simp only [forLoop, ih, Finset.sum_range_succ]; ring

theorem forLoop_congr {σ : Type} (n : Nat) (b₁ b₂ : Nat → σ → σ) (s : σ)
    (h : ∀ i, i < n → ∀ t, b₁ i t = b₂ i t) :
    forLoop n b₁ s = forLoop n b₂ s := by
  induction n with
  | zero => rfl
  | succ n ih =>
    simp only [forLoop]
    rw [ih (fun i hi t => h i (Nat.lt_succ_of_lt hi) t), h n (Nat.lt_succ_self n)]

theorem mr_normalize_get (x : Nat → K) (mdl : mr_model K) (j : Nat)
    (hj : j < mdl.num_features.toNat) :
    mr_normalize x mdl j = (x j - mdl.mu j) / mdl.sigma j := by
  unfold mr_normalize
  rw [forLoop_store_get]
  simp [hj]

end LoopLemmas

/-! ## Theorems -/

section PredictTheorems

variable {K : Type} [LinearOrderedField K]

theorem mr_predict_loops (m : MathLib K) (x : Nat → K) (mdl : mr_model K)
    (h : mdl.init_success = 1) :
    mr_predict m x mdl =
      (∑ i in Finset.range mdl.num_sv.toNat,
        mdl.alpha i * m.exp (-(∑ j in Finset.range mdl.num_features.toNat,
          (mdl.support_vectors (i * mdl.num_features.toNat + j)
            - (x j - mdl.mu j) / mdl.sigma j) ^ 2) / mdl.scale ^ 2)) + mdl.bias := by
  unfold mr_predict
  rw [if_neg (by simp [h])]
  simp only
  rw [forLoop_add_eq_sum, zero_add]
  congr 1
  apply Finset.sum_congr rfl
  intro i _
  rw [forLoop_add_eq_sum, zero_add]
  congr 4
  apply Finset.sum_congr rfl
  intro j hj
  rw [mr_normalize_get x mdl j (Finset.mem_range.mp hj)]

end PredictTheorems

section FluxTheorems

variable {K : Type} [LinearOrderedField K]

theorem rectified_sq_le (d : K) : ((d + |d|) / 2) ^ 2 ≤ d ^ 2 := by
  rcases le_total 0 d with h | h
  · rw [abs_of_nonneg h]
    apply le_of_eq
    ring
  · rw [abs_of_nonpos h, add_neg_cancel, zero_div]
    simpa using sq_nonneg d

theorem fe_spectral_flux_unrectified_eq (cur prev : Nat → K) (info : fe_extraction_info K) :
    fe_spectral_flux cur prev fe_spec_flux_t.FE_SPEC_FLUX_UNRECTIFIED info =
      (∑ i in Finset.range info.dft_length, (cur i - prev i) ^ 2) / (info.dft_length : K) := by
  simp [fe_spectral_flux, forLoop_add_eq_sum]

theorem fe_spectral_flux_rectified_eq (cur prev : Nat → K) (info : fe_extraction_info K) :
    fe_spectral_flux cur prev fe_spec_flux_t.FE_SPEC_FLUX_RECTIFIED info =
      (∑ i in Finset.range info.dft_length, ((cur i - prev i + |cur i - prev i|) / 2) ^ 2)
        / (info.dft_length : K) := by
  simp [fe_spectral_flux, forLoop_add_eq_sum]

/-- C3: for magnitude spectra `cur`, `prev` of length `dft_length ≥ 1`, both variants of
`fe_spectral_flux` are non-negative and the rectified flux is at most the unrectified
flux. -/
theorem fe_spectral_flux_rectified_le (cur prev : Nat → K) (info : fe_extraction_info K)
    (h : 1 ≤ info.dft_length) :
    0 ≤ fe_spectral_flux cur prev fe_spec_flux_t.FE_SPEC_FLUX_RECTIFIED info ∧
    fe_spectral_flux cur prev fe_spec_flux_t.FE_SPEC_FLUX_RECTIFIED info ≤
      fe_spectral_flux cur prev fe_spec_flux_t.FE_SPEC_FLUX_UNRECTIFIED info ∧
    0 ≤ fe_spectral_flux cur prev fe_spec_flux_t.FE_SPEC_FLUX_UNRECTIFIED info := by
  have hpos : (0 : K) < (info.dft_length : K) := by exact_mod_cast h
  rw [fe_spectral_flux_rectified_eq, fe_spectral_flux_unrectified_eq]
  refine ⟨?_, ?_, ?_⟩
  · exact div_nonneg (Finset.sum_nonneg (fun i _ => sq_nonneg _)) hpos.le
  · apply div_le_div_of_nonneg_right _ hpos.le
    exact Finset.sum_le_sum (fun i _ => rectified_sq_le _)
  · exact div_nonneg (Finset.sum_nonneg (fun i _ => sq_nonneg _)) hpos.le

theorem fe_spectral_flux_rectified_le_witness :
    1 ≤ (demoInfo (1 / 2)).dft_length ∧
    fe_spectral_flux demoCur demoPrev fe_spec_flux_t.FE_SPEC_FLUX_RECTIFIED (demoInfo (1 / 2))
      ≤ fe_spectral_flux demoCur demoPrev fe_spec_flux_t.FE_SPEC_FLUX_UNRECTIFIED
          (demoInfo (1 / 2)) :=
  ⟨by decide, (fe_spectral_flux_rectified_le demoCur demoPrev (demoInfo (1 / 2)) (by decide)).2.1⟩

end FluxTheorems

section AutocorrelationTheorems

variable {K : Type} [LinearOrderedField K]

theorem fe_autocorrelate_lag_eq (x : Nat → K) (N i : Nat) (hi : i ≤ N) :
    fe_autocorrelate_lag x N i = ∑ j in Finset.range N, x j * x ((j + i) % N) := by
  unfold fe_autocorrelate_lag
  have hbody : ∀ j, j < N → ∀ t : K,
      (if i + j < N then t + x j * x (j + i) else t + x j * x (j + i - N))
        = t + x j * x ((j + i) % N) := by
    intro j hj t
    by_cases hlt : i + j < N
    · rw [if_pos hlt, Nat.mod_eq_of_lt (by omega)]
    · rw [if_neg hlt]
      have h1 : (j + i) % N = j + i - N := by
        rw [Nat.mod_eq_sub_mod (by omega), Nat.mod_eq_of_lt (by omega)]
      rw [h1]
  rw [forLoop_congr N _ (fun j t => t + x j * x ((j + i) % N)) 0 hbody,
    forLoop_add_eq_sum, zero_add]

theorem sum_range_shift_mod (N i : Nat) (g : Nat → K) :
    ∑ j in Finset.range N, g ((j + i) % N) = ∑ j in Finset.range N, g j := by
  rcases Nat.eq_zero_or_pos N with hN | hN
  · subst hN; simp
  · haveI : NeZero N := ⟨by omega⟩
    rw [Finset.sum_range, Finset.sum_range]
    have h := Equiv.sum_comp (Equiv.addRight (Fin.ofNat' N i)) (fun k : Fin N => g k.val)
    rw [← h]
    apply Finset.sum_congr rfl
    intro j _
    simp [Fin.val_add, Fin.ofNat']

theorem circular_sum_le_sum_sq (N i : Nat) (x : Nat → K) :
    ∑ j in Finset.range N, x j * x ((j + i) % N) ≤ ∑ j in Finset.range N, x j * x j := by
  have h1 : ∑ j in Finset.range N, x ((j + i) % N) * x ((j + i) % N)
      = ∑ j in Finset.range N, x j * x j :=
    sum_range_shift_mod N i (fun k => x k * x k)
  have h2 : ∀ j ∈ Finset.range N,
      2 * (x j * x ((j + i) % N)) ≤ x j * x j + x ((j + i) % N) * x ((j + i) % N) := by
    intro j _
    nlinarith [sq_nonneg (x j - x ((j + i) % N))]
  have h3 := Finset.sum_le_sum h2
  rw [Finset.sum_add_distrib, h1, ← Finset.mul_sum] at h3
  linarith

/-- C4: for a sequence `x` of length `N`, `fe_autocorrelate` writes exactly the
`N/2` (rounded down) entries `ac[i] = Σ_{j<N} x[j]·x[(j+i) mod N]`, `i < N/2`, and leaves
the rest of `ac` alone; `ac[0]` is the sum of the squared samples and `ac[0] ≥ ac[i]`
for every lag `i` written. -/
theorem fe_autocorrelate_spec (x ac : Nat → K) (N : Nat) :
    (∀ i, i < N / 2 →
      fe_autocorrelate x ac N i = ∑ j in Finset.range N, x j * x ((j + i) % N)) ∧
    (∀ i, N / 2 ≤ i → fe_autocorrelate x ac N i = ac i) ∧
    (0 < N / 2 → fe_autocorrelate x ac N 0 = ∑ j in Finset.range N, x j ^ 2) ∧
    (∀ i, i < N / 2 → fe_autocorrelate x ac N i ≤ fe_autocorrelate x ac N 0) := by
  have hget : ∀ i, fe_autocorrelate x ac N i
      = if i < N / 2 then fe_autocorrelate_lag x N i else ac i := by
    intro i
    unfold fe_autocorrelate
    rw [forLoop_store_get]
  have hlag : ∀ i, i < N / 2 →
      fe_autocorrelate x ac N i = ∑ j in Finset.range N, x j * x ((j + i) % N) := by
    intro i hi
    rw [hget, if_pos hi, fe_autocorrelate_lag_eq x N i (by omega)]
  have hzero : 0 < N / 2 → fe_autocorrelate x ac N 0 = ∑ j in Finset.range N, x j * x j := by
    intro h0
    rw [hlag 0 h0]
    apply Finset.sum_congr rfl
    intro j hj
    rw [Nat.add_zero, Nat.mod_eq_of_lt (Finset.mem_range.mp hj)]
  refine ⟨hlag, ?_, ?_, ?_⟩
  · intro i hi
    rw [hget, if_neg (by omega)]
  · intro h0
    rw [hzero h0]
    exact Finset.sum_congr rfl (fun j _ => (sq (x j)).symm)
  · intro i hi
    rw [hlag i hi, hzero (by omega)]
    exact circular_sum_le_sum_sq N i x

theorem fe_autocorrelate_spec_witness :
    fe_autocorrelate demoInput (fun _ => 0) 4 1 ≤ fe_autocorrelate demoInput (fun _ => 0) 4 0 :=
  (fe_autocorrelate_spec demoInput (fun _ => 0) 4).2.2.2 1 (by decide)

end AutocorrelationTheorems

section RolloffTheorems

variable {K : Type} [LinearOrderedField K]

theorem fe_magnitude_sum_eq (magnitude : Nat → K) (n : Nat) :
    fe_magnitude_sum magnitude n = ∑ j in Finset.range n, magnitude j := by
  unfold fe_magnitude_sum
  rw [forLoop_add_eq_sum, zero_add]

theorem fe_rolloff_test_pos (temp sum rolloff : K) (hsum : 0 < sum) :
    fe_rolloff_test temp sum rolloff = true ↔ temp < rolloff * sum := by
  unfold fe_rolloff_test
  rw [if_neg hsum.ne', decide_eq_true_iff, div_lt_iff₀ hsum]

theorem fe_rolloff_loop_spec (magnitude : Nat → K) (sum rolloff : K) (k0 : Nat)
    (hk0 : ¬ fe_rolloff_test (∑ j in Finset.range (k0 + 1), magnitude j) sum rolloff = true)
    (hmin : ∀ k, k < k0 →
      fe_rolloff_test (∑ j in Finset.range (k + 1), magnitude j) sum rolloff = true) :
    ∀ remaining i, i ≤ k0 → k0 < i + remaining →
      fe_rolloff_loop magnitude sum rolloff remaining (∑ j in Finset.range i, magnitude j) i
        = some (k0 + 1) := by
  intro remaining
  induction remaining with
  | zero => intro i h1 h2; omega
  | succ n ih =>
    intro i h1 h2
    simp only [fe_rolloff_loop]
    rw [← Finset.sum_range_succ]
    rcases Nat.eq_or_lt_of_le h1 with heq | hlt
    · subst heq
      rw [if_neg hk0]
    · rw [if_pos (hmin i hlt)]
      exact ih (i + 1) hlt (by omega)

theorem fe_rolloff_loop_eq (magnitude : Nat → K) (sum rolloff : K) (hsum : 0 < sum)
    (k0 : Nat) (hk0 : rolloff * sum ≤ ∑ j in Finset.range (k0 + 1), magnitude j)
    (hmin : ∀ k, k < k0 → ∑ j in Finset.range (k + 1), magnitude j < rolloff * sum) :
    ∀ remaining i, i ≤ k0 → k0 < i + remaining →
      fe_rolloff_loop magnitude sum rolloff remaining (∑ j in Finset.range i, magnitude j) i
        = some (k0 + 1) :=
  fe_rolloff_loop_spec magnitude sum rolloff k0
    (fun h => absurd ((fe_rolloff_test_pos _ _ _ hsum).mp h) (not_lt.mpr hk0))
    (fun k hk => (fe_rolloff_test_pos _ _ _ hsum).mpr (hmin k hk))

theorem fe_rolloff_loop_some (magnitude : Nat → K) (n : Nat) (rolloff : K)
    (hr1 : rolloff ≤ 1) (hn : 0 < n) :
    ∃ i, i < n ∧
      fe_rolloff_loop magnitude (fe_magnitude_sum magnitude n) rolloff n 0 0
        = some (i + 1) := by
  classical
  rw [fe_magnitude_sum_eq]
  have hlast : ¬ fe_rolloff_test (∑ j in Finset.range (n - 1 + 1), magnitude j)
      (∑ j in Finset.range n, magnitude j) rolloff = true := by
    rw [Nat.sub_add_cancel hn]
    unfold fe_rolloff_test
    by_cases hz : ∑ j in Finset.range n, magnitude j = 0
    · rw [if_pos hz, hz]
      simp
    · rw [if_neg hz, div_self hz]
      simpa using hr1
  have hex : ∃ k, ¬ fe_rolloff_test (∑ j in Finset.range (k + 1), magnitude j)
      (∑ j in Finset.range n, magnitude j) rolloff = true := ⟨n - 1, hlast⟩
  have hlt : Nat.find hex < n := by
    have : Nat.find hex ≤ n - 1 := Nat.find_min' hex hlast
    omega
  refine ⟨Nat.find hex, hlt, ?_⟩
  have h := fe_rolloff_loop_spec magnitude _ rolloff (Nat.find hex) (Nat.find_spec hex)
    (fun k hk => not_not.mp (Nat.find_min hex hk)) n 0 (Nat.zero_le _) (by omega)
  rw [Finset.sum_range_zero] at h
  exact h

theorem fe_spectral_rolloff_some (magnitude : Nat → K) (info : fe_extraction_info K)
    (hd : 1 ≤ info.dft_length) :
    ∃ v, fe_spectral_rolloff magnitude info = some v := by
  unfold fe_spectral_rolloff
  by_cases hr : info.rolloff < 0 ∨ info.rolloff > 1
  · rw [if_pos hr]
    exact ⟨_, rfl⟩
  · rw [if_neg hr]
    rw [not_or, not_lt, not_lt] at hr
    obtain ⟨i, _, hi⟩ := fe_rolloff_loop_some magnitude info.dft_length info.rolloff hr.2 hd
    simp only [hi, Option.map_some']
    exact ⟨_, rfl⟩

theorem fe_spectral_rolloff_silent (info : fe_extraction_info K)
    (hr0 : 0 ≤ info.rolloff) (hr1 : info.rolloff ≤ 1) (hd : 1 ≤ info.dft_length) :
    fe_spectral_rolloff (fun _ => 0) info
      = some (((1 : Nat) : K) * (info.fs : K) / (info.frame_length : K)) := by
  unfold fe_spectral_rolloff
  rw [if_neg (by rw [not_or, not_lt, not_lt]; exact ⟨hr0, hr1⟩)]
  have hsum : fe_magnitude_sum (fun _ => (0 : K)) info.dft_length = 0 := by
    rw [fe_magnitude_sum_eq]
    simp
  obtain ⟨n, hn⟩ : ∃ n, info.dft_length = n + 1 := ⟨info.dft_length - 1, by omega⟩
  rw [hn] at hsum
  rw [hn]
  simp only [hsum, fe_rolloff_loop, fe_rolloff_test, zero_add, lt_self_iff_false,
    decide_False, if_true, Bool.false_eq_true, if_false, Option.map_some']

theorem fe_spectral_rolloff_eq (magnitude : Nat → K) (info : fe_extraction_info K)
    (hr0 : 0 ≤ info.rolloff) (hr1 : info.rolloff ≤ 1)
    (hpos : 0 < ∑ j in Finset.range info.dft_length, magnitude j) :
    ∃ i, i < info.dft_length ∧
      info.rolloff * (∑ j in Finset.range info.dft_length, magnitude j)
        ≤ ∑ j in Finset.range (i + 1), magnitude j ∧
      (∀ k, k < i → ∑ j in Finset.range (k + 1), magnitude j
        < info.rolloff * (∑ j in Finset.range info.dft_length, magnitude j)) ∧
      fe_spectral_rolloff magnitude info
        = some (((i : K) + 1) * (info.fs : K) / (info.frame_length : K)) := by
  classical
  have hn : 0 < info.dft_length := by
    rcases Nat.eq_zero_or_pos info.dft_length with h0 | h0
    · rw [h0] at hpos; simp at hpos
    · exact h0
  have hex : ∃ k, info.rolloff * (∑ j in Finset.range info.dft_length, magnitude j)
      ≤ ∑ j in Finset.range (k + 1), magnitude j := by
    refine ⟨info.dft_length - 1, ?_⟩
    rw [Nat.sub_add_cancel hn]
    nlinarith
  have hlt : Nat.find hex < info.dft_length := by
    have : Nat.find hex ≤ info.dft_length - 1 := Nat.find_min' hex (by
      rw [Nat.sub_add_cancel hn]
      nlinarith)
    omega
  refine ⟨Nat.find hex, hlt, Nat.find_spec hex, ?_, ?_⟩
  · intro k hk
    exact not_le.mp (Nat.find_min hex hk)
  · unfold fe_spectral_rolloff
    rw [if_neg (by rw [not_or, not_lt, not_lt]; exact ⟨hr0, hr1⟩)]
    simp only [fe_magnitude_sum_eq]
    have h := fe_rolloff_loop_eq magnitude _ info.rolloff hpos (Nat.find hex)
      (Nat.find_spec hex) (fun k hk => not_le.mp (Nat.find_min hex hk))
      info.dft_length 0 (Nat.zero_le _) (by omega)
    rw [Finset.sum_range_zero] at h
    rw [h]
    simp

/-- C5 (amended): for a magnitude spectrum with positive total and a rolloff ratio in
(0,1), `fe_spectral_rolloff` returns `(i+1)·fs/frame_length`, where `i` is the smallest
bin index whose cumulative sum `mag[0]+…+mag[i]` reaches `rolloff` times the total. -/
theorem fe_spectral_rolloff_bin (magnitude : Nat → K) (info : fe_extraction_info K)
    (hr0 : 0 < info.rolloff) (hr1 : info.rolloff < 1)
    (hpos : 0 < ∑ j in Finset.range info.dft_length, magnitude j) :
    ∃ i, i < info.dft_length ∧
      info.rolloff * (∑ j in Finset.range info.dft_length, magnitude j)
        ≤ ∑ j in Finset.range (i + 1), magnitude j ∧
      (∀ k, k < i → ∑ j in Finset.range (k + 1), magnitude j
        < info.rolloff * (∑ j in Finset.range info.dft_length, magnitude j)) ∧
      fe_spectral_rolloff magnitude info
        = some (((i : K) + 1) * (info.fs : K) / (info.frame_length : K)) :=
  fe_spectral_rolloff_eq magnitude info hr0.le hr1.le hpos

/-- C6 (amended): `fe_spectral_rolloff` returns the sentinel −1 exactly when the rolloff
ratio lies outside the closed interval [0,1]; for a ratio in [0,1], the endpoints
included, and a spectrum with positive total it returns a non-negative frequency. -/
theorem fe_spectral_rolloff_sentinel (magnitude : Nat → K) (info : fe_extraction_info K) :
    (fe_spectral_rolloff magnitude info = some (-1) ↔ (info.rolloff < 0 ∨ 1 < info.rolloff)) ∧
    (0 ≤ info.rolloff → info.rolloff ≤ 1 →
      0 < ∑ j in Finset.range info.dft_length, magnitude j →
      ∃ v, fe_spectral_rolloff magnitude info = some v ∧ 0 ≤ v) := by
  constructor
  · constructor
    · intro h
      by_contra hin
      unfold fe_spectral_rolloff at h
      rw [if_neg hin] at h
      simp only [Option.map_eq_some'] at h
      obtain ⟨i, _, hi⟩ := h
      have hnn : (0 : K) ≤ (i : K) * (info.fs : K) / (info.frame_length : K) :=
        div_nonneg (mul_nonneg (Nat.cast_nonneg _) (Nat.cast_nonneg _)) (Nat.cast_nonneg _)
      rw [hi] at hnn
      linarith
    · intro h
      unfold fe_spectral_rolloff
      rw [if_pos h]
  · intro hr0 hr1 hpos
    obtain ⟨i, _, _, _, hi⟩ := fe_spectral_rolloff_eq magnitude info hr0 hr1 hpos
    exact ⟨_, hi, by positivity⟩

theorem fe_spectral_rolloff_bin_counterexample :
    (∀ j, 0 ≤ demoSpectrum j) ∧
    0 < ∑ j in Finset.range (demoInfo (1 / 2)).dft_length, demoSpectrum j ∧
    (demoInfo (1 / 2)).rolloff * (∑ j in Finset.range (demoInfo (1 / 2)).dft_length, demoSpectrum j)
      ≤ ∑ j in Finset.range (1 + 1), demoSpectrum j ∧
    (∀ k, k < 1 → ∑ j in Finset.range (k + 1), demoSpectrum j
      < (demoInfo (1 / 2)).rolloff
          * (∑ j in Finset.range (demoInfo (1 / 2)).dft_length, demoSpectrum j)) ∧
    fe_spectral_rolloff demoSpectrum (demoInfo (1 / 2)) = some (2 * 44100 / 2048) ∧
    fe_spectral_rolloff demoSpectrum (demoInfo (1 / 2)) ≠ some (((1 : Nat) : ℚ) * 44100 / 2048) := by
  have hval : fe_spectral_rolloff demoSpectrum (demoInfo (1 / 2)) = some (2 * 44100 / 2048) := by
    simp [fe_spectral_rolloff, fe_rolloff_loop, fe_rolloff_test, fe_magnitude_sum, forLoop, demoSpectrum, demoInfo]
    norm_num
  refine ⟨fun j => by simp [demoSpectrum], by simp [demoSpectrum, demoInfo], ?_, ?_, hval, ?_⟩
  · simp [demoSpectrum, demoInfo]; norm_num
  · intro k hk
    have : k = 0 := by omega
    subst this
    simp [demoSpectrum, demoInfo]; norm_num
  · rw [hval]
    norm_num

theorem fe_spectral_rolloff_bin_witness :
    ∃ i, i < (demoInfo (1 / 2)).dft_length ∧
      fe_spectral_rolloff demoSpectrum (demoInfo (1 / 2))
        = some (((i : ℚ) + 1) * 44100 / 2048) := by
  obtain ⟨i, h1, _, _, h4⟩ := fe_spectral_rolloff_bin demoSpectrum (demoInfo (1 / 2))
    (by norm_num [demoInfo]) (by norm_num [demoInfo]) (by simp [demoSpectrum, demoInfo])
  exact ⟨i, h1, by simpa [demoInfo] using h4⟩

theorem fe_spectral_rolloff_sentinel_counterexample :
    fe_spectral_rolloff demoSpectrum (demoInfo 1) = some (4 * 44100 / 2048) ∧
    fe_spectral_rolloff demoSpectrum (demoInfo 1) ≠ some (-1) ∧
    fe_spectral_rolloff demoSpectrum (demoInfo 0) = some (1 * 44100 / 2048) ∧
    fe_spectral_rolloff demoSpectrum (demoInfo 0) ≠ some (-1) := by
  have h1 : fe_spectral_rolloff demoSpectrum (demoInfo 1) = some (4 * 44100 / 2048) := by
    simp [fe_spectral_rolloff, fe_rolloff_loop, fe_rolloff_test, fe_magnitude_sum, forLoop, demoSpectrum, demoInfo]
    norm_num
  have h0 : fe_spectral_rolloff demoSpectrum (demoInfo 0) = some (1 * 44100 / 2048) := by
    simp [fe_spectral_rolloff, fe_rolloff_loop, fe_rolloff_test, fe_magnitude_sum, forLoop, demoSpectrum, demoInfo]
    norm_num
  refine ⟨h1, ?_, h0, ?_⟩
  · rw [h1]; norm_num
  · rw [h0]; norm_num

theorem fe_spectral_rolloff_sentinel_witness :
    (fe_spectral_rolloff demoSpectrum (demoInfo 2) = some (-1)) ∧
    ∃ v, fe_spectral_rolloff demoSpectrum (demoInfo 1) = some v ∧ 0 ≤ v :=
  ⟨(fe_spectral_rolloff_sentinel demoSpectrum (demoInfo 2)).1.mpr
      (Or.inr (by norm_num [demoInfo])),
    (fe_spectral_rolloff_sentinel demoSpectrum (demoInfo 1)).2
      (by norm_num [demoInfo]) (by norm_num [demoInfo]) (by simp [demoSpectrum, demoInfo])⟩

end RolloffTheorems

section AggregatorTheorems

variable {K : Type} [LinearOrderedField K]

theorem fe_mean_eq (values : Nat → K) (num : Nat) :
    fe_mean values num = (∑ c in Finset.range num, values c) / (num : K) := by
  unfold fe_mean
  rw [forLoop_add_eq_sum, zero_add]

theorem fe_stdv_eq (m : MathLib K) (values : Nat → K) (num : Nat) :
    fe_stdv m values num =
      m.sqrt ((∑ c in Finset.range num,
        (values c - (∑ c in Finset.range num, values c) / (num : K)) ^ 2) / ((num : K) - 1)) := by
  unfold fe_stdv
  simp only [fe_mean_eq, forLoop_add_eq_sum, zero_add]
  push_cast
  rfl

theorem fe_timbre_stats_loop (m : MathLib K) (feature_array stat_array : Nat → K)
    (columns : Nat) (n : Nat) :
    (forLoop n
      (fun i (st : (Nat → K) × Nat) =>
        (store (store st.1 st.2 (fe_mean (offset feature_array (i * columns)) columns))
          (st.2 + 1) (fe_stdv m (offset feature_array (i * columns)) columns), st.2 + 2))
      (stat_array, 0)).2 = 2 * n ∧
    (∀ r, r < n →
      (forLoop n
        (fun i (st : (Nat → K) × Nat) =>
          (store (store st.1 st.2 (fe_mean (offset feature_array (i * columns)) columns))
            (st.2 + 1) (fe_stdv m (offset feature_array (i * columns)) columns), st.2 + 2))
        (stat_array, 0)).1 (2 * r) = fe_mean (offset feature_array (r * columns)) columns ∧
      (forLoop n
        (fun i (st : (Nat → K) × Nat) =>
          (store (store st.1 st.2 (fe_mean (offset feature_array (i * columns)) columns))
            (st.2 + 1) (fe_stdv m (offset feature_array (i * columns)) columns), st.2 + 2))
        (stat_array, 0)).1 (2 * r + 1)
          = fe_stdv m (offset feature_array (r * columns)) columns) ∧
    (∀ k, 2 * n ≤ k →
      (forLoop n
        (fun i (st : (Nat → K) × Nat) =>
          (store (store st.1 st.2 (fe_mean (offset feature_array (i * columns)) columns))
            (st.2 + 1) (fe_stdv m (offset feature_array (i * columns)) columns), st.2 + 2))
        (stat_array, 0)).1 k = stat_array k) := by
  induction n with
  | zero => simp [forLoop]
  | succ n ih =>
    obtain ⟨ih1, ih2, ih3⟩ := ih
    simp only [forLoop]
    rw [ih1]
    refine ⟨by omega, ?_, ?_⟩
    · intro r hr
      rcases Nat.lt_succ_iff_lt_or_eq.mp hr with hlt | heq
      · rw [store_other _ _ _ _ (by omega), store_other _ _ _ _ (by omega),
          store_other _ _ _ _ (by omega), store_other _ _ _ _ (by omega)]
        exact ih2 r hlt
      · subst heq
        rw [store_other _ _ _ _ (by omega), store_same, store_same]
        exact ⟨rfl, rfl⟩
    · intro k hk
      rw [store_other _ _ _ _ (by omega), store_other _ _ _ _ (by omega)]
      exact ih3 k (by omega)

theorem fe_timbre_stats_get (m : MathLib K) (feature_array stat_array : Nat → K)
    (info : fe_extraction_info K) :
    (∀ r, r < info.num_timbre_features →
      fe_timbre_stats m feature_array stat_array info (2 * r)
        = fe_mean (offset feature_array (r * info.frames_in_window)) info.frames_in_window ∧
      fe_timbre_stats m feature_array stat_array info (2 * r + 1)
        = fe_stdv m (offset feature_array (r * info.frames_in_window)) info.frames_in_window) ∧
    (∀ k, 2 * info.num_timbre_features ≤ k →
      fe_timbre_stats m feature_array stat_array info k = stat_array k) := by
  have h := fe_timbre_stats_loop m feature_array stat_array info.frames_in_window
    info.num_timbre_features
  exact ⟨h.2.1, h.2.2⟩

theorem fe_rhythmic_features_get (m : MathLib K) (flux_buffer mem : Nat → K) (p : Nat)
    (info : fe_extraction_info K) :
    fe_rhythmic_features m flux_buffer mem p info p
      = ((fe_rhythm_onsets m flux_buffer info).2 : K) / info.window_length ∧
    fe_rhythmic_features m flux_buffer mem p info (p + 1)
      = (fe_rhythm_onsets m flux_buffer info).1 / ((fe_rhythm_onsets m flux_buffer info).2 : K) ∧
    fe_rhythmic_features m flux_buffer mem p info (p + 2)
      = (fe_rhythm_peaks m flux_buffer info).sum_ac_peaks
          / ((fe_rhythm_peaks m flux_buffer info).ac_peak_counter : K) ∧
    fe_rhythmic_features m flux_buffer mem p info (p + 3)
      = (if (fe_rhythm_peaks m flux_buffer info).ac_peak_counter > 1 then
          (fe_rhythm_peaks m flux_buffer info).sum_ac_valleys
            / (((fe_rhythm_peaks m flux_buffer info).ac_peak_counter : K) - 1)
        else (fe_rhythm_peaks m flux_buffer info).sum_ac_peaks) ∧
    (∀ k, k < p ∨ p + 4 ≤ k → fe_rhythmic_features m flux_buffer mem p info k = mem k) := by
  unfold fe_rhythmic_features
  refine ⟨?_, ?_, ?_, ?_, ?_⟩
  · rw [store_other _ _ _ _ (by omega), store_other _ _ _ _ (by omega),
      store_other _ _ _ _ (by omega), store_same]
  · rw [store_other _ _ _ _ (by omega), store_other _ _ _ _ (by omega), store_same]
  · rw [store_other _ _ _ _ (by omega), store_same]
  · rw [store_same]
    push_cast
    rfl
  · intro k hk
    rw [store_other _ _ _ _ (by omega), store_other _ _ _ _ (by omega),
      store_other _ _ _ _ (by omega), store_other _ _ _ _ (by omega)]

/-- C7: `fe_timbre_stats` writes `stat[2r]` = mean of row `r` and `stat[2r+1]` = sample
standard deviation of row `r` (denominator `frames_in_window − 1`) for every row
`r < num_timbre_features`, and the prediction loop places the four rhythm scalars
directly after them at offset `2·num_timbre_features`: onsets per second, mean onset
amplitude, mean autocorrelation peak, mean autocorrelation valley. -/
theorem MoodDetectionRoutine_feature_layout (m : MathLib K)
    (threadData : mr_detection_thread_data K) :
    (∀ r, r < threadData.extraction_info.num_timbre_features →
      (MoodDetectionRoutine_body m threadData).features (2 * r)
        = (∑ c in Finset.range threadData.extraction_info.frames_in_window,
            threadData.timbre_matrix (r * threadData.extraction_info.frames_in_window + c))
          / (threadData.extraction_info.frames_in_window : K) ∧
      (MoodDetectionRoutine_body m threadData).features (2 * r + 1)
        = m.sqrt ((∑ c in Finset.range threadData.extraction_info.frames_in_window,
            (threadData.timbre_matrix (r * threadData.extraction_info.frames_in_window + c)
              - (∑ c in Finset.range threadData.extraction_info.frames_in_window,
                  threadData.timbre_matrix
                    (r * threadData.extraction_info.frames_in_window + c))
                / (threadData.extraction_info.frames_in_window : K)) ^ 2)
          / ((threadData.extraction_info.frames_in_window : K) - 1))) ∧
    (MoodDetectionRoutine_body m threadData).features
        (2 * threadData.extraction_info.num_timbre_features)
      = ((fe_rhythm_onsets m threadData.rec_flux_buffer threadData.extraction_info).2 : K)
          / threadData.extraction_info.window_length ∧
    (MoodDetectionRoutine_body m threadData).features
        (2 * threadData.extraction_info.num_timbre_features + 1)
      = (fe_rhythm_onsets m threadData.rec_flux_buffer threadData.extraction_info).1
          / ((fe_rhythm_onsets m threadData.rec_flux_buffer threadData.extraction_info).2 : K) ∧
    (MoodDetectionRoutine_body m threadData).features
        (2 * threadData.extraction_info.num_timbre_features + 2)
      = (fe_rhythm_peaks m threadData.rec_flux_buffer threadData.extraction_info).sum_ac_peaks
          / ((fe_rhythm_peaks m threadData.rec_flux_buffer
              threadData.extraction_info).ac_peak_counter : K) ∧
    (MoodDetectionRoutine_body m threadData).features
        (2 * threadData.extraction_info.num_timbre_features + 3)
      = (if (fe_rhythm_peaks m threadData.rec_flux_buffer
            threadData.extraction_info).ac_peak_counter > 1 then
          (fe_rhythm_peaks m threadData.rec_flux_buffer
              threadData.extraction_info).sum_ac_valleys
            / (((fe_rhythm_peaks m threadData.rec_flux_buffer
                threadData.extraction_info).ac_peak_counter : K) - 1)
        else (fe_rhythm_peaks m threadData.rec_flux_buffer
              threadData.extraction_info).sum_ac_peaks) := by
  have hbody : (MoodDetectionRoutine_body m threadData).features
      = fe_rhythmic_features m threadData.rec_flux_buffer
          (fe_timbre_stats m threadData.timbre_matrix threadData.features
            threadData.extraction_info)
          (threadData.extraction_info.num_timbre_features * 2) threadData.extraction_info := rfl
  have hmul : threadData.extraction_info.num_timbre_features * 2
      = 2 * threadData.extraction_info.num_timbre_features := Nat.mul_comm _ _
  rw [hbody, hmul]
  obtain ⟨h0, h1, h2, h3, hrest⟩ := fe_rhythmic_features_get m threadData.rec_flux_buffer
    (fe_timbre_stats m threadData.timbre_matrix threadData.features threadData.extraction_info)
    (2 * threadData.extraction_info.num_timbre_features) threadData.extraction_info
  refine ⟨?_, h0, h1, h2, h3⟩
  intro r hr
  obtain ⟨hstat, _⟩ := fe_timbre_stats_get m threadData.timbre_matrix threadData.features
    threadData.extraction_info
  rw [hrest (2 * r) (Or.inl (by omega)), hrest (2 * r + 1) (Or.inl (by omega)),
    (hstat r hr).1, (hstat r hr).2, fe_mean_eq, fe_stdv_eq]
  exact ⟨rfl, rfl⟩

end AggregatorTheorems

theorem MoodDetectionRoutine_feature_layout_witness :
    (MoodDetectionRoutine_body ratMath demoThreadData).features (2 * 1) = 17 / 2 :=
  ((MoodDetectionRoutine_feature_layout ratMath demoThreadData).1 1 (by decide)).1.trans (by
    simp [demoThreadData, demoInfo, Finset.sum_range_succ]
    norm_num)

section RhythmTheorems

variable {K : Type} [LinearOrderedField K]

theorem fe_peak_step_counter (ac : Nat → K) (threshold : K) (i : Nat) (st : fe_peak_state K) :
    (fe_peak_step ac threshold i st).ac_peak_counter
      = st.ac_peak_counter + (if fe_is_ac_peak ac threshold i = true then 1 else 0) ∧
    (fe_peak_step ac threshold i st).sum_ac_peaks
      = st.sum_ac_peaks + (if fe_is_ac_peak ac threshold i = true then ac i else 0) := by
  unfold fe_peak_step
  by_cases hp : fe_is_ac_peak ac threshold i = true
  · simp only [hp, if_true]
    split <;> exact ⟨rfl, rfl⟩
  · simp [hp]

theorem fe_peak_scan_loop (ac : Nat → K) (threshold : K) (n : Nat) :
    (forLoop n (fun k => fe_peak_step ac threshold (2 + k))
      { sum_ac_peaks := 0, ac_peak_counter := 0, leftpoint := 0, sum_ac_valleys := 0 }).ac_peak_counter
      = ((List.range' 2 n).filter (fe_is_ac_peak ac threshold)).length ∧
    (forLoop n (fun k => fe_peak_step ac threshold (2 + k))
      { sum_ac_peaks := 0, ac_peak_counter := 0, leftpoint := 0, sum_ac_valleys := 0 }).sum_ac_peaks
      = (((List.range' 2 n).filter (fe_is_ac_peak ac threshold)).map ac).sum := by
  induction n with
  | zero => simp [forLoop]
  | succ n ih =>
    obtain ⟨ih1, ih2⟩ := ih
    simp only [forLoop, List.range'_concat, List.filter_append, List.length_append,
      List.map_append, List.sum_append, Nat.one_mul]
    rw [(fe_peak_step_counter ac threshold (2 + n) _).1,
      (fe_peak_step_counter ac threshold (2 + n) _).2, ih1, ih2]
    by_cases hp : fe_is_ac_peak ac threshold (2 + n) = true
    · simp [hp]
    · simp [hp]

theorem fe_rhythm_peaks_eq (m : MathLib K) (flux_buffer : Nat → K)
    (info : fe_extraction_info K) :
    (fe_rhythm_peaks m flux_buffer info).ac_peak_counter
      = (fe_rhythm_peak_lags m flux_buffer info).length ∧
    (fe_rhythm_peaks m flux_buffer info).sum_ac_peaks
      = ((fe_rhythm_peak_lags m flux_buffer info).map (fe_rhythm_ac flux_buffer info)).sum := by
  unfold fe_rhythm_peaks fe_peak_scan forLoopFrom fe_rhythm_peak_lags fe_ac_peak_lags
  exact fe_peak_scan_loop _ _ _

/-- C10: for a rectified-flux window in which `fe_rhythmic_features` detects fewer than
two autocorrelation peaks, the fourth rhythm output equals the sum of the detected peak
heights: 0 when no peak is detected, and the height of the single peak when exactly one
is. -/
theorem fe_rhythmic_features_few_peaks (m : MathLib K) (flux_buffer mem : Nat → K) (p : Nat)
    (info : fe_extraction_info K)
    (h : (fe_rhythm_peak_lags m flux_buffer info).length < 2) :
    (fe_rhythm_peaks m flux_buffer info).ac_peak_counter
      = (fe_rhythm_peak_lags m flux_buffer info).length ∧
    fe_rhythmic_features m flux_buffer mem p info (p + 3)
      = ((fe_rhythm_peak_lags m flux_buffer info).map (fe_rhythm_ac flux_buffer info)).sum ∧
    (fe_rhythm_peak_lags m flux_buffer info = [] →
      fe_rhythmic_features m flux_buffer mem p info (p + 3) = 0) ∧
    (∀ i, fe_rhythm_peak_lags m flux_buffer info = [i] →
      fe_rhythmic_features m flux_buffer mem p info (p + 3) = fe_rhythm_ac flux_buffer info i) := by
  obtain ⟨hc, hs⟩ := fe_rhythm_peaks_eq m flux_buffer info
  have hout : fe_rhythmic_features m flux_buffer mem p info (p + 3)
      = ((fe_rhythm_peak_lags m flux_buffer info).map (fe_rhythm_ac flux_buffer info)).sum := by
    rw [(fe_rhythmic_features_get m flux_buffer mem p info).2.2.2.1,
      if_neg (by rw [hc]; omega), hs]
  refine ⟨hc, hout, ?_, ?_⟩
  · intro hnil
    rw [hout, hnil]
    rfl
  · intro i hone
    rw [hout, hone]
    simp

theorem fe_rhythmic_features_few_peaks_witness :
    fe_rhythm_peak_lags ratMath demoPulse demoInfo8 = [2] ∧
    fe_rhythmic_features ratMath demoPulse (fun _ => 0) 12 demoInfo8 (12 + 3) = 1 := by
  have hf : demoInfo8.frames_in_window = 8 := rfl
  have hac1 : fe_rhythm_ac demoPulse demoInfo8 1 = 0 := by
    simp [fe_rhythm_ac, fe_autocorrelate, fe_autocorrelate_lag, forLoop, store, demoPulse, hf]
  have hac2 : fe_rhythm_ac demoPulse demoInfo8 2 = 1 := by
    simp [fe_rhythm_ac, fe_autocorrelate, fe_autocorrelate_lag, forLoop, store, demoPulse, hf]
    norm_num
  have hac3 : fe_rhythm_ac demoPulse demoInfo8 3 = 0 := by
    simp [fe_rhythm_ac, fe_autocorrelate, fe_autocorrelate_lag, forLoop, store, demoPulse, hf]
  have hthr : fe_rhythm_ac_threshold ratMath demoPulse demoInfo8 = 2 / 3 := by
    simp [fe_rhythm_ac_threshold, fe_mean, fe_stdv, forLoop, offset, hac1, hac2, hac3,
      ratMath, hf]
    norm_num
  have hlags : fe_rhythm_peak_lags ratMath demoPulse demoInfo8 = [2] := by
    simp [fe_rhythm_peak_lags, fe_ac_peak_lags, fe_is_ac_peak, hthr, hac1, hac2, hac3, hf,
      List.range', List.filter]
    norm_num
  have h := fe_rhythmic_features_few_peaks ratMath demoPulse (fun _ => 0) 12 demoInfo8
    (by rw [hlags]; decide)
  exact ⟨hlags, (h.2.2.2 2 hlags).trans hac2⟩

end RhythmTheorems

section ContrastLemmas

variable {K : Type} [LinearOrderedField K]

theorem row_index_ne (p F r₁ r₂ : Nat) (hF : 0 < F) (h : r₁ ≠ r₂) :
    p + r₁ * F ≠ p + r₂ * F := by
  intro heq
  exact h (Nat.eq_of_mul_eq_mul_right hF (Nat.add_left_cancel heq))

theorem fe_contrast_entry_succ (m : MathLib K) (magnitude mem : Nat → K) (p : Nat)
    (info : fe_extraction_info K) (n : Nat) :
    fe_contrast_entry m magnitude mem p info (n + 1)
      = fe_contrast_band m info n (fe_contrast_entry m magnitude mem p info n) := rfl

theorem fe_contrast_entry_sorted (m : MathLib K) (magnitude mem₁ mem₂ : Nat → K) (p₁ p₂ : Nat)
    (info : fe_extraction_info K) (n : Nat) :
    (fe_contrast_entry m magnitude mem₁ p₁ info n).mag_cpy
      = (fe_contrast_entry m magnitude mem₂ p₂ info n).mag_cpy ∧
    (fe_contrast_entry m magnitude mem₁ p₁ info n).mag_cpy_ptr
      = (fe_contrast_entry m magnitude mem₂ p₂ info n).mag_cpy_ptr := by
  induction n with
  | zero => exact ⟨rfl, rfl⟩
  | succ n ih =>
    rw [fe_contrast_entry_succ, fe_contrast_entry_succ]
    refine ⟨?_, ?_⟩ <;> simp only [fe_contrast_band, ih.1, ih.2]

theorem fe_contrast_band_values (m : MathLib K) (magnitude mem : Nat → K) (p : Nat)
    (info : fe_extraction_info K) (n : Nat) :
    fe_band_peak_valley info n (fe_contrast_entry m magnitude mem p info n).mag_cpy
        (fe_contrast_entry m magnitude mem p info n).mag_cpy_ptr
      = fe_contrast_peak_valley m magnitude info n := by
  unfold fe_contrast_peak_valley
  simp only
  rw [(fe_contrast_entry_sorted m magnitude mem (fun _ => 0) p 0 info n).1,
    (fe_contrast_entry_sorted m magnitude mem (fun _ => 0) p 0 info n).2]

theorem fe_contrast_entry_ptr (m : MathLib K) (magnitude mem : Nat → K) (p : Nat)
    (info : fe_extraction_info K) (n : Nat) :
    (fe_contrast_entry m magnitude mem p info n).contrast_features
      = p + n * info.frames_in_window := by
  induction n with
  | zero => simp [fe_contrast_entry, forLoop]
  | succ n ih =>
    rw [fe_contrast_entry_succ]
    simp only [fe_contrast_band, ih]
    ring

theorem fe_contrast_entry_mem_succ (m : MathLib K) (magnitude mem : Nat → K) (p : Nat)
    (info : fe_extraction_info K) (n : Nat) :
    (fe_contrast_entry m magnitude mem p info (n + 1)).mem
      = store (store (store (fe_contrast_entry m magnitude mem p info n).mem
          (p + n * info.frames_in_window)
          (m.log (fe_contrast_peak_valley m magnitude info n).1))
          (p + (info.bands + n) * info.frames_in_window)
          (m.log (fe_contrast_peak_valley m magnitude info n).2))
          (p + (2 * info.bands + n) * info.frames_in_window)
          (m.log ((fe_contrast_peak_valley m magnitude info n).1
            - (fe_contrast_peak_valley m magnitude info n).2)) := by
  rw [fe_contrast_entry_succ]
  simp only [fe_contrast_band, fe_contrast_band_values, fe_contrast_entry_ptr]
  have h1 : p + n * info.frames_in_window + info.bands * info.frames_in_window
      = p + (info.bands + n) * info.frames_in_window := by ring
  have h2 : p + n * info.frames_in_window + info.bands * 2 * info.frames_in_window
      = p + (2 * info.bands + n) * info.frames_in_window := by ring
  rw [h1, h2]

theorem fe_contrast_entry_frame (m : MathLib K) (magnitude mem : Nat → K) (p : Nat)
    (info : fe_extraction_info K) (n : Nat) (k : Nat)
    (hk : ∀ b, b < n → k ≠ p + b * info.frames_in_window ∧
      k ≠ p + (info.bands + b) * info.frames_in_window ∧
      k ≠ p + (2 * info.bands + b) * info.frames_in_window) :
    (fe_contrast_entry m magnitude mem p info n).mem k = mem k := by
  induction n with
  | zero => rfl
  | succ n ih =>
    rw [fe_contrast_entry_mem_succ,
      store3_other _ _ _ _ _ _ _ _ (hk n (Nat.lt_succ_self n)).1 (hk n (Nat.lt_succ_self n)).2.1
        (hk n (Nat.lt_succ_self n)).2.2]
    exact ih (fun b hb => hk b (Nat.lt_succ_of_lt hb))

theorem fe_contrast_entry_values (m : MathLib K) (magnitude mem : Nat → K) (p : Nat)
    (info : fe_extraction_info K) (hF : 0 < info.frames_in_window) (n : Nat)
    (hn : n ≤ info.bands) (b : Nat) (hb : b < n) :
    (fe_contrast_entry m magnitude mem p info n).mem (p + b * info.frames_in_window)
      = m.log (fe_contrast_peak_valley m magnitude info b).1 ∧
    (fe_contrast_entry m magnitude mem p info n).mem
        (p + (info.bands + b) * info.frames_in_window)
      = m.log (fe_contrast_peak_valley m magnitude info b).2 ∧
    (fe_contrast_entry m magnitude mem p info n).mem
        (p + (2 * info.bands + b) * info.frames_in_window)
      = m.log ((fe_contrast_peak_valley m magnitude info b).1
          - (fe_contrast_peak_valley m magnitude info b).2) := by
  induction n with
  | zero => omega
  | succ n ih =>
    rw [fe_contrast_entry_mem_succ]
    rcases Nat.lt_succ_iff_lt_or_eq.mp hb with hlt | heq
    · have ih' := ih (by omega) hlt
      refine ⟨?_, ?_, ?_⟩
      · rw [store3_other _ _ _ _ _ _ _ _ (row_index_ne p _ _ _ hF (by omega))
          (row_index_ne p _ _ _ hF (by omega)) (row_index_ne p _ _ _ hF (by omega))]
        exact ih'.1
      · rw [store3_other _ _ _ _ _ _ _ _ (row_index_ne p _ _ _ hF (by omega))
          (row_index_ne p _ _ _ hF (by omega)) (row_index_ne p _ _ _ hF (by omega))]
        exact ih'.2.1
      · rw [store3_other _ _ _ _ _ _ _ _ (row_index_ne p _ _ _ hF (by omega))
          (row_index_ne p _ _ _ hF (by omega)) (row_index_ne p _ _ _ hF (by omega))]
        exact ih'.2.2
    · subst heq
      refine ⟨?_, ?_, ?_⟩
      · rw [store_other _ _ _ _ (row_index_ne p _ _ _ hF (by omega)),
          store_other _ _ _ _ (row_index_ne p _ _ _ hF (by omega)), store_same]
      · rw [store_other _ _ _ _ (row_index_ne p _ _ _ hF (by omega)), store_same]
      · rw [store_same]

end ContrastLemmas

section CallbackTheorems

variable {K : Type} [LinearOrderedField K]

theorem paCallBack_eq (m : MathLib K) (fftwf_execute : Nat → (Nat → K) → Nat → K × K)
    (inputBuffer outputBuffer : Nat → K) (framesPerBuffer : Nat)
    (data : fe_extraction_thread_data K)
    (audio hamm_win magnitude prev_mag rfb tm : Nat → K) (dft : Nat → K × K) (rolloff : K)
    (h1 : data.audio = some audio) (h2 : data.hamm_win = some hamm_win)
    (h3 : data.dft = some dft) (h4 : data.magnitude = some magnitude)
    (h5 : data.prev_mag = some prev_mag) (h6 : data.rectified_flux_buffer = some rfb)
    (h7 : data.timbre_matrix = some tm) (h8 : data.fftPlan = true)
    (hroll : fe_spectral_rolloff
      (paCallBack_spectrum m fftwf_execute inputBuffer outputBuffer framesPerBuffer
        data.boolOutputDevice data.info audio hamm_win magnitude) data.info = some rolloff) :
    ∃ data' out', paCallBack m fftwf_execute inputBuffer outputBuffer framesPerBuffer data
        = some (data', out') ∧
      data'.timbre_matrix = some (paCallBack_fill_column m
        (paCallBack_spectrum m fftwf_execute inputBuffer outputBuffer framesPerBuffer
          data.boolOutputDevice data.info audio hamm_win magnitude)
        prev_mag tm data.columnPtr rolloff data.info) ∧
      data'.rectified_flux_buffer = some (store rfb data.columnPtr
        (fe_spectral_flux
          (paCallBack_spectrum m fftwf_execute inputBuffer outputBuffer framesPerBuffer
            data.boolOutputDevice data.info audio hamm_win magnitude)
          prev_mag fe_spec_flux_t.FE_SPEC_FLUX_RECTIFIED data.info)) ∧
      data'.columnPtr = paCallBack_advance data.columnPtr data.info.frames_in_window ∧
      data'.info = data.info ∧
      data'.magnitude = some prev_mag ∧
      data'.prev_mag = some (paCallBack_spectrum m fftwf_execute inputBuffer outputBuffer
        framesPerBuffer data.boolOutputDevice data.info audio hamm_win magnitude) ∧
      data'.hamm_win = some hamm_win ∧ data'.audio.isSome = true ∧ data'.dft.isSome = true ∧
      data'.fftPlan = true ∧ data'.boolOutputDevice = data.boolOutputDevice := by
  unfold paCallBack
  simp only [h1, h2, h3, h4, h5, h6, h7, h8, hroll]
  exact ⟨_, _, rfl, rfl, rfl, rfl, rfl, rfl, rfl, rfl, rfl, rfl, rfl, rfl⟩

theorem column_index_ne (F r₁ r₂ c₁ c₂ : Nat) (h₁ : c₁ < F) (h₂ : c₂ < F) (h : c₁ ≠ c₂) :
    r₁ * F + c₁ ≠ r₂ * F + c₂ := by
  intro heq
  have e1 : (r₁ * F + c₁) % F = c₁ := by
    rw [Nat.add_comm, Nat.add_mul_mod_self_right, Nat.mod_eq_of_lt h₁]
  have e2 : (r₂ * F + c₂) % F = c₂ := by
    rw [Nat.add_comm, Nat.add_mul_mod_self_right, Nat.mod_eq_of_lt h₂]
  rw [heq, e2] at e1
  exact h e1.symm

theorem paCallBack_fill_column_spec (m : MathLib K) (magnitude prev_mag tm : Nat → K)
    (c : Nat) (rolloff : K) (info : fe_extraction_info K) (hc : c < info.frames_in_window) :
    paCallBack_fill_column m magnitude prev_mag tm c rolloff info (0 * info.frames_in_window + c)
      = fe_spectral_centroid magnitude info ∧
    paCallBack_fill_column m magnitude prev_mag tm c rolloff info (1 * info.frames_in_window + c)
      = fe_spectral_flux magnitude prev_mag fe_spec_flux_t.FE_SPEC_FLUX_UNRECTIFIED info ∧
    paCallBack_fill_column m magnitude prev_mag tm c rolloff info (2 * info.frames_in_window + c)
      = rolloff ∧
    (∀ b, b < info.bands →
      paCallBack_fill_column m magnitude prev_mag tm c rolloff info
          ((3 + b) * info.frames_in_window + c)
        = m.log (fe_contrast_peak_valley m magnitude info b).1 ∧
      paCallBack_fill_column m magnitude prev_mag tm c rolloff info
          ((3 + info.bands + b) * info.frames_in_window + c)
        = m.log (fe_contrast_peak_valley m magnitude info b).2 ∧
      paCallBack_fill_column m magnitude prev_mag tm c rolloff info
          ((3 + 2 * info.bands + b) * info.frames_in_window + c)
        = m.log ((fe_contrast_peak_valley m magnitude info b).1
            - (fe_contrast_peak_valley m magnitude info b).2)) ∧
    (∀ k, (∀ r, r < 3 + 3 * info.bands → k ≠ r * info.frames_in_window + c) →
      paCallBack_fill_column m magnitude prev_mag tm c rolloff info k = tm k) := by
  have hF : 0 < info.frames_in_window := by omega
  -- an index of one of the first three rows is not written by `fe_spectral_contrast`
  have hlow : ∀ (mem : Nat → K) (r : Nat), r < 3 →
      fe_spectral_contrast m magnitude mem (c + 3 * info.frames_in_window) info
        (c + r * info.frames_in_window) = mem (c + r * info.frames_in_window) := by
    intro mem r hr
    unfold fe_spectral_contrast
    apply fe_contrast_entry_frame
    intro b _
    have e1 : c + 3 * info.frames_in_window + b * info.frames_in_window
        = c + (3 + b) * info.frames_in_window := by ring
    have e2 : c + 3 * info.frames_in_window + (info.bands + b) * info.frames_in_window
        = c + (3 + (info.bands + b)) * info.frames_in_window := by ring
    have e3 : c + 3 * info.frames_in_window + (2 * info.bands + b) * info.frames_in_window
        = c + (3 + (2 * info.bands + b)) * info.frames_in_window := by ring
    rw [e1, e2, e3]
    exact ⟨row_index_ne c _ _ _ hF (by omega), row_index_ne c _ _ _ hF (by omega),
      row_index_ne c _ _ _ hF (by omega)⟩
  unfold paCallBack_fill_column
  refine ⟨?_, ?_, ?_, ?_, ?_⟩
  · have e : 0 * info.frames_in_window + c = c + 0 * info.frames_in_window := by ring
    rw [e, hlow _ 0 (by omega)]
    have e' : c + 0 * info.frames_in_window = c := by ring
    rw [e', store_other _ _ _ _ (by omega), store_other _ _ _ _ (by omega), store_same]
  · have e : 1 * info.frames_in_window + c = c + 1 * info.frames_in_window := by ring
    rw [e, hlow _ 1 (by omega)]
    have e' : c + 1 * info.frames_in_window = c + info.frames_in_window := by ring
    rw [e', store_other _ _ _ _ (by omega), store_same]
  · have e : 2 * info.frames_in_window + c = c + 2 * info.frames_in_window := by ring
    rw [e, hlow _ 2 (by omega), store_same]
  · intro b hb
    have hv := fe_contrast_entry_values m magnitude
      (store (store (store tm c (fe_spectral_centroid magnitude info))
        (c + info.frames_in_window)
        (fe_spectral_flux magnitude prev_mag fe_spec_flux_t.FE_SPEC_FLUX_UNRECTIFIED info))
        (c + 2 * info.frames_in_window) rolloff)
      (c + 3 * info.frames_in_window) info hF info.bands (Nat.le_refl _) b hb
    have e1 : (3 + b) * info.frames_in_window + c
        = c + 3 * info.frames_in_window + b * info.frames_in_window := by ring
    have e2 : (3 + info.bands + b) * info.frames_in_window + c
        = c + 3 * info.frames_in_window + (info.bands + b) * info.frames_in_window := by ring
    have e3 : (3 + 2 * info.bands + b) * info.frames_in_window + c
        = c + 3 * info.frames_in_window + (2 * info.bands + b) * info.frames_in_window := by
      ring
    rw [e1, e2, e3]
    exact hv
  · intro k hk
    unfold fe_spectral_contrast
    rw [fe_contrast_entry_frame]
    · have k0 := hk 0 (by omega)
      have k1 := hk 1 (by omega)
      have k2 := hk 2 (by omega)
      rw [store_other _ _ _ _ (by omega), store_other _ _ _ _ (by omega),
        store_other _ _ _ _ (by omega)]
    · intro b hb
      have k1 := hk (3 + b) (by omega)
      have k2 := hk (3 + info.bands + b) (by omega)
      have k3 := hk (3 + 2 * info.bands + b) (by omega)
      have e1 : c + 3 * info.frames_in_window + b * info.frames_in_window
          = (3 + b) * info.frames_in_window + c := by ring
      have e2 : c + 3 * info.frames_in_window + (info.bands + b) * info.frames_in_window
          = (3 + info.bands + b) * info.frames_in_window + c := by ring
      have e3 : c + 3 * info.frames_in_window + (2 * info.bands + b) * info.frames_in_window
          = (3 + 2 * info.bands + b) * info.frames_in_window + c := by ring
      rw [e1, e2, e3]
      exact ⟨k1, k2, k3⟩

end CallbackTheorems

section FrameTheorem

variable {K : Type} [LinearOrderedField K]

/-- C8: one invocation of `paCallBack` with cursor `c`, on thread data whose buffers are
allocated and whose spectrum has at least one bin, returns for every input block, silent
blocks included, and writes, in the timbre matrix, exactly the entries of column `c` in
the `3 + 3·bands` rows (row 0 centroid, row 1 unrectified flux, row 2 rolloff, rows 3..
the log-peaks of the bands, then the log-valleys, then the log-contrasts) and, in the
rectified flux buffer, exactly the entry `c`; every entry of every other column of both
buffers is unchanged. Here `mag` is the spectrum of the block and `rolloff` the value
that `fe_spectral_rolloff` returns on it. -/
theorem paCallBack_frame (m : MathLib K) (fftwf_execute : Nat → (Nat → K) → Nat → K × K)
    (inputBuffer outputBuffer : Nat → K) (framesPerBuffer : Nat)
    (data : fe_extraction_thread_data K)
    (audio hamm_win magnitude prev_mag rfb tm mag : Nat → K) (dft : Nat → K × K)
    (h1 : data.audio = some audio) (h2 : data.hamm_win = some hamm_win)
    (h3 : data.dft = some dft) (h4 : data.magnitude = some magnitude)
    (h5 : data.prev_mag = some prev_mag) (h6 : data.rectified_flux_buffer = some rfb)
    (h7 : data.timbre_matrix = some tm) (h8 : data.fftPlan = true)
    (hc : data.columnPtr < data.info.frames_in_window)
    (hd : 1 ≤ data.info.dft_length)
    (hmag : paCallBack_spectrum m fftwf_execute inputBuffer outputBuffer framesPerBuffer
      data.boolOutputDevice data.info audio hamm_win magnitude = mag) :
    ∃ data' out' tm' rfb' rolloff,
      paCallBack m fftwf_execute inputBuffer outputBuffer framesPerBuffer data
        = some (data', out') ∧
      fe_spectral_rolloff mag data.info = some rolloff ∧
      data'.timbre_matrix = some tm' ∧ data'.rectified_flux_buffer = some rfb' ∧
      tm' (0 * data.info.frames_in_window + data.columnPtr)
        = fe_spectral_centroid mag data.info ∧
      tm' (1 * data.info.frames_in_window + data.columnPtr)
        = fe_spectral_flux mag prev_mag fe_spec_flux_t.FE_SPEC_FLUX_UNRECTIFIED data.info ∧
      tm' (2 * data.info.frames_in_window + data.columnPtr) = rolloff ∧
      (∀ b, b < data.info.bands →
        tm' ((3 + b) * data.info.frames_in_window + data.columnPtr)
          = m.log (fe_contrast_peak_valley m mag data.info b).1 ∧
        tm' ((3 + data.info.bands + b) * data.info.frames_in_window + data.columnPtr)
          = m.log (fe_contrast_peak_valley m mag data.info b).2 ∧
        tm' ((3 + 2 * data.info.bands + b) * data.info.frames_in_window + data.columnPtr)
          = m.log ((fe_contrast_peak_valley m mag data.info b).1
              - (fe_contrast_peak_valley m mag data.info b).2)) ∧
      (∀ k, (∀ r, r < 3 + 3 * data.info.bands →
          k ≠ r * data.info.frames_in_window + data.columnPtr) → tm' k = tm k) ∧
      (∀ r c', c' < data.info.frames_in_window → c' ≠ data.columnPtr →
        tm' (r * data.info.frames_in_window + c') = tm (r * data.info.frames_in_window + c')) ∧
      rfb' data.columnPtr
        = fe_spectral_flux mag prev_mag fe_spec_flux_t.FE_SPEC_FLUX_RECTIFIED data.info ∧
      (∀ k, k ≠ data.columnPtr → rfb' k = rfb k) := by
  subst hmag
  obtain ⟨rolloff, hroll⟩ := fe_spectral_rolloff_some
    (paCallBack_spectrum m fftwf_execute inputBuffer outputBuffer framesPerBuffer
      data.boolOutputDevice data.info audio hamm_win magnitude) data.info hd
  obtain ⟨data', out', hrun, htm, hrfb, _⟩ := paCallBack_eq m fftwf_execute inputBuffer
    outputBuffer framesPerBuffer data audio hamm_win magnitude prev_mag rfb tm dft rolloff
    h1 h2 h3 h4 h5 h6 h7 h8 hroll
  obtain ⟨s0, s1, s2, s3, s4⟩ := paCallBack_fill_column_spec m
    (paCallBack_spectrum m fftwf_execute inputBuffer outputBuffer framesPerBuffer
      data.boolOutputDevice data.info audio hamm_win magnitude)
    prev_mag tm data.columnPtr rolloff data.info hc
  refine ⟨data', out', _, _, rolloff, hrun, hroll, htm, hrfb, s0, s1, s2, s3, s4, ?_, ?_, ?_⟩
  · intro r c' hc' hne
    exact s4 _ (fun r' _ => column_index_ne _ _ _ _ _ hc' hc hne)
  · exact store_same _ _ _
  · intro k hk
    exact store_other _ _ _ _ hk

theorem paCallBack_frame_witness :
    (∃ data' out' tm' rfb',
      paCallBack ratMath demoFFT demoBlock (fun _ => 0) 4 (demoData 1) = some (data', out') ∧
      data'.timbre_matrix = some tm' ∧ data'.rectified_flux_buffer = some rfb' ∧
      tm' (2 * 2 + 1) = 22050 ∧ tm' (2 * 2 + 0) = 0 ∧ rfb' 1 = 1 ∧ rfb' 0 = 0) ∧
    (∃ data' out' tm' rfb',
      paCallBack ratMath demoFFT (fun _ => 0) (fun _ => 0) 4 (demoData 1)
        = some (data', out') ∧
      data'.timbre_matrix = some tm' ∧ data'.rectified_flux_buffer = some rfb' ∧
      tm' (2 * 2 + 1) = 11025 ∧ tm' (2 * 2 + 0) = 0 ∧ rfb' 1 = 0 ∧ rfb' 0 = 0) := by
  have hi : (demoData 1).info = demoInfoCb := rfl
  have hd : demoInfoCb.dft_length = 3 := rfl
  have hr : demoInfoCb.rolloff = 1 / 2 := rfl
  have hfs : demoInfoCb.fs = 44100 := rfl
  have hfl : demoInfoCb.frame_length = 4 := rfl
  constructor
  · have hmag : ∀ k, k < 3 → paCallBack_spectrum ratMath demoFFT demoBlock (fun _ => 0) 4
        (demoData 1).boolOutputDevice demoInfoCb (fun _ => 0) (fun _ => 1) (fun _ => 0) k
        = 1 := by
      intro k hk
      interval_cases k <;>
        simp [paCallBack_spectrum, paCallBack_downmix, fe_compute_magnitude, forLoop, store,
          demoFFT, demoBlock, demoData, demoInfoCb, ratMath]
    have hroll : fe_spectral_rolloff
        (paCallBack_spectrum ratMath demoFFT demoBlock (fun _ => 0) 4
          (demoData 1).boolOutputDevice demoInfoCb (fun _ => 0) (fun _ => 1) (fun _ => 0))
        demoInfoCb = some 22050 := by
      simp [fe_spectral_rolloff, fe_rolloff_loop, fe_rolloff_test, fe_magnitude_sum, forLoop,
        hd, hr, hfs, hfl, hmag]
      norm_num
    obtain ⟨data', out', tm', rfb', rolloff, hrun, hroll', htm, hrfb, _, _, h2, _, _, hcol,
        hflux, hrest⟩ :=
      paCallBack_frame ratMath demoFFT demoBlock (fun _ => 0) 4 (demoData 1)
        (fun _ => 0) (fun _ => 1) (fun _ => 0) (fun _ => 0) (fun _ => 0) (fun _ => 0) _
        (fun _ => (0, 0)) rfl rfl rfl rfl rfl rfl rfl rfl (by decide) (by decide) rfl
    rw [hi] at hroll' h2 hcol hflux
    have hval : rolloff = 22050 := Option.some.inj (hroll'.symm.trans hroll)
    refine ⟨data', out', tm', rfb', hrun, htm, hrfb, h2.trans hval,
      hcol 2 0 (by decide) (by decide), ?_, hrest 0 (by decide)⟩
    refine hflux.trans ?_
    simp [fe_spectral_flux, forLoop, hd, hmag]
    norm_num
  · have hmag : ∀ k, k < 3 → paCallBack_spectrum ratMath demoFFT (fun _ => 0) (fun _ => 0) 4
        (demoData 1).boolOutputDevice demoInfoCb (fun _ => 0) (fun _ => 1) (fun _ => 0) k
        = 0 := by
      intro k hk
      interval_cases k <;>
        simp [paCallBack_spectrum, paCallBack_downmix, fe_compute_magnitude, forLoop, store,
          demoFFT, demoData, demoInfoCb, ratMath]
    have hroll : fe_spectral_rolloff
        (paCallBack_spectrum ratMath demoFFT (fun _ => 0) (fun _ => 0) 4
          (demoData 1).boolOutputDevice demoInfoCb (fun _ => 0) (fun _ => 1) (fun _ => 0))
        demoInfoCb = some 11025 := by
      simp [fe_spectral_rolloff, fe_rolloff_loop, fe_rolloff_test, fe_magnitude_sum, forLoop,
        hd, hr, hfs, hfl, hmag]
      norm_num
    obtain ⟨data', out', tm', rfb', rolloff, hrun, hroll', htm, hrfb, _, _, h2, _, _, hcol,
        hflux, hrest⟩ :=
      paCallBack_frame ratMath demoFFT (fun _ => 0) (fun _ => 0) 4 (demoData 1)
        (fun _ => 0) (fun _ => 1) (fun _ => 0) (fun _ => 0) (fun _ => 0) (fun _ => 0) _
        (fun _ => (0, 0)) rfl rfl rfl rfl rfl rfl rfl rfl (by decide) (by decide) rfl
    rw [hi] at hroll' h2 hcol hflux
    have hval : rolloff = 11025 := Option.some.inj (hroll'.symm.trans hroll)
    refine ⟨data', out', tm', rfb', hrun, htm, hrfb, h2.trans hval,
      hcol 2 0 (by decide) (by decide), ?_, hrest 0 (by decide)⟩
    refine hflux.trans ?_
    simp [fe_spectral_flux, forLoop, hd, hmag]

end FrameTheorem

section CursorTheorems

variable {K : Type} [LinearOrderedField K]

theorem fe_initialize_columnPtr (m : MathLib K) (heap : fe_allocation K)
    (info : fe_extraction_info K) :
    (fe_initialize_extraction_thread_data m heap info).columnPtr = 0 := by
  unfold fe_initialize_extraction_thread_data
  repeat' split
  all_goals rfl

theorem paCallBack_advance_mod (c F : Nat) (hc : c < F) :
    paCallBack_advance c F = (c + 1) % F ∧ paCallBack_advance c F < F := by
  unfold paCallBack_advance
  dsimp only
  split_ifs with h
  · rw [h, Nat.mod_self]
    exact ⟨rfl, by omega⟩
  · have hlt : c + 1 < F := by omega
    rw [Nat.mod_eq_of_lt hlt]
    exact ⟨rfl, hlt⟩

theorem paCallBack_cursor (m : MathLib K) (fftwf_execute : Nat → (Nat → K) → Nat → K × K)
    (inputBuffer outputBuffer : Nat → K) (framesPerBuffer : Nat)
    (data data' : fe_extraction_thread_data K) (out' : Nat → K)
    (h : paCallBack m fftwf_execute inputBuffer outputBuffer framesPerBuffer data
      = some (data', out')) :
    data'.columnPtr = paCallBack_advance data.columnPtr data.info.frames_in_window ∧
    data'.info = data.info := by
  unfold paCallBack at h
  split at h
  · dsimp only at h
    split at h
    · exact absurd h (by simp)
    · have h' := (Prod.mk.inj (Option.some.inj h)).1
      rw [← h']
      exact ⟨rfl, rfl⟩
  · exact absurd h (by simp)

theorem paCallBack_run_cursors (m : MathLib K) (fftwf_execute : Nat → (Nat → K) → Nat → K × K)
    (outputBuffer : Nat → K) (framesPerBuffer : Nat) (blocks : List (Nat → K)) :
    ∀ (data data' : fe_extraction_thread_data K) (cursors : List Nat),
      data.columnPtr < data.info.frames_in_window →
      paCallBack_run m fftwf_execute outputBuffer framesPerBuffer blocks data
        = some (data', cursors) →
      data'.info = data.info ∧
      data'.columnPtr = (data.columnPtr + blocks.length) % data.info.frames_in_window ∧
      cursors = (List.range blocks.length).map
        (fun j => (data.columnPtr + j) % data.info.frames_in_window) := by
  induction blocks with
  | nil =>
    intro data data' cursors hc h
    simp only [paCallBack_run, Option.some.injEq, Prod.mk.injEq] at h
    obtain ⟨h1, h2⟩ := h
    subst h1 h2
    simp [Nat.mod_eq_of_lt hc]
  | cons b rest ih =>
    intro data data' cursors hc h
    simp only [paCallBack_run] at h
    split at h
    · exact absurd h (by simp)
    · rename_i d1 o1 hstep
      split at h
      · exact absurd h (by simp)
      · rename_i d2 cs hrest
        simp only [Option.some.injEq, Prod.mk.injEq] at h
        obtain ⟨h1, h2⟩ := h
        subst h1 h2
        obtain ⟨hptr, hinfo⟩ := paCallBack_cursor m fftwf_execute b outputBuffer
          framesPerBuffer data d1 o1 hstep
        obtain ⟨hmod, hlt⟩ := paCallBack_advance_mod _ _ hc
        have hc1 : d1.columnPtr < d1.info.frames_in_window := by
          rw [hptr, hinfo]; exact hlt
        obtain ⟨i1, i2, i3⟩ := ih d1 d2 cs hc1 hrest
        rw [hinfo, hptr, hmod] at i2 i3
        refine ⟨i1.trans hinfo, ?_, ?_⟩
        · rw [i2, List.length_cons, Nat.mod_add_mod]
          congr 1
          omega
        · have hhead : (data.columnPtr + 0) % data.info.frames_in_window = data.columnPtr := by
            rw [Nat.add_zero, Nat.mod_eq_of_lt hc]
          rw [i3, List.length_cons, List.range_succ_eq_map, List.map_cons, List.map_map, hhead]
          congr 1
          apply List.map_congr_left
          intro j _
          simp only [Function.comp_apply]
          rw [Nat.mod_add_mod]
          congr 1
          omega

theorem range_map_add_mod (F c : Nat) :
    (List.range F).map (fun j => (c + j) % F) = (List.range F).rotate c := by
  apply List.ext_getElem
  · simp
  · intro k h1 h2
    rw [List.getElem_rotate]
    simp only [List.getElem_map, List.getElem_range, List.length_range]
    rw [Nat.add_comm]

theorem fe_initialize_allocated (m : MathLib K) (heap : fe_allocation K)
    (info : fe_extraction_info K)
    (hsucc : (fe_initialize_extraction_thread_data m heap info).init_success = 1) :
    fe_buffers_allocated (fe_initialize_extraction_thread_data m heap info) := by
  rcases heap with ⟨_ | audio, _ | hamm_win, _ | dft, _ | magnitude, _ | prev_mag,
    _ | rectified_flux_buffer, _ | timbre_matrix, _ | _⟩
  all_goals first
    | (exfalso; revert hsucc;
       simp [fe_initialize_extraction_thread_data, fe_initialize_failed]; done)
    | simp [fe_initialize_extraction_thread_data, fe_buffers_allocated]

theorem paCallBack_some (m : MathLib K) (fftwf_execute : Nat → (Nat → K) → Nat → K × K)
    (inputBuffer outputBuffer : Nat → K) (framesPerBuffer : Nat)
    (data : fe_extraction_thread_data K) (ha : fe_buffers_allocated data)
    (hd : 1 ≤ data.info.dft_length) :
    ∃ data' out', paCallBack m fftwf_execute inputBuffer outputBuffer framesPerBuffer data
        = some (data', out') ∧
      fe_buffers_allocated data' ∧
      data'.columnPtr = paCallBack_advance data.columnPtr data.info.frames_in_window ∧
      data'.info = data.info := by
  obtain ⟨a1, a2, a3, a4, a5, a6, a7, a8⟩ := ha
  obtain ⟨audio, h1⟩ := Option.isSome_iff_exists.mp a1
  obtain ⟨hamm_win, h2⟩ := Option.isSome_iff_exists.mp a2
  obtain ⟨dft, h3⟩ := Option.isSome_iff_exists.mp a3
  obtain ⟨magnitude, h4⟩ := Option.isSome_iff_exists.mp a4
  obtain ⟨prev_mag, h5⟩ := Option.isSome_iff_exists.mp a5
  obtain ⟨rfb, h6⟩ := Option.isSome_iff_exists.mp a6
  obtain ⟨tm, h7⟩ := Option.isSome_iff_exists.mp a7
  obtain ⟨rolloff, hroll⟩ := fe_spectral_rolloff_some
    (paCallBack_spectrum m fftwf_execute inputBuffer outputBuffer framesPerBuffer
      data.boolOutputDevice data.info audio hamm_win magnitude) data.info hd
  obtain ⟨data', out', hrun, htm, hrfb, hptr, hinfo, hmag, hprev, hhamm, haud, hdft, hplan, _⟩ :=
    paCallBack_eq m fftwf_execute inputBuffer outputBuffer framesPerBuffer data audio hamm_win
      magnitude prev_mag rfb tm dft rolloff h1 h2 h3 h4 h5 h6 h7 a8 hroll
  refine ⟨data', out', hrun, ⟨haud, ?_, hdft, ?_, ?_, ?_, ?_, hplan⟩, hptr, hinfo⟩
  · rw [hhamm]; rfl
  · rw [hmag]; rfl
  · rw [hprev]; rfl
  · rw [hrfb]; rfl
  · rw [htm]; rfl

theorem paCallBack_run_some (m : MathLib K) (fftwf_execute : Nat → (Nat → K) → Nat → K × K)
    (outputBuffer : Nat → K) (framesPerBuffer : Nat) (blocks : List (Nat → K)) :
    ∀ (data : fe_extraction_thread_data K), fe_buffers_allocated data →
      1 ≤ data.info.dft_length →
      ∃ data' cursors,
        paCallBack_run m fftwf_execute outputBuffer framesPerBuffer blocks data
          = some (data', cursors) := by
  induction blocks with
  | nil => intro data _ _; exact ⟨data, [], rfl⟩
  | cons b rest ih =>
    intro data ha hd
    obtain ⟨d1, o1, hstep, ha1, _, hinfo⟩ := paCallBack_some m fftwf_execute b outputBuffer
      framesPerBuffer data ha hd
    obtain ⟨d2, cs, hrest⟩ := ih d1 ha1 (by rw [hinfo]; exact hd)
    exact ⟨d2, data.columnPtr :: cs, by simp only [paCallBack_run, hstep, hrest]⟩

/-- C9: the write cursor `columnPtr` starts at 0, and every invocation of `paCallBack` on
thread data whose buffers are allocated and whose spectrum has at least one bin returns,
for every input block, and replaces the cursor by `(columnPtr + 1) mod frames_in_window`,
so `columnPtr < frames_in_window` holds before and after every invocation; after
`frames_in_window` invocations the cursor is back at its starting value, having visited
every column once. -/
theorem paCallBack_cursor_cycle (m : MathLib K)
    (fftwf_execute : Nat → (Nat → K) → Nat → K × K) :
    (∀ (heap : fe_allocation K) (info : fe_extraction_info K),
      (fe_initialize_extraction_thread_data m heap info).columnPtr = 0 ∧
      ((fe_initialize_extraction_thread_data m heap info).init_success = 1 →
        fe_buffers_allocated (fe_initialize_extraction_thread_data m heap info))) ∧
    (∀ (inputBuffer outputBuffer : Nat → K) (framesPerBuffer : Nat)
        (data : fe_extraction_thread_data K),
      fe_buffers_allocated data → 1 ≤ data.info.dft_length →
      data.columnPtr < data.info.frames_in_window →
      ∃ data' out',
        paCallBack m fftwf_execute inputBuffer outputBuffer framesPerBuffer data
          = some (data', out') ∧
        data'.columnPtr = (data.columnPtr + 1) % data.info.frames_in_window ∧
        data'.info = data.info ∧
        data'.columnPtr < data'.info.frames_in_window ∧
        fe_buffers_allocated data') ∧
    (∀ (outputBuffer : Nat → K) (framesPerBuffer : Nat) (blocks : List (Nat → K))
        (data : fe_extraction_thread_data K),
      blocks.length = data.info.frames_in_window →
      fe_buffers_allocated data → 1 ≤ data.info.dft_length →
      data.columnPtr < data.info.frames_in_window →
      ∃ data' cursors,
        paCallBack_run m fftwf_execute outputBuffer framesPerBuffer blocks data
          = some (data', cursors) ∧
        data'.columnPtr = data.columnPtr ∧
        cursors = (List.range data.info.frames_in_window).rotate data.columnPtr ∧
        cursors.Perm (List.range data.info.frames_in_window)) := by
  refine ⟨fun heap info => ⟨fe_initialize_columnPtr m heap info,
    fe_initialize_allocated m heap info⟩, ?_, ?_⟩
  · intro inputBuffer outputBuffer framesPerBuffer data ha hd hc
    obtain ⟨data', out', hrun, ha', hptr, hinfo⟩ := paCallBack_some m fftwf_execute
      inputBuffer outputBuffer framesPerBuffer data ha hd
    obtain ⟨hmod, hlt⟩ := paCallBack_advance_mod _ _ hc
    refine ⟨data', out', hrun, by rw [hptr, hmod], hinfo, ?_, ha'⟩
    rw [hptr, hinfo]
    exact hlt
  · intro outputBuffer framesPerBuffer blocks data hlen ha hd hc
    obtain ⟨data', cursors, h⟩ := paCallBack_run_some m fftwf_execute outputBuffer
      framesPerBuffer blocks data ha hd
    obtain ⟨_, i2, i3⟩ := paCallBack_run_cursors m fftwf_execute outputBuffer framesPerBuffer
      blocks data data' cursors hc h
    rw [hlen] at i2 i3
    rw [range_map_add_mod] at i3
    refine ⟨data', cursors, h, ?_, i3, ?_⟩
    · rw [i2, Nat.add_mod_right, Nat.mod_eq_of_lt hc]
    · rw [i3]
      exact List.rotate_perm _ _

end CursorTheorems

theorem demo_rolloff (audio magnitude : Nat → ℚ) :
    fe_spectral_rolloff
      (paCallBack_spectrum ratMath demoFFT demoBlock (fun _ => 0) 4 0 demoInfoCb audio
        (fun _ => 1) magnitude) demoInfoCb = some 22050 := by
  have hmag : ∀ k, k < 3 → paCallBack_spectrum ratMath demoFFT demoBlock (fun _ => 0) 4 0
      demoInfoCb audio (fun _ => 1) magnitude k = 1 := by
    intro k hk
    interval_cases k <;>
      simp [paCallBack_spectrum, paCallBack_downmix, fe_compute_magnitude, forLoop, store,
        demoFFT, demoBlock, demoInfoCb, ratMath]
  have hd : demoInfoCb.dft_length = 3 := rfl
  have hr : demoInfoCb.rolloff = 1 / 2 := rfl
  have hfs : demoInfoCb.fs = 44100 := rfl
  have hfl : demoInfoCb.frame_length = 4 := rfl
  simp [fe_spectral_rolloff, fe_rolloff_loop, fe_rolloff_test, fe_magnitude_sum, forLoop, hd, hr, hfs, hfl, hmag]
  norm_num

theorem paCallBack_cursor_cycle_witness :
    ((fe_initialize_extraction_thread_data ratMath demoHeap demoInfoCb).columnPtr = 0 ∧
      fe_buffers_allocated (fe_initialize_extraction_thread_data ratMath demoHeap demoInfoCb)) ∧
    (∃ data' out',
      paCallBack ratMath demoFFT (fun _ => 0) (fun _ => 0) 4 (demoData 1)
        = some (data', out') ∧
      data'.columnPtr = 0) ∧
    (∃ data' cursors,
      paCallBack_run ratMath demoFFT (fun _ => 0) 4 [fun _ => 0, demoBlock] (demoData 0)
        = some (data', cursors) ∧
      data'.columnPtr = 0 ∧ cursors = [0, 1]) := by
  refine ⟨?_, ?_, ?_⟩
  · exact ⟨((paCallBack_cursor_cycle ratMath demoFFT).1 demoHeap demoInfoCb).1,
      ((paCallBack_cursor_cycle ratMath demoFFT).1 demoHeap demoInfoCb).2 rfl⟩
  · obtain ⟨data', out', hrun, hptr, _⟩ := (paCallBack_cursor_cycle ratMath demoFFT).2.1
      (fun _ => 0) (fun _ => 0) 4 (demoData 1) ⟨rfl, rfl, rfl, rfl, rfl, rfl, rfl, rfl⟩
      (by decide) (by decide)
    exact ⟨data', out', hrun, hptr.trans (by decide)⟩
  · obtain ⟨data', cursors, hrun, c1, c2, _⟩ := (paCallBack_cursor_cycle ratMath demoFFT).2.2
      (fun _ => 0) 4 [fun _ => 0, demoBlock] (demoData 0) rfl
      ⟨rfl, rfl, rfl, rfl, rfl, rfl, rfl, rfl⟩ (by decide) (by decide)
    exact ⟨data', cursors, hrun, c1, c2.trans (by decide)⟩

section PredictProperties

variable {K : Type} [LinearOrderedField K]

end PredictProperties

section ConstantWindow

variable {K : Type} [LinearOrderedField K]

theorem forLoop_id {σ : Type} (n : Nat) (body : Nat → σ → σ) (s : σ)
    (h : ∀ i, i < n → ∀ t, body i t = t) : forLoop n body s = s := by
  induction n with
  | zero => rfl
  | succ n ih =>
    simp only [forLoop]
    rw [h n (Nat.lt_succ_self n), ih (fun i hi t => h i (Nat.lt_succ_of_lt hi) t)]

theorem fe_onset_scan_constant (flux_buffer : Nat → K) (threshold c : K) (N : Nat)
    (hconst : ∀ i, i < N → flux_buffer i = c) :
    fe_onset_scan flux_buffer threshold N = (0, 0) := by
  unfold fe_onset_scan forLoopFrom
  apply forLoop_id
  intro k hk t
  have h1 : flux_buffer (1 + k) = c := hconst _ (by omega)
  have h2 : flux_buffer (1 + k - 1) = c := hconst _ (by omega)
  dsimp only
  rw [if_neg]
  rw [h1, h2]
  intro hcon
  exact lt_irrefl c hcon.1

theorem fe_rhythm_onsets_constant (m : MathLib K) (flux_buffer : Nat → K) (c : K)
    (info : fe_extraction_info K)
    (hconst : ∀ i, i < info.frames_in_window → flux_buffer i = c) :
    fe_rhythm_onsets m flux_buffer info = (0, 0) := by
  unfold fe_rhythm_onsets
  exact fe_onset_scan_constant flux_buffer _ c info.frames_in_window hconst

theorem fe_autocorrelate_get (x ac : Nat → K) (N i : Nat) (hi : i < N / 2) :
    fe_autocorrelate x ac N i = ∑ j in Finset.range N, x j * x ((j + i) % N) := by
  unfold fe_autocorrelate
  rw [forLoop_store_get, if_pos hi, fe_autocorrelate_lag_eq x N i (by omega)]

theorem fe_rhythm_ac_constant (flux_buffer : Nat → K) (c : K) (info : fe_extraction_info K)
    (hconst : ∀ i, i < info.frames_in_window → flux_buffer i = c) (i : Nat)
    (hi : i < info.frames_in_window / 2) :
    fe_rhythm_ac flux_buffer info i = ∑ _j in Finset.range info.frames_in_window, c * c := by
  unfold fe_rhythm_ac
  rw [fe_autocorrelate_get _ _ _ _ hi]
  apply Finset.sum_congr rfl
  intro j hj
  have hj' := Finset.mem_range.mp hj
  rw [hconst j hj', hconst _ (Nat.mod_lt _ (by omega))]

theorem fe_rhythm_peak_lags_constant (m : MathLib K) (flux_buffer : Nat → K) (c : K)
    (info : fe_extraction_info K)
    (hconst : ∀ i, i < info.frames_in_window → flux_buffer i = c) :
    fe_rhythm_peak_lags m flux_buffer info = [] := by
  unfold fe_rhythm_peak_lags fe_ac_peak_lags
  rw [List.filter_eq_nil_iff]
  intro i hi
  rw [List.mem_range'_1] at hi
  have h1 := fe_rhythm_ac_constant flux_buffer c info hconst i (by omega)
  have h2 := fe_rhythm_ac_constant flux_buffer c info hconst (i - 1) (by omega)
  simp only [fe_is_ac_peak, decide_eq_true_eq, h1, h2]
  intro hcon
  exact lt_irrefl _ hcon.1

/-- C12: for a constant rectified-flux window of `frames_in_window ≥ 6` samples (in
particular the all-zero window of silence), `fe_rhythmic_features` detects no onset and
no autocorrelation peak, so onsets-per-second is 0 and the valley output takes the
fallback branch (`ac_peak_counter ≤ 1`) with value 0. -/
theorem fe_rhythmic_features_constant (m : MathLib K) (flux_buffer mem : Nat → K) (p : Nat)
    (info : fe_extraction_info K) (c : K) (_hlen : 6 ≤ info.frames_in_window)
    (hconst : ∀ i, i < info.frames_in_window → flux_buffer i = c) :
    (fe_rhythm_onsets m flux_buffer info).2 = 0 ∧
    fe_rhythm_peak_lags m flux_buffer info = [] ∧
    (fe_rhythm_peaks m flux_buffer info).ac_peak_counter = 0 ∧
    ¬ (fe_rhythm_peaks m flux_buffer info).ac_peak_counter > 1 ∧
    fe_rhythmic_features m flux_buffer mem p info p = 0 ∧
    fe_rhythmic_features m flux_buffer mem p info (p + 3) = 0 := by
  have honsets := fe_rhythm_onsets_constant m flux_buffer c info hconst
  have hlags := fe_rhythm_peak_lags_constant m flux_buffer c info hconst
  obtain ⟨hcount, hsum⟩ := fe_rhythm_peaks_eq m flux_buffer info
  rw [hlags] at hcount hsum
  obtain ⟨h0, _, _, h3, _⟩ := fe_rhythmic_features_get m flux_buffer mem p info
  have hc0 : (fe_rhythm_peaks m flux_buffer info).ac_peak_counter = 0 := hcount
  refine ⟨by rw [honsets], hlags, hc0, by omega, ?_, ?_⟩
  · rw [h0, honsets]
    simp
  · rw [h3, if_neg (by omega), hsum]
    rfl

theorem fe_rhythmic_features_constant_witness :
    fe_rhythm_peak_lags ratMath (fun _ => 0) (demoInfo (1 / 2)) = [] ∧
    fe_rhythmic_features ratMath (fun _ => 0) (fun _ => 7) 12 (demoInfo (1 / 2)) 12 = 0 ∧
    fe_rhythmic_features ratMath (fun _ => 0) (fun _ => 7) 12 (demoInfo (1 / 2)) (12 + 3) = 0 :=
  have h := fe_rhythmic_features_constant ratMath (fun _ => 0) (fun _ => 7) 12
    (demoInfo (1 / 2)) 0 (by decide) (fun _ _ => rfl)
  ⟨h.2.1, h.2.2.2.2.1, h.2.2.2.2.2⟩

end ConstantWindow

section CheckedStatistics

variable {K : Type} [LinearOrderedField K]

theorem fdiv_zero (a : K) : fdiv a 0 = none := by
  simp [fdiv]

theorem fdiv_of_ne (a b : K) (h : b ≠ 0) : fdiv a b = some (a / b) := by
  simp [fdiv, h]

theorem fe_mean_checked_eq (values : Nat → K) (num : Nat) :
    (num = 0 → fe_mean_checked values num = none) ∧
    (num ≠ 0 → fe_mean_checked values num = some (fe_mean values num)) := by
  constructor
  · intro h
    subst h
    simp [fe_mean_checked, fdiv]
  · intro h
    unfold fe_mean_checked fe_mean
    exact fdiv_of_ne _ _ (Nat.cast_ne_zero.mpr h)

theorem fe_stdv_checked_eq (m : MathLib K) (values : Nat → K) (num : Nat) :
    (num ≤ 1 → fe_stdv_checked m values num = none) ∧
    (2 ≤ num → fe_stdv_checked m values num = some (fe_stdv m values num)) := by
  constructor
  · intro h
    unfold fe_stdv_checked
    rcases Nat.eq_zero_or_pos num with h0 | h0
    · rw [(fe_mean_checked_eq values num).1 h0]
    · have h1 : num = 1 := by omega
      rw [(fe_mean_checked_eq values num).2 (by omega)]
      subst h1
      simp [fdiv]
  · intro h
    unfold fe_stdv_checked
    rw [(fe_mean_checked_eq values num).2 (by omega)]
    have hne : ((((num : Int) - 1 : Int)) : K) ≠ 0 := by
      have : ((num : Int) - 1 : Int) ≠ 0 := by omega
      exact_mod_cast this
    simp only [fdiv_of_ne _ _ hne, Option.map_some']
    rfl

/-- C16 (amended): `fe_stdv` computes `sqrt(Σ(v[i] − mean)² / (N − 1))` for `N ≥ 2`,
where neither of its divisors `N` and `N − 1` is zero; it has no guard for the undefined
case: for `N = 1` it divides by `N − 1 = 0` and for `N = 0` the mean divides by
`N = 0`. -/
theorem fe_stdv_sample_formula (m : MathLib K) (values : Nat → K) (num : Nat) :
    (2 ≤ num →
      fe_stdv_checked m values num = some (fe_stdv m values num) ∧
      fe_stdv m values num = m.sqrt ((∑ c in Finset.range num,
        (values c - (∑ c in Finset.range num, values c) / (num : K)) ^ 2)
          / ((num : K) - 1))) ∧
    (num ≤ 1 → fe_stdv_checked m values num = none) ∧
    (num = 1 → fe_mean_checked values num = some (values 0) ∧
      fdiv (forLoop num (fun i sum => sum + (values i - values 0) ^ 2) 0)
        ((((num : Int) - 1 : Int)) : K) = none) ∧
    (num = 0 → fe_mean_checked values num = none) := by
  refine ⟨fun h => ⟨(fe_stdv_checked_eq m values num).2 h, fe_stdv_eq m values num⟩,
    (fe_stdv_checked_eq m values num).1, ?_, (fe_mean_checked_eq values num).1⟩
  intro h1
  subst h1
  constructor
  · rw [(fe_mean_checked_eq values 1).2 (by decide)]
    simp [fe_mean, forLoop]
  · simp [fdiv]

theorem fe_stdv_sample_formula_witness :
    fe_stdv_checked ratMath demoInput 4 = some (fe_stdv ratMath demoInput 4) ∧
    fe_stdv ratMath demoInput 4 = 1 ∧
    fe_stdv_checked ratMath demoInput 1 = none := by
  have h := fe_stdv_sample_formula ratMath demoInput 4
  have h1 := fe_stdv_sample_formula ratMath demoInput 1
  refine ⟨(h.1 (by decide)).1, ?_, h1.2.1 (by decide)⟩
  rw [(h.1 (by decide)).2]
  simp [demoInput, ratMath, Finset.sum_range_succ]
  norm_num

theorem fe_stdv_sample_formula_counterexample :
    fe_stdv_checked ratMath demoInput 1 = none ∧
    fdiv (forLoop 1 (fun i sum => sum + (demoInput i - 3) ^ 2) 0)
      ((((1 : Nat) : Int) - 1 : Int) : ℚ) = none ∧
    fe_stdv_checked ratMath demoInput 0 = none ∧
    fe_mean_checked demoInput 0 = none := by
  refine ⟨?_, ?_, ?_, ?_⟩
  · simp [fe_stdv_checked, fe_mean_checked, fdiv, forLoop, demoInput]
  · simp [fdiv]
  · simp [fe_stdv_checked, fe_mean_checked, fdiv]
  · simp [fe_mean_checked, fdiv]

end CheckedStatistics

section CheckedSpectrum

variable {K : Type} [LinearOrderedField K]

theorem forLoop_none {σ : Type} (n : Nat) (body : Nat → Option σ → Option σ)
    (h : ∀ i, body i none = none) : forLoop n body none = none := by
  induction n with
  | zero => rfl
  | succ n ih => simp only [forLoop, ih, h]

theorem forLoop_first_none {σ : Type} (n : Nat) (body : Nat → Option σ → Option σ) (s : Option σ)
    (h : ∀ i, body i none = none) (h0 : body 0 s = none) (hn : 0 < n) :
    forLoop n body s = none := by
  induction n with
  | zero => omega
  | succ n ih =>
    simp only [forLoop]
    rcases Nat.eq_zero_or_pos n with hz | hp
    · subst hz
      exact h0
    · rw [ih hp, h]

theorem fe_spectral_centroid_checked_sum (magnitude : Nat → K) (info : fe_extraction_info K)
    (n : Nat) (st : K × K)
    (h : forLoop n
      (fun i (st : Option (K × K)) =>
        match st, fdiv ((i : K) * (info.fs : K)) (info.frame_length : K) with
        | some st, some bin_frequency =>
          some (st.1 + magnitude i, st.2 + bin_frequency * magnitude i)
        | _, _ => none)
      (some (0, 0)) = some st) :
    st.1 = ∑ j in Finset.range n, magnitude j := by
  induction n generalizing st with
  | zero =>
    simp only [forLoop, Option.some.injEq] at h
    rw [← h]
    simp
  | succ n ih =>
    simp only [forLoop] at h
    split at h
    · rename_i st' q hst' hq
      simp only [Option.some.injEq] at h
      rw [← h, Finset.sum_range_succ, ← ih st' hst']
    · exact absurd h (by simp)

theorem fe_spectral_centroid_checked_zero_sum (magnitude : Nat → K)
    (info : fe_extraction_info K)
    (hsum : ∑ j in Finset.range info.dft_length, magnitude j = 0) :
    fe_spectral_centroid_checked magnitude info = none := by
  unfold fe_spectral_centroid_checked
  simp only
  split
  · rfl
  · rename_i st hst
    have h1 := fe_spectral_centroid_checked_sum magnitude info info.dft_length st hst
    rw [hsum] at h1
    rw [h1]
    exact fdiv_zero _

theorem fe_spectral_flux_checked_eq (cur prev : Nat → K) (fluxType : fe_spec_flux_t)
    (info : fe_extraction_info K) (h : 1 ≤ info.dft_length) :
    fe_spectral_flux_checked cur prev fluxType info
      = some (fe_spectral_flux cur prev fluxType info) := by
  unfold fe_spectral_flux_checked fe_spectral_flux
  exact fdiv_of_ne _ _ (Nat.cast_ne_zero.mpr (by omega))

theorem fe_spectral_flux_zero (fluxType : fe_spec_flux_t) (info : fe_extraction_info K) :
    fe_spectral_flux (fun _ => 0) (fun _ => 0) fluxType info = 0 := by
  cases fluxType
  · rw [fe_spectral_flux_unrectified_eq]
    simp
  · rw [fe_spectral_flux_rectified_eq]
    simp

theorem qsort_zero (base : Nat → K) (start count : Nat) (h : ∀ k, base k = 0) (k : Nat) :
    qsort base start count k = 0 := by
  unfold qsort
  split
  · have hall : ∀ v ∈ List.insertionSort (· ≤ ·)
        ((List.range count).map (fun k => base (start + k))), v = 0 := by
      intro v hv
      have hv' := (List.perm_insertionSort (· ≤ ·) _).subset hv
      rw [List.mem_map] at hv'
      obtain ⟨j, _, hj⟩ := hv'
      rw [← hj, h]
    rw [List.getD_eq_getElem?_getD]
    cases hget : (List.insertionSort (· ≤ ·)
        ((List.range count).map (fun k => base (start + k))))[k - start]? with
    | none => rfl
    | some v =>
      simp only [Option.getD_some]
      exact hall v (List.getElem?_mem hget)
  · exact h k

theorem fe_band_sums_zero (mag_cpy : Nat → K) (h : ∀ k, mag_cpy k = 0) (a b n : Nat) :
    forLoop n (fun j (pv : K × K) => (pv.1 + mag_cpy (a + j), pv.2 + mag_cpy (b + j))) (0, 0)
      = (0, 0) := by
  induction n with
  | zero => rfl
  | succ n ih =>
    simp only [forLoop]
    rw [ih]
    simp [h]

theorem fe_band_peak_valley_checked_zero (info : fe_extraction_info K) (i : Nat)
    (mag_cpy : Nat → K) (mag_cpy_ptr : Nat) (h : ∀ k, mag_cpy k = 0) :
    fe_band_peak_valley_checked info i mag_cpy mag_cpy_ptr = none ∨
    fe_band_peak_valley_checked info i mag_cpy mag_cpy_ptr = some (0, 0) := by
  unfold fe_band_peak_valley_checked
  simp only
  rw [fe_band_sums_zero _ (qsort_zero mag_cpy _ _ h)]
  by_cases hz : (((fe_boundary info (i + 1) - fe_boundary info i) / 5 : Nat) : K) = 0
  · left
    rw [hz, fdiv_zero]
  · right
    rw [fdiv_of_ne _ _ hz]
    simp

theorem fe_contrast_band_checked_zero (m : MathLib K) (info : fe_extraction_info K) (i : Nat)
    (st : fe_contrast_state K) (h : ∀ k, st.mag_cpy k = 0) :
    fe_contrast_band_checked m info i st = none := by
  unfold fe_contrast_band_checked
  simp only
  rcases fe_band_peak_valley_checked_zero info i st.mag_cpy st.mag_cpy_ptr h with hn | hs
  · rw [hn]
  · rw [hs]
    simp [flog]

theorem fe_spectral_contrast_checked_zero (m : MathLib K) (mem : Nat → K) (p : Nat)
    (info : fe_extraction_info K) (hb : 1 ≤ info.bands) :
    fe_spectral_contrast_checked m (fun _ => 0) mem p info = none := by
  unfold fe_spectral_contrast_checked
  simp only
  rw [forLoop_first_none _ _ _ (fun _ => rfl) _ (by omega)]
  · rfl
  · apply fe_contrast_band_checked_zero
    intro k
    simp only
    rw [forLoop_store_get]
    simp

/-- C17 (amended): for an all-zero magnitude spectrum, `fe_spectral_flux` against an
all-zero previous spectrum is 0 and divides by `dft_length ≥ 1` only; the other two
functions have no guard: `fe_spectral_centroid` divides by the zero magnitude sum, and
`fe_spectral_contrast`, for at least one band, either divides by a zero neighbourhood
size or hands the zero peak to `log` unchanged. -/
theorem fe_silent_spectrum (m : MathLib K) (mem : Nat → K) (p : Nat)
    (fluxType : fe_spec_flux_t) (info : fe_extraction_info K) :
    (1 ≤ info.dft_length →
      fe_spectral_flux_checked (fun _ => 0) (fun _ => 0) fluxType info = some 0) ∧
    fe_spectral_centroid_checked (fun _ => 0) info = none ∧
    (1 ≤ info.bands → fe_spectral_contrast_checked m (fun _ => 0) mem p info = none) ∧
    (∀ (i : Nat) (mag_cpy : Nat → K) (mag_cpy_ptr : Nat), (∀ k, mag_cpy k = 0) →
      fe_band_peak_valley_checked info i mag_cpy mag_cpy_ptr = none ∨
      (fe_band_peak_valley_checked info i mag_cpy mag_cpy_ptr = some (0, 0) ∧
        flog m (0 : K) = none)) := by
  refine ⟨?_, ?_, fe_spectral_contrast_checked_zero m mem p info, ?_⟩
  · intro h
    rw [fe_spectral_flux_checked_eq _ _ _ _ h, fe_spectral_flux_zero]
  · exact fe_spectral_centroid_checked_zero_sum _ _ (by simp)
  · intro i mag_cpy mag_cpy_ptr h
    rcases fe_band_peak_valley_checked_zero info i mag_cpy mag_cpy_ptr h with hn | hs
    · exact Or.inl hn
    · exact Or.inr ⟨hs, by simp [flog]⟩

theorem fe_silent_spectrum_witness :
    fe_spectral_flux_checked (fun _ => 0) (fun _ => 0) fe_spec_flux_t.FE_SPEC_FLUX_RECTIFIED
      demoInfoFit = some 0 ∧
    fe_spectral_contrast_checked ratMath (fun _ => 0) (fun _ => 0) 0 demoInfoFit = none :=
  ⟨(fe_silent_spectrum ratMath (fun _ => 0) 0 fe_spec_flux_t.FE_SPEC_FLUX_RECTIFIED
      demoInfoFit).1 (by decide),
    (fe_silent_spectrum ratMath (fun _ => 0) 0 fe_spec_flux_t.FE_SPEC_FLUX_RECTIFIED
      demoInfoFit).2.2.1 (by decide)⟩

theorem fe_silent_spectrum_counterexample :
    fe_spectral_centroid_checked (fun _ => 0) demoInfoFit = none ∧
    fe_spectral_contrast_checked ratMath (fun _ => 0) (fun _ => 0) 0 demoInfoFit = none :=
  ⟨fe_spectral_centroid_checked_zero_sum _ _ (by simp),
    fe_spectral_contrast_checked_zero ratMath _ 0 _ (by decide)⟩

end CheckedSpectrum

section CheckedDegenerate

variable {K : Type} [LinearOrderedField K]

theorem fe_band_peak_valley_checked_eq (info : fe_extraction_info K) (i : Nat)
    (mag_cpy : Nat → K) (mag_cpy_ptr : Nat) :
    (fe_band_neighborhood info i = 0 →
      fe_band_peak_valley_checked info i mag_cpy mag_cpy_ptr = none) ∧
    (fe_band_neighborhood info i ≠ 0 →
      fe_band_peak_valley_checked info i mag_cpy mag_cpy_ptr
        = some (fe_band_peak_valley info i mag_cpy mag_cpy_ptr)) := by
  unfold fe_band_neighborhood fe_band_width
  constructor
  · intro h
    unfold fe_band_peak_valley_checked
    simp only [h, Nat.cast_zero, fdiv_zero]
  · intro h
    have hne : (((fe_boundary info (i + 1) - fe_boundary info i) / 5 : Nat) : K) ≠ 0 :=
      Nat.cast_ne_zero.mpr h
    unfold fe_band_peak_valley_checked fe_band_peak_valley
    simp only [fdiv_of_ne _ _ hne]

/-- C15 (amended): for a contrast band between 1 and 4 bins wide (narrower than
1/α = 5), `fe_spectral_contrast` averages no value for the valley and the peak of that
band: the neighbourhood size `(int)(0.2·width)` is 0, not 1, and both averages are the
empty sum divided by that 0; there is no guard. For a band at least 5 bins wide the
neighbourhood size is at least 1 and the two divisions are by a non-zero count. -/
theorem fe_band_narrow (info : fe_extraction_info K) (i : Nat) (mag_cpy : Nat → K)
    (mag_cpy_ptr : Nat) :
    (1 ≤ fe_band_width info i → fe_band_width info i ≤ 4 →
      fe_band_neighborhood info i = 0 ∧
      fe_band_peak_valley_checked info i mag_cpy mag_cpy_ptr = none) ∧
    (5 ≤ fe_band_width info i →
      1 ≤ fe_band_neighborhood info i ∧
      fe_band_peak_valley_checked info i mag_cpy mag_cpy_ptr
        = some (fe_band_peak_valley info i mag_cpy mag_cpy_ptr)) := by
  constructor
  · intro _ h4
    have h0 : fe_band_neighborhood info i = 0 := by
      unfold fe_band_neighborhood
      omega
    exact ⟨h0, (fe_band_peak_valley_checked_eq info i mag_cpy mag_cpy_ptr).1 h0⟩
  · intro h5
    have h1 : 1 ≤ fe_band_neighborhood info i := by
      unfold fe_band_neighborhood
      omega
    exact ⟨h1, (fe_band_peak_valley_checked_eq info i mag_cpy mag_cpy_ptr).2 (by omega)⟩

theorem fe_band_narrow_counterexample :
    fe_band_width demoInfoCb 0 = 1 ∧ fe_band_neighborhood demoInfoCb 0 = 0 ∧
    fe_band_neighborhood demoInfoCb 0 ≠ 1 ∧
    fe_band_peak_valley_checked demoInfoCb 0 demoSpectrum 0 = none := by
  have hw : fe_band_width demoInfoCb 0 = 1 := by
    simp [fe_band_width, fe_boundary, demoInfoCb]
  have hn : fe_band_neighborhood demoInfoCb 0 = 0 := by
    simp [fe_band_neighborhood, hw]
  exact ⟨hw, hn, by rw [hn]; decide,
    (fe_band_peak_valley_checked_eq demoInfoCb 0 demoSpectrum 0).1 hn⟩

theorem fe_band_narrow_witness :
    fe_band_width demoInfoCb 0 = 1 ∧
    fe_band_peak_valley_checked demoInfoCb 0 demoSpectrum 0 = none := by
  have hw : fe_band_width demoInfoCb 0 = 1 := by
    simp [fe_band_width, fe_boundary, demoInfoCb]
  exact ⟨hw, ((fe_band_narrow demoInfoCb 0 demoSpectrum 0).1 (by rw [hw]) (by rw [hw]; decide)).2⟩

/-- C11 (the code on silence): for the all-zero flux window, a window of at least two
frames and a non-zero window length, `fe_rhythmic_features` reaches the statement
`*(rhythm_features+1) = sum_onset_amp / (float)onset_counter` without an exception, the
onset loop has left `sum_onset_amp = 0` and `onset_counter = 0`, and the statement
divides the one by the other: no guard, no fallback value. -/
theorem fe_rhythmic_features_silent (m : MathLib K) (mem : Nat → K) (p : Nat)
    (info : fe_extraction_info K) (h2 : 2 ≤ info.frames_in_window)
    (hw : info.window_length ≠ 0) :
    fe_mean_checked (fun _ => (0 : K)) info.frames_in_window
      = some (fe_mean (fun _ => 0) info.frames_in_window) ∧
    fe_stdv_checked m (fun _ => 0) info.frames_in_window
      = some (fe_stdv m (fun _ => 0) info.frames_in_window) ∧
    fe_rhythm_onsets m (fun _ => 0) info = (0, 0) ∧
    fdiv (((fe_rhythm_onsets m (fun _ => 0) info).2 : Nat) : K) info.window_length = some 0 ∧
    fdiv (fe_rhythm_onsets m (fun _ => 0) info).1
      (((fe_rhythm_onsets m (fun _ => 0) info).2 : Nat) : K) = none ∧
    fe_rhythm_onset_features_checked m (fun _ => 0) info = none ∧
    fe_rhythmic_features m (fun _ => 0) mem p info (p + 1)
      = (fe_rhythm_onsets m (fun _ => 0) info).1
          / (((fe_rhythm_onsets m (fun _ => 0) info).2 : Nat) : K) := by
  have hmean := (fe_mean_checked_eq (fun _ => (0 : K)) info.frames_in_window).2 (by omega)
  have hstdv := (fe_stdv_checked_eq m (fun _ => (0 : K)) info.frames_in_window).2 h2
  have honsets := fe_rhythm_onsets_constant m (fun _ => 0) 0 info (fun _ _ => rfl)
  refine ⟨hmean, hstdv, honsets, ?_, ?_, ?_,
    (fe_rhythmic_features_get m (fun _ => 0) mem p info).2.1⟩
  · rw [honsets, fdiv_of_ne _ _ hw]
    simp
  · rw [honsets]
    simp [fdiv]
  · unfold fe_rhythm_onset_features_checked
    rw [hmean, hstdv]
    simp only
    rw [fe_onset_scan_constant (fun _ => 0) _ 0 info.frames_in_window (fun _ _ => rfl)]
    simp [fdiv]

theorem fe_rhythmic_features_silent_witness :
    fe_rhythm_onsets ratMath (fun _ => 0) (demoInfo (1 / 2)) = (0, 0) ∧
    fe_rhythm_onset_features_checked ratMath (fun _ => 0) (demoInfo (1 / 2)) = none :=
  have h := fe_rhythmic_features_silent ratMath (fun _ => 0) 0 (demoInfo (1 / 2))
    (by decide) (by norm_num [demoInfo])
  ⟨h.2.2.1, h.2.2.2.2.2.1⟩

end CheckedDegenerate

section BoundaryLemmas

variable {K : Type}

theorem fe_boundary_mono (info : fe_extraction_info K) (i : Nat) :
    fe_boundary info i ≤ fe_boundary info (i + 1) := by
  unfold fe_boundary
  rcases Nat.eq_zero_or_pos i with h0 | hpos
  · subst h0
    simp
  · rw [if_neg (by omega), if_neg (by omega)]
    apply Nat.sub_le_sub_right
    apply Nat.div_le_div_left
    · exact Nat.pow_le_pow_right (by decide) (by omega)
    · exact Nat.pos_pow_of_pos _ (by decide)

theorem fe_boundary_last (info : fe_extraction_info K) (h : 1 ≤ info.bands) :
    fe_boundary info info.bands = info.frame_length / 2 - 1 := by
  unfold fe_boundary
  rw [if_neg (by omega)]
  have : info.bands - (info.bands - 1) = 1 := by omega
  rw [this, Nat.pow_one]

theorem fe_band_end (info : fe_extraction_info K) (i : Nat) :
    fe_boundary info i + fe_band_width info i = fe_boundary info (i + 1) := by
  unfold fe_band_width
  have := fe_boundary_mono info i
  omega

theorem fe_band_contains_iff (info : fe_extraction_info K) (i k : Nat) :
    fe_band_contains info i k = true ↔ fe_boundary info i ≤ k ∧ k < fe_boundary info (i + 1) := by
  unfold fe_band_contains
  rw [decide_eq_true_eq, fe_band_end]

theorem fe_boundary_mono_le (info : fe_extraction_info K) (i j : Nat) (h : i ≤ j) :
    fe_boundary info i ≤ fe_boundary info j := by
  induction j with
  | zero =>
    have : i = 0 := by omega
    subst this
    exact Nat.le_refl _
  | succ n ih =>
    rcases Nat.lt_or_ge i (n + 1) with hlt | hge
    · exact Nat.le_trans (ih (by omega)) (fe_boundary_mono info n)
    · have : i = n + 1 := by omega
      subst this
      exact Nat.le_refl _

theorem fe_band_cover (info : fe_extraction_info K) (n k : Nat) :
    (∃ i, i < n ∧ fe_band_contains info i k = true) ↔ k < fe_boundary info n := by
  induction n with
  | zero =>
    constructor
    · rintro ⟨i, hi, _⟩
      omega
    · intro h
      simp [fe_boundary] at h
  | succ n ih =>
    constructor
    · rintro ⟨i, hi, hc⟩
      rw [fe_band_contains_iff] at hc
      have := fe_boundary_mono_le info (i + 1) (n + 1) (by omega)
      omega
    · intro h
      rcases Nat.lt_or_ge k (fe_boundary info n) with hlt | hge
      · obtain ⟨i, hi, hc⟩ := ih.mpr hlt
        exact ⟨i, by omega, hc⟩
      · exact ⟨n, by omega, (fe_band_contains_iff info n k).mpr ⟨hge, h⟩⟩

end BoundaryLemmas

section BandTheorems

variable {K : Type} [LinearOrderedField K]

theorem fe_contrast_entry_mag_cpy_ptr (m : MathLib K) (magnitude mem : Nat → K) (p : Nat)
    (info : fe_extraction_info K) (i : Nat) :
    (fe_contrast_entry m magnitude mem p info i).mag_cpy_ptr = fe_boundary info i := by
  cases i with
  | zero => simp [fe_contrast_entry, forLoop, fe_boundary]
  | succ n =>
    rw [fe_contrast_entry_succ]
    simp only [fe_contrast_band]

/-- C14 (amended): the bands of `fe_spectral_contrast` are contiguous and pairwise
disjoint, and together they hold exactly the bins below `boundary[bands]`, which is
`frame_length/2 − 1`: every such bin belongs to exactly one band, and the transform bins
from `frame_length/2 − 1` on belong to no band. Band `i` starts at the position
`boundary[i]` that the loop holds in `mag_cpy_ptr`. -/
theorem fe_band_partition (m : MathLib K) (magnitude mem : Nat → K) (p : Nat)
    (info : fe_extraction_info K) :
    (∀ i, (fe_contrast_entry m magnitude mem p info i).mag_cpy_ptr = fe_boundary info i) ∧
    (∀ i, fe_boundary info i + fe_band_width info i = fe_boundary info (i + 1)) ∧
    (∀ i j k, fe_band_contains info i k = true → fe_band_contains info j k = true → i = j) ∧
    (∀ k, (∃ i, i < info.bands ∧ fe_band_contains info i k = true)
      ↔ k < fe_boundary info info.bands) ∧
    (1 ≤ info.bands → fe_boundary info info.bands = info.frame_length / 2 - 1) ∧
    (1 ≤ info.bands → ∀ k, info.frame_length / 2 - 1 ≤ k →
      ∀ i, i < info.bands → fe_band_contains info i k = false) := by
  refine ⟨fe_contrast_entry_mag_cpy_ptr m magnitude mem p info, fe_band_end info, ?_,
    fe_band_cover info info.bands, fe_boundary_last info, ?_⟩
  · intro i j k hi hj
    rw [fe_band_contains_iff] at hi hj
    by_contra hne
    rcases Nat.lt_or_gt_of_ne hne with hlt | hgt
    · have := fe_boundary_mono_le info (i + 1) j (by omega)
      omega
    · have := fe_boundary_mono_le info (j + 1) i (by omega)
      omega
  · intro hb k hk i hi
    rw [← fe_boundary_last info hb] at hk
    have hnot : ¬ (∃ i, i < info.bands ∧ fe_band_contains info i k = true) := by
      rw [fe_band_cover]
      omega
    cases hc : fe_band_contains info i k with
    | false => rfl
    | true => exact absurd ⟨i, hi, hc⟩ hnot

theorem fe_band_partition_counterexample :
    (fe_initialize_extraction_info : fe_extraction_info ℚ).frame_length = 2048 ∧
    (fe_initialize_extraction_info : fe_extraction_info ℚ).bands = 7 ∧
    (fe_initialize_extraction_info : fe_extraction_info ℚ).dft_length = 1025 ∧
    (∀ i, i < 7 →
      fe_band_contains (fe_initialize_extraction_info : fe_extraction_info ℚ) i 1023 = false) ∧
    (∀ i, i < 7 →
      fe_band_contains (fe_initialize_extraction_info : fe_extraction_info ℚ) i 1024 = false) := by
  have hf : (fe_initialize_extraction_info : fe_extraction_info ℚ).frame_length = 2048 := rfl
  have hb : (fe_initialize_extraction_info : fe_extraction_info ℚ).bands = 7 := rfl
  refine ⟨hf, hb, rfl, ?_, ?_⟩
  · intro i hi
    interval_cases i <;> simp [fe_band_contains, fe_band_width, fe_boundary, hf, hb]
  · intro i hi
    interval_cases i <;> simp [fe_band_contains, fe_band_width, fe_boundary, hf, hb]

theorem fe_band_partition_witness :
    fe_boundary (fe_initialize_extraction_info : fe_extraction_info ℚ) 7 = 1023 ∧
    fe_band_contains (fe_initialize_extraction_info : fe_extraction_info ℚ) 6 1023 = false := by
  have h := fe_band_partition ratMath (fun _ => 0) (fun _ => 0) 0
    (fe_initialize_extraction_info : fe_extraction_info ℚ)
  exact ⟨h.2.2.2.2.1 (by decide), h.2.2.2.2.2 (by decide) 1023 (by decide) 6 (by decide)⟩

end BandTheorems

section PeakTheorems

variable {K : Type} [LinearOrderedField K]

theorem zip_tail_append_singleton {α : Type} (d : α) (l : List α) (x : α) (hl : l ≠ []) :
    (l ++ [x]).zip (l ++ [x]).tail = l.zip l.tail ++ [(l.getLastD d, x)] := by
  induction l with
  | nil => exact absurd rfl hl
  | cons a t ih =>
    cases t with
    | nil => rfl
    | cons b t' =>
      have ih' := ih (by simp)
      simp only [List.cons_append, List.tail_cons, List.zip_cons_cons] at ih' ⊢
      rw [ih']
      rfl

theorem fe_peak_step_valleys (ac : Nat → K) (threshold : K) (i : Nat) (st : fe_peak_state K) :
    (fe_is_ac_peak ac threshold i = false → fe_peak_step ac threshold i st = st) ∧
    (fe_is_ac_peak ac threshold i = true → st.ac_peak_counter = 0 →
      (fe_peak_step ac threshold i st).leftpoint = i ∧
      (fe_peak_step ac threshold i st).sum_ac_valleys = st.sum_ac_valleys) ∧
    (fe_is_ac_peak ac threshold i = true → st.ac_peak_counter ≠ 0 →
      (fe_peak_step ac threshold i st).leftpoint = i ∧
      (fe_peak_step ac threshold i st).sum_ac_valleys
        = st.sum_ac_valleys + fe_valley_min ac st.leftpoint i) := by
  unfold fe_peak_step
  refine ⟨?_, ?_, ?_⟩
  · intro h
    simp [h]
  · intro h h0
    simp [h, h0]
  · intro h h0
    simp [h, h0]

theorem fe_peak_scan_valleys (ac : Nat → K) (threshold : K) (n : Nat) :
    (forLoop n (fun k => fe_peak_step ac threshold (2 + k))
      { sum_ac_peaks := 0, ac_peak_counter := 0, leftpoint := 0, sum_ac_valleys := 0 }).leftpoint
      = ((List.range' 2 n).filter (fe_is_ac_peak ac threshold)).getLastD 0 ∧
    (forLoop n (fun k => fe_peak_step ac threshold (2 + k))
      { sum_ac_peaks := 0, ac_peak_counter := 0, leftpoint := 0, sum_ac_valleys := 0 }).sum_ac_valleys
      = ((((List.range' 2 n).filter (fe_is_ac_peak ac threshold)).zip
          ((List.range' 2 n).filter (fe_is_ac_peak ac threshold)).tail).map
            (fun ab => fe_valley_min ac ab.1 ab.2)).sum := by
  induction n with
  | zero => simp [forLoop]
  | succ n ih =>
    obtain ⟨ih1, ih2⟩ := ih
    have hcount := (fe_peak_scan_loop ac threshold n).1
    simp only [forLoop, List.range'_concat, List.filter_append, Nat.one_mul]
    obtain ⟨s1, s2, s3⟩ := fe_peak_step_valleys ac threshold (2 + n)
      (forLoop n (fun k => fe_peak_step ac threshold (2 + k))
        { sum_ac_peaks := 0, ac_peak_counter := 0, leftpoint := 0, sum_ac_valleys := 0 })
    cases hp : fe_is_ac_peak ac threshold (2 + n) with
    | false =>
      rw [s1 hp]
      simp only [List.filter_cons, hp, List.filter_nil, Bool.false_eq_true, if_false,
        List.append_nil]
      exact ⟨ih1, ih2⟩
    | true =>
      simp only [List.filter_cons, hp, List.filter_nil, if_true]
      by_cases hnil : (List.range' 2 n).filter (fe_is_ac_peak ac threshold) = []
      · have h0 : (forLoop n (fun k => fe_peak_step ac threshold (2 + k))
            { sum_ac_peaks := 0, ac_peak_counter := 0, leftpoint := 0,
              sum_ac_valleys := 0 }).ac_peak_counter = 0 := by
          rw [hcount, hnil]
          rfl
        rw [(s2 hp h0).1, (s2 hp h0).2, ih2, hnil]
        simp
      · have h0 : (forLoop n (fun k => fe_peak_step ac threshold (2 + k))
            { sum_ac_peaks := 0, ac_peak_counter := 0, leftpoint := 0,
              sum_ac_valleys := 0 }).ac_peak_counter ≠ 0 := by
          rw [hcount]
          exact fun h => hnil (List.length_eq_zero.mp h)
        rw [(s3 hp h0).1, (s3 hp h0).2, ih1, ih2, zip_tail_append_singleton 0 _ _ hnil]
        simp

theorem forLoop_min_spec (f : Nat → K) (init : K) (n : Nat) :
    forLoop n (fun k min => if f k < min then f k else min) init ≤ init ∧
    (∀ k, k < n → forLoop n (fun k min => if f k < min then f k else min) init ≤ f k) ∧
    (forLoop n (fun k min => if f k < min then f k else min) init = init ∨
      ∃ k, k < n ∧ forLoop n (fun k min => if f k < min then f k else min) init = f k) := by
  induction n with
  | zero => exact ⟨le_refl _, fun k hk => absurd hk (Nat.not_lt_zero k), Or.inl rfl⟩
  | succ n ih =>
    obtain ⟨h1, h2, h3⟩ := ih
    simp only [forLoop]
    split_ifs with hlt
    · refine ⟨le_trans hlt.le h1, ?_, Or.inr ⟨n, Nat.lt_succ_self n, rfl⟩⟩
      intro k hk
      rcases Nat.lt_succ_iff_lt_or_eq.mp hk with hk' | hk'
      · exact le_trans hlt.le (h2 k hk')
      · rw [hk']
    · refine ⟨h1, ?_, ?_⟩
      · intro k hk
        rcases Nat.lt_succ_iff_lt_or_eq.mp hk with hk' | hk'
        · exact h2 k hk'
        · rw [hk']
          exact not_lt.mp hlt
      · rcases h3 with h3 | ⟨k, hk, h3⟩
        · exact Or.inl h3
        · exact Or.inr ⟨k, Nat.lt_succ_of_lt hk, h3⟩

theorem fe_valley_min_spec (ac : Nat → K) (a b : Nat) :
    fe_valley_min ac a b ≤ ac a ∧
    (∀ j, a < j → j < b → fe_valley_min ac a b ≤ ac j) ∧
    (fe_valley_min ac a b = ac a ∨ ∃ j, a < j ∧ j < b ∧ fe_valley_min ac a b = ac j) := by
  unfold fe_valley_min forLoopFrom
  obtain ⟨h1, h2, h3⟩ := forLoop_min_spec (fun k => ac (a + (1 + k))) (ac a) (b - a - 1)
  refine ⟨h1, ?_, ?_⟩
  · intro j hj1 hj2
    have := h2 (j - a - 1) (by omega)
    have e : a + (1 + (j - a - 1)) = j := by omega
    rw [e] at this
    exact this
  · rcases h3 with h3 | ⟨k, hk, h3⟩
    · exact Or.inl h3
    · exact Or.inr ⟨a + (1 + k), by omega, by omega, h3⟩

theorem fe_valley_min_isLeast (ac : Nat → K) (a b : Nat) (hab : a + 2 ≤ b)
    (ha : ac a > ac (a + 1)) :
    IsLeast {v | ∃ j, a < j ∧ j < b ∧ ac j = v} (fe_valley_min ac a b) := by
  obtain ⟨h1, h2, h3⟩ := fe_valley_min_spec ac a b
  constructor
  · rcases h3 with h3 | ⟨j, hj1, hj2, h3⟩
    · have := h2 (a + 1) (by omega) (by omega)
      rw [h3] at this
      exact absurd ha (not_lt.mpr this)
    · exact ⟨j, hj1, hj2, h3.symm⟩
  · rintro v ⟨j, hj1, hj2, rfl⟩
    exact h2 j hj1 hj2

theorem pairwise_zip_tail {α : Type} (R : α → α → Prop) (l : List α) (h : l.Pairwise R) :
    ∀ ab ∈ l.zip l.tail, R ab.1 ab.2 := by
  induction l with
  | nil => intro ab hab; simp at hab
  | cons a t ih =>
    cases t with
    | nil => intro ab hab; simp at hab
    | cons b t' =>
      intro ab hab
      simp only [List.tail_cons, List.zip_cons_cons, List.mem_cons] at hab
      rcases hab with hab | hab
      · rw [hab]
        exact (List.pairwise_cons.mp h).1 b (List.mem_cons_self b t')
      · exact ih (List.pairwise_cons.mp h).2 ab hab

theorem fe_ac_peak_lags_mem (ac : Nat → K) (threshold : K) (ac_length i : Nat) :
    i ∈ fe_ac_peak_lags ac threshold ac_length ↔
      2 ≤ i ∧ i + 2 ≤ ac_length ∧ ac i > ac (i - 1) ∧ ac i > ac (i + 1) ∧ ac i > threshold := by
  unfold fe_ac_peak_lags
  rw [List.mem_filter, List.mem_range'_1]
  simp only [fe_is_ac_peak, decide_eq_true_eq]
  constructor
  · rintro ⟨⟨h1, h2⟩, h3⟩
    exact ⟨h1, by omega, h3⟩
  · rintro ⟨h1, h2, h3⟩
    exact ⟨⟨h1, by omega⟩, h3⟩

theorem fe_ac_peak_lags_pairs (ac : Nat → K) (threshold : K) (ac_length : Nat) :
    ∀ ab ∈ (fe_ac_peak_lags ac threshold ac_length).zip
        (fe_ac_peak_lags ac threshold ac_length).tail,
      ab.1 + 2 ≤ ab.2 ∧ ac ab.1 > ac (ab.1 + 1) := by
  intro ab hab
  have hsorted : (fe_ac_peak_lags ac threshold ac_length).Pairwise (· < ·) := by
    unfold fe_ac_peak_lags
    exact List.Pairwise.filter _ (List.pairwise_lt_range' 2 _)
  have hlt := pairwise_zip_tail (· < ·) _ hsorted ab hab
  have hmem := List.of_mem_zip (show (ab.1, ab.2) ∈ _ from hab)
  have h1 := (fe_ac_peak_lags_mem ac threshold ac_length ab.1).mp hmem.1
  have h2 := (fe_ac_peak_lags_mem ac threshold ac_length ab.2).mp
    (List.mem_of_mem_tail hmem.2)
  refine ⟨?_, h1.2.2.2.1⟩
  by_contra hcon
  have heq : ab.2 = ab.1 + 1 := by
    have : ab.1 < ab.2 := hlt
    omega
  have h3 := h2.2.2.1
  rw [heq, Nat.add_sub_cancel] at h3
  exact absurd h1.2.2.2.1 (not_lt.mpr h3.le)

theorem fe_rhythm_peaks_valleys (m : MathLib K) (flux_buffer : Nat → K)
    (info : fe_extraction_info K) :
    (fe_rhythm_peaks m flux_buffer info).sum_ac_valleys
      = (((fe_rhythm_peak_lags m flux_buffer info).zip
          (fe_rhythm_peak_lags m flux_buffer info).tail).map
            (fun ab => fe_valley_min (fe_rhythm_ac flux_buffer info) ab.1 ab.2)).sum := by
  unfold fe_rhythm_peaks fe_peak_scan forLoopFrom fe_rhythm_peak_lags fe_ac_peak_lags
  exact (fe_peak_scan_valleys _ _ _).2

theorem fe_rhythm_ac_threshold_eq (m : MathLib K) (flux_buffer : Nat → K)
    (info : fe_extraction_info K) :
    fe_rhythm_ac_threshold m flux_buffer info
      = (∑ c in Finset.range (info.frames_in_window / 2 - 1),
            fe_rhythm_ac flux_buffer info (1 + c))
          / ((info.frames_in_window / 2 - 1 : Nat) : K)
        + m.sqrt ((∑ c in Finset.range (info.frames_in_window / 2 - 1),
            (fe_rhythm_ac flux_buffer info (1 + c)
              - (∑ c in Finset.range (info.frames_in_window / 2 - 1),
                  fe_rhythm_ac flux_buffer info (1 + c))
                / ((info.frames_in_window / 2 - 1 : Nat) : K)) ^ 2)
          / (((info.frames_in_window / 2 - 1 : Nat) : K) - 1)) := by
  unfold fe_rhythm_ac_threshold
  simp only [fe_mean_eq, fe_stdv_eq, offset]

/-- C13: in `fe_rhythmic_features` the detected autocorrelation peaks are exactly the
lags `i` with `2 ≤ i ≤ ac_length − 2` whose value strictly exceeds both neighbours and
the threshold, mean plus deviation of `ac[1..ac_length−1]`; none of them lies at lag 0 or
on a non-increasing run that starts at lag 0; the third rhythm output is the mean of the
peak heights and, when there are at least 2 peaks, the fourth is the mean, over the
pairs of consecutive peaks, of the minimum autocorrelation value strictly between the
two peaks. -/
theorem fe_rhythmic_features_peaks (m : MathLib K) (flux_buffer mem : Nat → K) (p : Nat)
    (info : fe_extraction_info K) :
    (fe_rhythm_peaks m flux_buffer info).ac_peak_counter
      = (fe_rhythm_peak_lags m flux_buffer info).length ∧
    (∀ i, i ∈ fe_rhythm_peak_lags m flux_buffer info ↔
      2 ≤ i ∧ i + 2 ≤ info.frames_in_window / 2 ∧
      fe_rhythm_ac flux_buffer info i > fe_rhythm_ac flux_buffer info (i - 1) ∧
      fe_rhythm_ac flux_buffer info i > fe_rhythm_ac flux_buffer info (i + 1) ∧
      fe_rhythm_ac flux_buffer info i > fe_rhythm_ac_threshold m flux_buffer info) ∧
    fe_rhythm_ac_threshold m flux_buffer info
      = (∑ c in Finset.range (info.frames_in_window / 2 - 1),
            fe_rhythm_ac flux_buffer info (1 + c))
          / ((info.frames_in_window / 2 - 1 : Nat) : K)
        + m.sqrt ((∑ c in Finset.range (info.frames_in_window / 2 - 1),
            (fe_rhythm_ac flux_buffer info (1 + c)
              - (∑ c in Finset.range (info.frames_in_window / 2 - 1),
                  fe_rhythm_ac flux_buffer info (1 + c))
                / ((info.frames_in_window / 2 - 1 : Nat) : K)) ^ 2)
          / (((info.frames_in_window / 2 - 1 : Nat) : K) - 1)) ∧
    (∀ r, (∀ j, j < r →
        fe_rhythm_ac flux_buffer info (j + 1) ≤ fe_rhythm_ac flux_buffer info j) →
      ∀ i, i ∈ fe_rhythm_peak_lags m flux_buffer info → r < i) ∧
    fe_rhythmic_features m flux_buffer mem p info (p + 2)
      = ((fe_rhythm_peak_lags m flux_buffer info).map (fe_rhythm_ac flux_buffer info)).sum
          / ((fe_rhythm_peak_lags m flux_buffer info).length : K) ∧
    (2 ≤ (fe_rhythm_peak_lags m flux_buffer info).length →
      fe_rhythmic_features m flux_buffer mem p info (p + 3)
        = (((fe_rhythm_peak_lags m flux_buffer info).zip
            (fe_rhythm_peak_lags m flux_buffer info).tail).map
              (fun ab => fe_valley_min (fe_rhythm_ac flux_buffer info) ab.1 ab.2)).sum
          / (((fe_rhythm_peak_lags m flux_buffer info).length : K) - 1)) ∧
    ((fe_rhythm_peak_lags m flux_buffer info).zip
        (fe_rhythm_peak_lags m flux_buffer info).tail).length
      = (fe_rhythm_peak_lags m flux_buffer info).length - 1 ∧
    (∀ ab ∈ (fe_rhythm_peak_lags m flux_buffer info).zip
        (fe_rhythm_peak_lags m flux_buffer info).tail,
      ab.1 < ab.2 ∧
      IsLeast {v | ∃ j, ab.1 < j ∧ j < ab.2 ∧ fe_rhythm_ac flux_buffer info j = v}
        (fe_valley_min (fe_rhythm_ac flux_buffer info) ab.1 ab.2)) := by
  obtain ⟨hcount, hsum⟩ := fe_rhythm_peaks_eq m flux_buffer info
  have hmem : ∀ i, i ∈ fe_rhythm_peak_lags m flux_buffer info ↔
      2 ≤ i ∧ i + 2 ≤ info.frames_in_window / 2 ∧
      fe_rhythm_ac flux_buffer info i > fe_rhythm_ac flux_buffer info (i - 1) ∧
      fe_rhythm_ac flux_buffer info i > fe_rhythm_ac flux_buffer info (i + 1) ∧
      fe_rhythm_ac flux_buffer info i > fe_rhythm_ac_threshold m flux_buffer info := by
    intro i
    unfold fe_rhythm_peak_lags
    exact fe_ac_peak_lags_mem _ _ _ i
  obtain ⟨_, _, h2, h3, _⟩ := fe_rhythmic_features_get m flux_buffer mem p info
  refine ⟨hcount, hmem, fe_rhythm_ac_threshold_eq m flux_buffer info, ?_, ?_, ?_, ?_, ?_⟩
  · intro r hrun i hi
    obtain ⟨hi2, _, hgt, _⟩ := (hmem i).mp hi
    by_contra hcon
    have hle := hrun (i - 1) (by omega)
    have e : i - 1 + 1 = i := by omega
    rw [e] at hle
    exact absurd hgt (not_lt.mpr hle)
  · rw [h2, hsum, hcount]
  · intro hlen
    rw [h3, if_pos (by rw [hcount]; omega), fe_rhythm_peaks_valleys, hcount]
  · rw [List.length_zip, List.length_tail]
    omega
  · intro ab hab
    have hpair := fe_ac_peak_lags_pairs (fe_rhythm_ac flux_buffer info)
      (fe_rhythm_ac_threshold m flux_buffer info) (info.frames_in_window / 2) ab hab
    exact ⟨by omega, fe_valley_min_isLeast _ _ _ hpair.1 hpair.2⟩

theorem fe_rhythmic_features_peaks_witness :
    fe_rhythm_peak_lags ratMath demoPulse16 demoInfo16 = [2, 4, 6] ∧
    fe_rhythmic_features ratMath demoPulse16 (fun _ => 0) 12 demoInfo16 (12 + 2) = 1 / 2 ∧
    fe_rhythmic_features ratMath demoPulse16 (fun _ => 0) 12 demoInfo16 (12 + 3) = 0 := by
  have hf : demoInfo16.frames_in_window = 16 := rfl
  have hac : ∀ i, i < 8 →
      fe_rhythm_ac demoPulse16 demoInfo16 i = if i % 2 = 0 then 1 / 2 else 0 := by
    intro i hi
    interval_cases i <;>
      simp [fe_rhythm_ac, fe_autocorrelate, fe_autocorrelate_lag, forLoop, store, demoPulse16,
        hf] <;> norm_num
  have hthr : fe_rhythm_ac_threshold ratMath demoPulse16 demoInfo16 = 2 / 7 := by
    rw [fe_rhythm_ac_threshold_eq]
    simp [hf, Finset.sum_range_succ, hac, ratMath]
    norm_num
  have hlags : fe_rhythm_peak_lags ratMath demoPulse16 demoInfo16 = [2, 4, 6] := by
    simp [fe_rhythm_peak_lags, fe_ac_peak_lags, fe_is_ac_peak, hthr, hac, hf, List.range',
      List.filter]
    norm_num
  have h := fe_rhythmic_features_peaks ratMath demoPulse16 (fun _ => 0) 12 demoInfo16
  refine ⟨hlags, ?_, ?_⟩
  · rw [h.2.2.2.2.1, hlags]
    simp [hac]
    norm_num
  · rw [h.2.2.2.2.2.1 (by rw [hlags]; decide), hlags]
    simp [fe_valley_min, forLoopFrom, forLoop, hac]

end PeakTheorems

section ConfigurationTheorems

variable {K : Type} [LinearOrderedField K] [FloorRing K]

/-- C21: `fe_initialize_extraction_info` yields fs = 44100, frame_length = 2048,
dft_length = 1025, window_length = 3 s, bands = 7, 24 timbre features and 4 rhythm
features (so a feature vector has 2·24 + 4 = 52 entries), and
frames_in_window = ⌊window_length · fs / frame_length⌋ = 64, which is larger than 2. -/
theorem fe_initialize_extraction_info_values :
    (fe_initialize_extraction_info : fe_extraction_info K).fs = 44100 ∧
    (fe_initialize_extraction_info : fe_extraction_info K).frame_length = 2048 ∧
    (fe_initialize_extraction_info : fe_extraction_info K).dft_length = 1025 ∧
    (fe_initialize_extraction_info : fe_extraction_info K).window_length = 3 ∧
    (fe_initialize_extraction_info : fe_extraction_info K).bands = 7 ∧
    (fe_initialize_extraction_info : fe_extraction_info K).num_timbre_features = 24 ∧
    (fe_initialize_extraction_info : fe_extraction_info K).num_onset_features = 4 ∧
    2 * (fe_initialize_extraction_info : fe_extraction_info K).num_timbre_features
      + (fe_initialize_extraction_info : fe_extraction_info K).num_onset_features = 52 ∧
    (fe_initialize_extraction_info : fe_extraction_info K).frames_in_window
      = ⌊(fe_initialize_extraction_info : fe_extraction_info K).window_length
          * ((fe_initialize_extraction_info : fe_extraction_info K).fs : K)
          / ((fe_initialize_extraction_info : fe_extraction_info K).frame_length : K)⌋₊ ∧
    (fe_initialize_extraction_info : fe_extraction_info K).frames_in_window = 64 ∧
    2 < (fe_initialize_extraction_info : fe_extraction_info K).frames_in_window := by
  have h64 : (fe_initialize_extraction_info : fe_extraction_info K).frames_in_window = 64 := by
    simp only [fe_initialize_extraction_info, FS, N_SAMPS]
    have h3 : ⌊(3 : K)⌋₊ = 3 := Nat.floor_ofNat 3
    rw [h3]
    have : ((3 : K) * ((44100 : Nat) : K) - ((3 * 44100 % 2048 : Nat) : K)) / ((2048 : Nat) : K)
        = ((64 : Nat) : K) := by
      norm_num
    rw [this, Nat.floor_natCast]
  have hfl : ⌊(3 : K) * ((44100 : Nat) : K) / ((2048 : Nat) : K)⌋₊ = 64 := by
    rw [Nat.floor_eq_iff (by positivity)]
    constructor <;> norm_num
  refine ⟨rfl, rfl, rfl, rfl, rfl, rfl, rfl, rfl, ?_, h64, ?_⟩
  · rw [h64]
    exact hfl.symm
  · rw [h64]
    norm_num

end ConfigurationTheorems

section SpectralBounds

variable {K : Type} [LinearOrderedField K]

theorem fe_rolloff_loop_total (magnitude : Nat → K) (n : Nat) (rolloff : K)
    (hr1 : rolloff ≤ 1) (hpos : 0 < ∑ j in Finset.range n, magnitude j) :
    ∃ i, i < n ∧
      fe_rolloff_loop magnitude (fe_magnitude_sum magnitude n) rolloff n 0 0
        = some (i + 1) := by
  classical
  have hn : 0 < n := by
    rcases Nat.eq_zero_or_pos n with h0 | h0
    · rw [h0] at hpos; simp at hpos
    · exact h0
  have hex : ∃ k, rolloff * (∑ j in Finset.range n, magnitude j)
      ≤ ∑ j in Finset.range (k + 1), magnitude j := by
    refine ⟨n - 1, ?_⟩
    rw [Nat.sub_add_cancel hn]
    nlinarith
  have hlt : Nat.find hex < n := by
    have : Nat.find hex ≤ n - 1 := Nat.find_min' hex (by
      rw [Nat.sub_add_cancel hn]
      nlinarith)
    omega
  refine ⟨Nat.find hex, hlt, ?_⟩
  rw [fe_magnitude_sum_eq]
  have h := fe_rolloff_loop_eq magnitude _ rolloff hpos (Nat.find hex)
    (Nat.find_spec hex) (fun k hk => not_le.mp (Nat.find_min hex hk))
    n 0 (Nat.zero_le _) (by omega)
  rw [Finset.sum_range_zero] at h
  exact h

theorem fe_spectral_centroid_eq (magnitude : Nat → K) (info : fe_extraction_info K) :
    fe_spectral_centroid magnitude info =
      (∑ i in Finset.range info.dft_length,
        (i : K) * (info.fs : K) / (info.frame_length : K) * magnitude i)
        / (∑ i in Finset.range info.dft_length, magnitude i) := by
  unfold fe_spectral_centroid
  have h : ∀ n, forLoop n
      (fun i (st : K × K) =>
        (st.1 + magnitude i,
         st.2 + (i : K) * (info.fs : K) / (info.frame_length : K) * magnitude i))
      (0, 0)
      = (∑ i in Finset.range n, magnitude i,
         ∑ i in Finset.range n,
           (i : K) * (info.fs : K) / (info.frame_length : K) * magnitude i) := by
    intro n
    induction n with
    | zero => simp [forLoop]
    | succ n ih => simp only [forLoop, ih, Finset.sum_range_succ]
  simp only [h]

/-- C26: for a magnitude spectrum with positive total and a rolloff ratio in [0,1], the
`do … while` loop of `fe_spectral_rolloff` stops after reading `n` bins with
`1 ≤ n ≤ dft_length` (it never reads past the end of the array), and the function
returns a value between `fs/frame_length` and `dft_length·fs/frame_length`. The bound
holds whatever the signs of the magnitudes. -/
theorem fe_spectral_rolloff_terminates (magnitude : Nat → K) (info : fe_extraction_info K)
    (hr0 : 0 ≤ info.rolloff) (hr1 : info.rolloff ≤ 1)
    (hpos : 0 < ∑ j in Finset.range info.dft_length, magnitude j) :
    ∃ n v, 1 ≤ n ∧ n ≤ info.dft_length ∧
      fe_rolloff_loop magnitude (fe_magnitude_sum magnitude info.dft_length) info.rolloff
        info.dft_length 0 0 = some n ∧
      fe_spectral_rolloff magnitude info = some v ∧
      (info.fs : K) / (info.frame_length : K) ≤ v ∧
      v ≤ (info.dft_length : K) * (info.fs : K) / (info.frame_length : K) := by
  obtain ⟨i, hi, hloop⟩ := fe_rolloff_loop_total magnitude info.dft_length info.rolloff hr1 hpos
  have hfs : (0 : K) ≤ (info.fs : K) / (info.frame_length : K) :=
    div_nonneg (Nat.cast_nonneg _) (Nat.cast_nonneg _)
  have h1 : (1 : K) ≤ ((i + 1 : Nat) : K) := by
    exact_mod_cast Nat.succ_le_succ (Nat.zero_le i)
  have h2 : ((i + 1 : Nat) : K) ≤ (info.dft_length : K) := by
    exact_mod_cast hi
  refine ⟨i + 1, ((i + 1 : Nat) : K) * (info.fs : K) / (info.frame_length : K),
    Nat.succ_le_succ (Nat.zero_le i), hi, hloop, ?_, ?_, ?_⟩
  · unfold fe_spectral_rolloff
    rw [if_neg (by rw [not_or, not_lt, not_lt]; exact ⟨hr0, hr1⟩)]
    simp only [hloop, Option.map_some']
  · rw [mul_div_assoc]
    calc (info.fs : K) / (info.frame_length : K)
        = 1 * ((info.fs : K) / (info.frame_length : K)) := (one_mul _).symm
      _ ≤ ((i + 1 : Nat) : K) * ((info.fs : K) / (info.frame_length : K)) :=
        mul_le_mul_of_nonneg_right h1 hfs
  · rw [mul_div_assoc, mul_div_assoc]
    exact mul_le_mul_of_nonneg_right h2 hfs

/-- C27: for a magnitude spectrum whose `dft_length` bins are non-negative and have a
positive total, `fe_spectral_centroid` returns a value in
`[0, (dft_length − 1)·fs/frame_length]`. -/
theorem fe_spectral_centroid_bounds (magnitude : Nat → K) (info : fe_extraction_info K)
    (hnn : ∀ j, j < info.dft_length → 0 ≤ magnitude j)
    (hpos : 0 < ∑ j in Finset.range info.dft_length, magnitude j) :
    0 ≤ fe_spectral_centroid magnitude info ∧
    fe_spectral_centroid magnitude info
      ≤ (((info.dft_length : Int) - 1 : Int) : K) * (info.fs : K) / (info.frame_length : K) := by
  have hn : 0 < info.dft_length := by
    rcases Nat.eq_zero_or_pos info.dft_length with h0 | h0
    · rw [h0] at hpos; simp at hpos
    · exact h0
  have hfs : (0 : K) ≤ (info.fs : K) / (info.frame_length : K) :=
    div_nonneg (Nat.cast_nonneg _) (Nat.cast_nonneg _)
  have hcast : (((info.dft_length : Int) - 1 : Int) : K) = ((info.dft_length - 1 : Nat) : K) := by
    have : ((info.dft_length : Int) - 1 : Int) = ((info.dft_length - 1 : Nat) : Int) := by omega
    rw [this, Int.cast_natCast]
  rw [fe_spectral_centroid_eq, hcast]
  constructor
  · apply div_nonneg _ hpos.le
    apply Finset.sum_nonneg
    intro i hi
    rw [mul_div_assoc]
    exact mul_nonneg (mul_nonneg (Nat.cast_nonneg _) hfs) (hnn i (Finset.mem_range.mp hi))
  · rw [div_le_iff₀ hpos, Finset.mul_sum]
    apply Finset.sum_le_sum
    intro i hi
    have hi2 : i ≤ info.dft_length - 1 := by
      have := Finset.mem_range.mp hi
      omega
    have hi3 : (i : K) ≤ ((info.dft_length - 1 : Nat) : K) := by exact_mod_cast hi2
    rw [mul_div_assoc, mul_div_assoc]
    exact mul_le_mul_of_nonneg_right (mul_le_mul_of_nonneg_right hi3 hfs)
      (hnn i (Finset.mem_range.mp hi))

theorem fe_spectral_rolloff_terminates_witness :
    ∃ n v, 1 ≤ n ∧ n ≤ (demoInfo (1 / 2)).dft_length ∧
      fe_rolloff_loop demoSpectrum (fe_magnitude_sum demoSpectrum (demoInfo (1 / 2)).dft_length)
        (demoInfo (1 / 2)).rolloff (demoInfo (1 / 2)).dft_length 0 0 = some n ∧
      fe_spectral_rolloff demoSpectrum (demoInfo (1 / 2)) = some v ∧
      (((demoInfo (1 / 2)).fs : Nat) : ℚ) / (((demoInfo (1 / 2)).frame_length : Nat) : ℚ) ≤ v ∧
      v ≤ (((demoInfo (1 / 2)).dft_length : Nat) : ℚ) * (((demoInfo (1 / 2)).fs : Nat) : ℚ)
        / (((demoInfo (1 / 2)).frame_length : Nat) : ℚ) :=
  fe_spectral_rolloff_terminates demoSpectrum (demoInfo (1 / 2))
    (by norm_num [demoInfo]) (by norm_num [demoInfo]) (by simp [demoSpectrum, demoInfo])

theorem fe_spectral_centroid_bounds_witness :
    0 ≤ fe_spectral_centroid demoSpectrum (demoInfo (1 / 2)) ∧
    fe_spectral_centroid demoSpectrum (demoInfo (1 / 2))
      ≤ ((((demoInfo (1 / 2)).dft_length : Int) - 1 : Int) : ℚ)
          * (((demoInfo (1 / 2)).fs : Nat) : ℚ) / (((demoInfo (1 / 2)).frame_length : Nat) : ℚ) :=
  fe_spectral_centroid_bounds demoSpectrum (demoInfo (1 / 2))
    (fun j _ => by simp [demoSpectrum]) (by simp [demoSpectrum, demoInfo])

end SpectralBounds

section ContrastOrder

variable {K : Type} [LinearOrderedField K]

theorem qsort_sorted (base : Nat → K) (start count a b : Nat) (hab : a ≤ b)
    (hb : b < count) :
    qsort base start count (start + a) ≤ qsort base start count (start + b) := by
  unfold qsort
  rw [if_pos ⟨Nat.le_add_right _ _, by omega⟩, if_pos ⟨Nat.le_add_right _ _, by omega⟩,
    Nat.add_sub_cancel_left, Nat.add_sub_cancel_left]
  have hlen : (List.insertionSort (· ≤ ·)
      ((List.range count).map (fun k => base (start + k)))).length = count := by
    rw [List.length_insertionSort, List.length_map, List.length_range]
  have hs := List.sorted_insertionSort (· ≤ ·)
    ((List.range count).map (fun k => base (start + k)))
  rw [List.getD_eq_getElem _ _ (by omega), List.getD_eq_getElem _ _ (by omega)]
  exact hs.rel_get_of_le (Fin.mk_le_mk.mpr hab)

theorem fe_band_sums_eq (mag_cpy : Nat → K) (a b n : Nat) :
    forLoop n (fun j (pv : K × K) => (pv.1 + mag_cpy (a + j), pv.2 + mag_cpy (b + j))) (0, 0)
      = (∑ j in Finset.range n, mag_cpy (a + j), ∑ j in Finset.range n, mag_cpy (b + j)) := by
  induction n with
  | zero => simp [forLoop]
  | succ n ih => simp only [forLoop, ih, Finset.sum_range_succ]

theorem fe_band_sums_le (info : fe_extraction_info K) (i : Nat)
    (mag_cpy : Nat → K) (mag_cpy_ptr : Nat) :
    ∑ j in Finset.range (fe_band_width info i / 5),
        qsort mag_cpy mag_cpy_ptr (fe_band_width info i) (mag_cpy_ptr + j)
      ≤ ∑ j in Finset.range (fe_band_width info i / 5),
        qsort mag_cpy mag_cpy_ptr (fe_band_width info i)
          (mag_cpy_ptr + (fe_band_width info i - fe_band_width info i / 5) + j) := by
  apply Finset.sum_le_sum
  intro j hj
  have hj2 := Finset.mem_range.mp hj
  have hle := Nat.div_le_self (fe_band_width info i) 5
  rw [Nat.add_assoc]
  exact qsort_sorted mag_cpy mag_cpy_ptr _ j _ (by omega) (by omega)

/-- C28: for every magnitude spectrum and every contrast band whose neighbourhood is at
least 1, the valley average that `fe_spectral_contrast` computes (the mean of the
smallest magnitudes of the sorted band) is at most the peak average (the mean of the
largest), so the argument `peak − valley` of the third logarithm is not negative. -/
theorem fe_contrast_valley_le_peak (m : MathLib K) (magnitude : Nat → K)
    (info : fe_extraction_info K) (b : Nat) (hnb : 1 ≤ fe_band_neighborhood info b) :
    (fe_contrast_peak_valley m magnitude info b).2
      ≤ (fe_contrast_peak_valley m magnitude info b).1 ∧
    0 ≤ (fe_contrast_peak_valley m magnitude info b).1
      - (fe_contrast_peak_valley m magnitude info b).2 := by
  have hpos : (0 : K) < ((fe_band_width info b / 5 : Nat) : K) := by
    have : 0 < fe_band_width info b / 5 := hnb
    exact_mod_cast this
  have h : (fe_contrast_peak_valley m magnitude info b).2
      ≤ (fe_contrast_peak_valley m magnitude info b).1 := by
    unfold fe_contrast_peak_valley fe_band_peak_valley
    simp only
    rw [fe_band_sums_eq]
    exact (div_le_div_iff_of_pos_right hpos).mpr (fe_band_sums_le info b _ _)
  exact ⟨h, sub_nonneg.mpr h⟩

theorem fe_contrast_valley_le_peak_witness :
    1 ≤ fe_band_neighborhood demoInfoFit 0 ∧
    (fe_contrast_peak_valley ratMath demoSpectrum demoInfoFit 0).2
      ≤ (fe_contrast_peak_valley ratMath demoSpectrum demoInfoFit 0).1 ∧
    0 ≤ (fe_contrast_peak_valley ratMath demoSpectrum demoInfoFit 0).1
      - (fe_contrast_peak_valley ratMath demoSpectrum demoInfoFit 0).2 :=
  ⟨by decide, fe_contrast_valley_le_peak ratMath demoSpectrum demoInfoFit 0 (by decide)⟩

end ContrastOrder

section InitialisationTheorems

variable {K : Type} [LinearOrderedField K]

/-- C22 (amended): after a successful `fe_initialize_extraction_thread_data` the timbre
matrix and the rectified flux buffer are the blocks that the allocator returned, with the
contents they had on allocation: the initialisation writes no entry of either, and the
column cursor is 0. -/
theorem fe_initialize_buffers (m : MathLib K) (heap : fe_allocation K)
    (info : fe_extraction_info K)
    (hsucc : (fe_initialize_extraction_thread_data m heap info).init_success = 1) :
    (∃ timbre_matrix rectified_flux_buffer,
      heap.timbre_matrix = some timbre_matrix ∧
      heap.rectified_flux_buffer = some rectified_flux_buffer ∧
      (fe_initialize_extraction_thread_data m heap info).timbre_matrix
        = some timbre_matrix ∧
      (fe_initialize_extraction_thread_data m heap info).rectified_flux_buffer
        = some rectified_flux_buffer) ∧
    (fe_initialize_extraction_thread_data m heap info).columnPtr = 0 := by
  rcases heap with ⟨_ | audio, _ | hamm_win, _ | dft, _ | magnitude, _ | prev_mag,
    _ | rectified_flux_buffer, _ | timbre_matrix, _ | _⟩
  all_goals first
    | (exfalso; revert hsucc;
       simp [fe_initialize_extraction_thread_data, fe_initialize_failed]; done)
    | simp [fe_initialize_extraction_thread_data]

theorem fe_initialize_buffers_counterexample :
    (fe_initialize_extraction_thread_data ratMath demoHeap demoInfoCb).init_success = 1 ∧
    (∃ timbre_matrix,
      (fe_initialize_extraction_thread_data ratMath demoHeap demoInfoCb).timbre_matrix
        = some timbre_matrix ∧ timbre_matrix 0 = 7 ∧ timbre_matrix 0 ≠ 0) ∧
    (∃ rectified_flux_buffer,
      (fe_initialize_extraction_thread_data ratMath demoHeap demoInfoCb).rectified_flux_buffer
        = some rectified_flux_buffer ∧
      rectified_flux_buffer 0 = 7 ∧ rectified_flux_buffer 0 ≠ 0) ∧
    (∃ prev_mag,
      (fe_initialize_extraction_thread_data ratMath demoHeap demoInfoCb).prev_mag
        = some prev_mag ∧ prev_mag 0 = 7 ∧ prev_mag 0 ≠ 0) := by
  refine ⟨rfl, ⟨fun _ => 7, rfl, rfl, by norm_num⟩, ⟨fun _ => 7, rfl, rfl, by norm_num⟩,
    ⟨fun _ => 7, rfl, rfl, by norm_num⟩⟩

theorem fe_initialize_buffers_witness :
    (fe_initialize_extraction_thread_data ratMath demoHeap demoInfoCb).init_success = 1 ∧
    ((∃ timbre_matrix rectified_flux_buffer,
      demoHeap.timbre_matrix = some timbre_matrix ∧
      demoHeap.rectified_flux_buffer = some rectified_flux_buffer ∧
      (fe_initialize_extraction_thread_data ratMath demoHeap demoInfoCb).timbre_matrix
        = some timbre_matrix ∧
      (fe_initialize_extraction_thread_data ratMath demoHeap demoInfoCb).rectified_flux_buffer
        = some rectified_flux_buffer) ∧
    (fe_initialize_extraction_thread_data ratMath demoHeap demoInfoCb).columnPtr = 0) :=
  ⟨rfl, fe_initialize_buffers ratMath demoHeap demoInfoCb rfl⟩

end InitialisationTheorems

section TextureTheorems

variable {K : Type} [LinearOrderedField K]

theorem id_textureUpdateRoutine_pass_range (arousal valence : K) (st : id_texture_state K) :
    -1 ≤ (id_textureUpdateRoutine_pass arousal valence st).2.1 ∧
    (id_textureUpdateRoutine_pass arousal valence st).2.1 ≤ 1 ∧
    -1 ≤ (id_textureUpdateRoutine_pass arousal valence st).2.2 ∧
    (id_textureUpdateRoutine_pass arousal valence st).2.2 ≤ 1 := by
  unfold id_textureUpdateRoutine_pass
  simp only
  refine ⟨?_, ?_, ?_, ?_⟩ <;> split_ifs <;> linarith

theorem id_textureUpdateRoutine_from_range (predictions : List (K × K)) :
    ∀ (st : id_texture_state K) (p : K × K), p ∈ id_textureUpdateRoutine_from predictions st →
      -1 ≤ p.1 ∧ p.1 ≤ 1 ∧ -1 ≤ p.2 ∧ p.2 ≤ 1 := by
  induction predictions with
  | nil => intro st p hp; simp [id_textureUpdateRoutine_from] at hp
  | cons q rest ih =>
    intro st p hp
    simp only [id_textureUpdateRoutine_from, List.mem_cons] at hp
    rcases hp with hp | hp
    · rw [hp]
      exact id_textureUpdateRoutine_pass_range q.1 q.2 st
    · exact ih _ p hp

theorem id_modifier_checked (x : K) :
    (if x > 0 then some (1 - x) else fdiv 1 (1 + x))
      = if x = -1 then none else some (if x > 0 then 1 - x else 1 / (1 + x)) := by
  by_cases h1 : x = -1
  · have h0 : ¬ x > 0 := by rw [h1]; norm_num
    have hz : 1 + x = 0 := by rw [h1]; norm_num
    rw [if_neg h0, if_pos h1, hz, fdiv_zero]
  · rw [if_neg h1]
    by_cases h0 : x > 0
    · rw [if_pos h0, if_pos h0]
    · have hz : 1 + x ≠ 0 := fun h => h1 (by linarith)
      rw [if_neg h0, if_neg h0, fdiv_of_ne _ _ hz]

theorem id_updateTexture_modifiers_checked_eq (arousal valence : K) :
    (id_updateTexture_modifiers_checked arousal valence = none
      ↔ arousal = -1 ∨ valence = -1) ∧
    (arousal ≠ -1 → valence ≠ -1 →
      id_updateTexture_modifiers_checked arousal valence
        = some (id_updateTexture_modifiers arousal valence)) := by
  unfold id_updateTexture_modifiers_checked id_updateTexture_modifiers
  rw [id_modifier_checked arousal, id_modifier_checked valence]
  by_cases ha1 : arousal = -1
  · simp [ha1]
  · by_cases hv1 : valence = -1
    · simp [ha1, hv1]
    · simp [ha1, hv1]

/-- C30 (amended): every pair `(arousal, valence)` that `id_textureUpdateRoutine` passes to
`id_updateTexture` lies in [−1, 1]², so the denominators `1 + arousal` and `1 + valence`
are never negative; `id_updateTexture` divides by zero exactly when a passed value is −1,
the lower bound of the clamp, and for every other passed pair both denominators are
positive and `beta` and `gamma` are computed. -/
theorem id_updateTexture_division (predictions : List (K × K)) (p : K × K)
    (hp : p ∈ id_textureUpdateRoutine predictions) :
    (-1 ≤ p.1 ∧ p.1 ≤ 1 ∧ -1 ≤ p.2 ∧ p.2 ≤ 1) ∧
    (0 ≤ 1 + p.1 ∧ 0 ≤ 1 + p.2) ∧
    (id_updateTexture_modifiers_checked p.1 p.2 = none ↔ p.1 = -1 ∨ p.2 = -1) ∧
    (p.1 ≠ -1 → p.2 ≠ -1 →
      0 < 1 + p.1 ∧ 0 < 1 + p.2 ∧
      id_updateTexture_modifiers_checked p.1 p.2
        = some (id_updateTexture_modifiers p.1 p.2)) := by
  have hr := id_textureUpdateRoutine_from_range predictions _ p hp
  refine ⟨hr, ⟨by linarith [hr.1], by linarith [hr.2.2.1]⟩,
    (id_updateTexture_modifiers_checked_eq p.1 p.2).1, ?_⟩
  intro h1 h2
  refine ⟨?_, ?_, (id_updateTexture_modifiers_checked_eq p.1 p.2).2 h1 h2⟩
  · rcases lt_or_eq_of_le hr.1 with h | h
    · linarith
    · exact absurd h.symm h1
  · rcases lt_or_eq_of_le hr.2.2.1 with h | h
    · linarith
    · exact absurd h.symm h2

theorem id_updateTexture_division_counterexample :
    id_textureUpdateRoutine [((-1 : ℚ), (-1 : ℚ))] = [((-1 : ℚ), (-1 : ℚ))] ∧
    (1 : ℚ) + (-1) = 0 ∧
    id_updateTexture_modifiers_checked (-1 : ℚ) (-1) = none := by
  refine ⟨?_, by norm_num, ?_⟩
  · simp [id_textureUpdateRoutine, id_textureUpdateRoutine_from, id_textureUpdateRoutine_pass,
      LAMBDA]
    norm_num
  · exact (id_updateTexture_modifiers_checked_eq (-1 : ℚ) (-1)).1.mpr (Or.inl rfl)

theorem id_updateTexture_division_witness :
    ((1 / 2 : ℚ), (3 / 4 : ℚ)) ∈ id_textureUpdateRoutine [((1 / 2 : ℚ), (1 / 2 : ℚ))] ∧
    ((-1 ≤ (1 / 2 : ℚ) ∧ (1 / 2 : ℚ) ≤ 1 ∧ -1 ≤ (3 / 4 : ℚ) ∧ (3 / 4 : ℚ) ≤ 1) ∧
    (0 ≤ 1 + (1 / 2 : ℚ) ∧ 0 ≤ 1 + (3 / 4 : ℚ)) ∧
    (id_updateTexture_modifiers_checked (1 / 2 : ℚ) (3 / 4) = none
      ↔ (1 / 2 : ℚ) = -1 ∨ (3 / 4 : ℚ) = -1) ∧
    ((1 / 2 : ℚ) ≠ -1 → (3 / 4 : ℚ) ≠ -1 →
      0 < 1 + (1 / 2 : ℚ) ∧ 0 < 1 + (3 / 4 : ℚ) ∧
      id_updateTexture_modifiers_checked (1 / 2 : ℚ) (3 / 4)
        = some (id_updateTexture_modifiers (1 / 2 : ℚ) (3 / 4)))) := by
  have hmem : ((1 / 2 : ℚ), (3 / 4 : ℚ))
      ∈ id_textureUpdateRoutine [((1 / 2 : ℚ), (1 / 2 : ℚ))] := by
    simp [id_textureUpdateRoutine, id_textureUpdateRoutine_from, id_textureUpdateRoutine_pass,
      LAMBDA]
    norm_num
  exact ⟨hmem, id_updateTexture_division [((1 / 2 : ℚ), (1 / 2 : ℚ))] (1 / 2, 3 / 4) hmem⟩

end TextureTheorems

section ColourLemmas

variable {K : Type} [LinearOrderedField K]

theorem minOfThree_eq (a b c : K) : minOfThree a b c = min (min a b) c := by
  unfold minOfThree
  simp only
  by_cases h1 : b < a
  · rw [if_pos h1, min_eq_right h1.le]
    by_cases h2 : c < b
    · rw [if_pos h2, min_eq_right h2.le]
    · rw [if_neg h2, min_eq_left (not_lt.mp h2)]
  · rw [if_neg h1, min_eq_left (not_lt.mp h1)]
    by_cases h2 : c < a
    · rw [if_pos h2, min_eq_right h2.le]
    · rw [if_neg h2, min_eq_left (not_lt.mp h2)]

theorem maxOfThree_eq (a b c : K) : maxOfThree a b c = max (max a b) c := by
  unfold maxOfThree
  simp only
  by_cases h1 : b > a
  · rw [if_pos h1, max_eq_right h1.le]
    by_cases h2 : c > b
    · rw [if_pos h2, max_eq_right h2.le]
    · rw [if_neg h2, max_eq_left (not_lt.mp h2)]
  · rw [if_neg h1, max_eq_left (not_lt.mp h1)]
    by_cases h2 : c > a
    · rw [if_pos h2, max_eq_right h2.le]
    · rw [if_neg h2, max_eq_left (not_lt.mp h2)]

theorem hsv_p (M m : K) (hM : M ≠ 0) : M * (1 - (M - m) / M) = m := by
  field_simp

theorem hsv_t (M m x : K) (hM : M ≠ 0) (hd : M - m ≠ 0) :
    M * (1 - (M - m) / M * (1 - x / (M - m))) = m + x := by
  field_simp
  ring

theorem hsv_q (M m x : K) (hM : M ≠ 0) (hd : M - m ≠ 0) :
    M * (1 - (M - m) / M * (1 + x / (M - m))) = m - x := by
  field_simp
  ring

theorem hsv_q_zero (M m : K) : M * (1 - (M - m) / M * 0) = M := by
  ring

end ColourLemmas

section ColourTheorems

variable {K : Type} [LinearOrderedField K] [FloorRing K]

theorem castInt_intCast (n : Int) : castInt ((n : K)) = n := by
  unfold castInt
  split_ifs
  · exact Int.floor_intCast n
  · exact Int.ceil_intCast n

theorem castInt_eq (x : K) (k : Int) (hk : 0 ≤ k) (h1 : (k : K) ≤ x) (h2 : x < (k : K) + 1) :
    castInt x = k := by
  unfold castInt
  have hx : (0 : K) ≤ x := le_trans (by exact_mod_cast hk) h1
  rw [if_pos hx]
  exact Int.floor_eq_iff.mpr ⟨h1, h2⟩

theorem HSVtoRGB_sector0 (h s v : K) (hs : s ≠ 0) (h1 : 0 ≤ h / 60) (h2 : h / 60 < 1) :
    HSVtoRGB h s v = (castInt (v * 255), castInt (v * (1 - s * (1 - h / 60)) * 255),
      castInt (v * (1 - s) * 255)) := by
  unfold HSVtoRGB
  rw [if_neg hs]
  simp only
  rw [castInt_eq (h / 60) 0 le_rfl (by simpa using h1) (by simpa using h2)]
  simp

theorem HSVtoRGB_sector1 (h s v : K) (hs : s ≠ 0) (h1 : 1 ≤ h / 60) (h2 : h / 60 < 2) :
    HSVtoRGB h s v = (castInt (v * (1 - s * (h / 60 - 1)) * 255), castInt (v * 255),
      castInt (v * (1 - s) * 255)) := by
  unfold HSVtoRGB
  rw [if_neg hs]
  simp only
  rw [castInt_eq (h / 60) 1 (by norm_num) (by simpa using h1)
    (by rw [Int.cast_one]; linarith)]
  simp

theorem HSVtoRGB_sector2 (h s v : K) (hs : s ≠ 0) (h1 : 2 ≤ h / 60) (h2 : h / 60 < 3) :
    HSVtoRGB h s v = (castInt (v * (1 - s) * 255), castInt (v * 255),
      castInt (v * (1 - s * (1 - (h / 60 - 2))) * 255)) := by
  unfold HSVtoRGB
  rw [if_neg hs]
  simp only
  rw [castInt_eq (h / 60) 2 (by norm_num) (by simpa using h1)
    (by rw [Int.cast_ofNat]; linarith)]
  simp

theorem HSVtoRGB_sector3 (h s v : K) (hs : s ≠ 0) (h1 : 3 ≤ h / 60) (h2 : h / 60 < 4) :
    HSVtoRGB h s v = (castInt (v * (1 - s) * 255),
      castInt (v * (1 - s * (h / 60 - 3)) * 255), castInt (v * 255)) := by
  unfold HSVtoRGB
  rw [if_neg hs]
  simp only
  rw [castInt_eq (h / 60) 3 (by norm_num) (by simpa using h1)
    (by rw [Int.cast_ofNat]; linarith)]
  simp

theorem HSVtoRGB_sector4 (h s v : K) (hs : s ≠ 0) (h1 : 4 ≤ h / 60) (h2 : h / 60 < 5) :
    HSVtoRGB h s v = (castInt (v * (1 - s * (1 - (h / 60 - 4))) * 255),
      castInt (v * (1 - s) * 255), castInt (v * 255)) := by
  unfold HSVtoRGB
  rw [if_neg hs]
  simp only
  rw [castInt_eq (h / 60) 4 (by norm_num) (by simpa using h1)
    (by rw [Int.cast_ofNat]; linarith)]
  simp

theorem HSVtoRGB_sector5 (h s v : K) (hs : s ≠ 0) (h1 : 5 ≤ h / 60) (h2 : h / 60 < 6) :
    HSVtoRGB h s v = (castInt (v * 255), castInt (v * (1 - s) * 255),
      castInt (v * (1 - s * (h / 60 - 5)) * 255)) := by
  unfold HSVtoRGB
  rw [if_neg hs]
  simp only
  rw [castInt_eq (h / 60) 5 (by norm_num) (by simpa using h1)
    (by rw [Int.cast_ofNat]; linarith)]
  simp

theorem colour_round_trip_nonneg (r g b : Int) (hr : 0 ≤ r) (hg : 0 ≤ g) (hb : 0 ≤ b) :
    HSVtoRGB (RGBtoHSV r g b : K × K × K).1 (RGBtoHSV r g b : K × K × K).2.1
      (RGBtoHSV r g b : K × K × K).2.2 = (r, g, b) := by
  obtain ⟨R, hR⟩ : ∃ R : K, R = (r : K) / 255 := ⟨_, rfl⟩
  obtain ⟨G, hG⟩ : ∃ G : K, G = (g : K) / 255 := ⟨_, rfl⟩
  obtain ⟨B, hB⟩ : ∃ B : K, B = (b : K) / 255 := ⟨_, rfl⟩
  have h255 : (255 : K) ≠ 0 := by norm_num
  have hR0 : 0 ≤ R := by rw [hR]; exact div_nonneg (by exact_mod_cast hr) (by norm_num)
  have hG0 : 0 ≤ G := by rw [hG]; exact div_nonneg (by exact_mod_cast hg) (by norm_num)
  have hB0 : 0 ≤ B := by rw [hB]; exact div_nonneg (by exact_mod_cast hb) (by norm_num)
  have keyR : ∀ X : K, X = R → castInt (X * 255) = r := by
    intro X hX
    rw [hX, hR, div_mul_cancel₀ _ h255, castInt_intCast]
  have keyG : ∀ X : K, X = G → castInt (X * 255) = g := by
    intro X hX
    rw [hX, hG, div_mul_cancel₀ _ h255, castInt_intCast]
  have keyB : ∀ X : K, X = B → castInt (X * 255) = b := by
    intro X hX
    rw [hX, hB, div_mul_cancel₀ _ h255, castInt_intCast]
  obtain ⟨M, hM⟩ : ∃ M : K, M = max (max R G) B := ⟨_, rfl⟩
  obtain ⟨m, hm⟩ : ∃ m : K, m = min (min R G) B := ⟨_, rfl⟩
  have Rle : R ≤ M := by rw [hM]; exact le_trans (le_max_left _ _) (le_max_left _ _)
  have Gle : G ≤ M := by rw [hM]; exact le_trans (le_max_right _ _) (le_max_left _ _)
  have Ble : B ≤ M := by rw [hM]; exact le_max_right _ _
  have mleR : m ≤ R := by rw [hm]; exact le_trans (min_le_left _ _) (min_le_left _ _)
  have mleG : m ≤ G := by rw [hm]; exact le_trans (min_le_left _ _) (min_le_right _ _)
  have mleB : m ≤ B := by rw [hm]; exact min_le_right _ _
  have hMcases : M = R ∨ M = G ∨ M = B := by
    rw [hM]
    rcases max_choice (max R G) B with h | h
    · rw [h]
      rcases max_choice R G with h2 | h2
      · exact Or.inl h2
      · exact Or.inr (Or.inl h2)
    · exact Or.inr (Or.inr h)
  unfold RGBtoHSV
  simp only
  rw [← hR, ← hG, ← hB, minOfThree_eq, maxOfThree_eq, ← hM, ← hm]
  by_cases hc : M ≠ 0 ∧ M - m ≠ 0
  · rw [if_pos hc]
    simp only
    obtain ⟨hM0, hd⟩ := hc
    have hMpos : 0 < M := lt_of_le_of_ne (le_trans hR0 Rle) (Ne.symm hM0)
    have hdpos : 0 < M - m := lt_of_le_of_ne (sub_nonneg.mpr (le_trans mleR Rle)) (Ne.symm hd)
    have hs : (M - m) / M ≠ 0 := div_ne_zero hd hM0
    have h60 : ∀ u : K, u * 60 / 60 = u := fun u => by field_simp
    have h360 : ∀ u : K, (u * 60 + 360) / 60 = u + 6 := fun u => by field_simp; ring
    by_cases hrM : R = M
    · rw [if_pos hrM]
      by_cases hgb : B ≤ G
      · have hmB : m = B := le_antisymm mleB (by
          rw [hm]
          exact le_min (le_min (by rw [hrM]; exact Ble) hgb) le_rfl)
        have hu0 : 0 ≤ (G - B) / (M - m) := div_nonneg (sub_nonneg.mpr hgb) hdpos.le
        rw [if_neg (not_lt.mpr (mul_nonneg hu0 (by norm_num)))]
        by_cases hgM : G = M
        · have hu : (G - B) / (M - m) = 1 := by rw [hgM, hmB]; exact div_self (hmB ▸ hd)
          rw [HSVtoRGB_sector1 _ _ _ hs (by rw [h60, hu]) (by rw [h60, hu]; norm_num),
            Prod.mk.injEq, Prod.mk.injEq]
          refine ⟨keyR _ ?_, keyG _ hgM.symm, keyB _ ?_⟩
          · rw [h60, hu, sub_self, hsv_q_zero, hrM]
          · rw [hsv_p M m hM0, hmB]
        · have hu1 : (G - B) / (M - m) < 1 := by
            rw [div_lt_one hdpos, hmB]
            have := lt_of_le_of_ne Gle hgM
            linarith
          rw [HSVtoRGB_sector0 _ _ _ hs (by rw [h60]; exact hu0) (by rw [h60]; exact hu1),
            Prod.mk.injEq, Prod.mk.injEq]
          refine ⟨keyR _ hrM.symm, keyG _ ?_, keyB _ ?_⟩
          · rw [h60, hsv_t M m _ hM0 hd, hmB]
            ring
          · rw [hsv_p M m hM0, hmB]
      · have hgb2 : G < B := not_le.mp hgb
        have hmG : m = G := le_antisymm mleG (by
          rw [hm]
          exact le_min (le_min (by rw [hrM]; exact Gle) le_rfl) hgb2.le)
        have hu0 : (G - B) / (M - m) < 0 := div_neg_of_neg_of_pos (by linarith) hdpos
        have hu1 : -1 ≤ (G - B) / (M - m) := by
          rw [le_div_iff₀ hdpos, hmG]
          linarith
        rw [if_pos (by linarith)]
        rw [HSVtoRGB_sector5 _ _ _ hs (by rw [h360]; linarith) (by rw [h360]; linarith),
          Prod.mk.injEq, Prod.mk.injEq]
        refine ⟨keyR _ hrM.symm, keyG _ ?_, keyB _ ?_⟩
        · rw [hsv_p M m hM0, hmG]
        · rw [h360]
          have : (G - B) / (M - m) + 6 - 5 = 1 + (G - B) / (M - m) := by ring
          rw [this, hsv_q M m _ hM0 hd, hmG]
          ring
    · rw [if_neg hrM]
      have hRlt : R < M := lt_of_le_of_ne Rle hrM
      by_cases hgM : G = M
      · rw [if_pos hgM]
        by_cases hrb : R ≤ B
        · have hmR : m = R := le_antisymm mleR (by
            rw [hm]
            exact le_min (le_min le_rfl (by rw [hgM]; exact Rle)) hrb)
          have hu0 : 0 ≤ (B - R) / (M - m) := div_nonneg (sub_nonneg.mpr hrb) hdpos.le
          have hh : ¬ (2 + (B - R) / (M - m)) * 60 < 0 := by
            rw [not_lt]
            exact mul_nonneg (by linarith) (by norm_num)
          rw [if_neg hh]
          by_cases hbM : B = M
          · have hu : (B - R) / (M - m) = 1 := by rw [hbM, hmR]; exact div_self (hmR ▸ hd)
            rw [HSVtoRGB_sector3 _ _ _ hs (by rw [h60, hu]; norm_num)
              (by rw [h60, hu]; norm_num), Prod.mk.injEq, Prod.mk.injEq]
            refine ⟨keyR _ ?_, keyG _ ?_, keyB _ hbM.symm⟩
            · rw [hsv_p M m hM0, hmR]
            · rw [h60, hu]
              have : (2 : K) + 1 - 3 = 0 := by norm_num
              rw [this, hsv_q_zero, hgM]
          · have hu1 : (B - R) / (M - m) < 1 := by
              rw [div_lt_one hdpos, hmR]
              have := lt_of_le_of_ne Ble hbM
              linarith
            rw [HSVtoRGB_sector2 _ _ _ hs (by rw [h60]; linarith) (by rw [h60]; linarith),
              Prod.mk.injEq, Prod.mk.injEq]
            refine ⟨keyR _ ?_, keyG _ hgM.symm, keyB _ ?_⟩
            · rw [hsv_p M m hM0, hmR]
            · rw [h60]
              have : 2 + (B - R) / (M - m) - 2 = (B - R) / (M - m) := by ring
              rw [this, hsv_t M m _ hM0 hd, hmR]
              ring
        · have hrb2 : B < R := not_le.mp hrb
          have hmB : m = B := le_antisymm mleB (by
            rw [hm]
            exact le_min (le_min hrb2.le (by rw [hgM]; exact Ble)) le_rfl)
          have hu0 : (B - R) / (M - m) < 0 := div_neg_of_neg_of_pos (by linarith) hdpos
          have hu1 : -1 < (B - R) / (M - m) := by
            rw [lt_div_iff₀ hdpos, hmB]
            linarith
          have hh : ¬ (2 + (B - R) / (M - m)) * 60 < 0 := by
            rw [not_lt]
            exact mul_nonneg (by linarith) (by norm_num)
          rw [if_neg hh]
          rw [HSVtoRGB_sector1 _ _ _ hs (by rw [h60]; linarith) (by rw [h60]; linarith),
            Prod.mk.injEq, Prod.mk.injEq]
          refine ⟨keyR _ ?_, keyG _ hgM.symm, keyB _ ?_⟩
          · rw [h60]
            have : 2 + (B - R) / (M - m) - 1 = 1 + (B - R) / (M - m) := by ring
            rw [this, hsv_q M m _ hM0 hd, hmB]
            ring
          · rw [hsv_p M m hM0, hmB]
      · rw [if_neg hgM]
        have hGlt : G < M := lt_of_le_of_ne Gle hgM
        have hbM : B = M := by
          rcases hMcases with h | h | h
          · exact absurd h.symm hrM
          · exact absurd h.symm hgM
          · exact h.symm
        by_cases hgr : G ≤ R
        · have hmG : m = G := le_antisymm mleG (by
            rw [hm]
            exact le_min (le_min hgr le_rfl) (by rw [hbM]; exact Gle))
          have hu0 : 0 ≤ (R - G) / (M - m) := div_nonneg (sub_nonneg.mpr hgr) hdpos.le
          have hu1 : (R - G) / (M - m) < 1 := by
            rw [div_lt_one hdpos, hmG]
            linarith
          have hh : ¬ (4 + (R - G) / (M - m)) * 60 < 0 := by
            rw [not_lt]
            exact mul_nonneg (by linarith) (by norm_num)
          rw [if_neg hh]
          rw [HSVtoRGB_sector4 _ _ _ hs (by rw [h60]; linarith) (by rw [h60]; linarith),
            Prod.mk.injEq, Prod.mk.injEq]
          refine ⟨keyR _ ?_, keyG _ ?_, keyB _ hbM.symm⟩
          · rw [h60]
            have : 4 + (R - G) / (M - m) - 4 = (R - G) / (M - m) := by ring
            rw [this, hsv_t M m _ hM0 hd, hmG]
            ring
          · rw [hsv_p M m hM0, hmG]
        · have hgr2 : R < G := not_le.mp hgr
          have hmR : m = R := le_antisymm mleR (by
            rw [hm]
            exact le_min (le_min le_rfl hgr2.le) (by rw [hbM]; exact Rle))
          have hu0 : (R - G) / (M - m) < 0 := div_neg_of_neg_of_pos (by linarith) hdpos
          have hu1 : -1 < (R - G) / (M - m) := by
            rw [lt_div_iff₀ hdpos, hmR]
            linarith
          have hh : ¬ (4 + (R - G) / (M - m)) * 60 < 0 := by
            rw [not_lt]
            exact mul_nonneg (by linarith) (by norm_num)
          rw [if_neg hh]
          rw [HSVtoRGB_sector3 _ _ _ hs (by rw [h60]; linarith) (by rw [h60]; linarith),
            Prod.mk.injEq, Prod.mk.injEq]
          refine ⟨keyR _ ?_, keyG _ ?_, keyB _ hbM.symm⟩
          · rw [hsv_p M m hM0, hmR]
          · rw [h60]
            have : 4 + (R - G) / (M - m) - 3 = 1 + (R - G) / (M - m) := by ring
            rw [this, hsv_q M m _ hM0 hd, hmR]
            ring
  · rw [if_neg hc]
    simp only
    have hall : R = M ∧ G = M ∧ B = M := by
      rw [not_and_or, not_not, not_not] at hc
      rcases hc with h0 | hd
      · rw [h0] at Rle Gle Ble ⊢
        exact ⟨le_antisymm Rle hR0, le_antisymm Gle hG0, le_antisymm Ble hB0⟩
      · have hMm : M = m := sub_eq_zero.mp hd
        rw [← hMm] at mleR mleG mleB
        exact ⟨le_antisymm Rle mleR, le_antisymm Gle mleG, le_antisymm Ble mleB⟩
    unfold HSVtoRGB
    rw [if_pos rfl, Prod.mk.injEq, Prod.mk.injEq]
    exact ⟨keyR _ hall.1.symm, keyG _ hall.2.1.symm, keyB _ hall.2.2.symm⟩

/-- C29: over exact arithmetic, for every pixel `(r, g, b)` whose components are integers
in 0..255, `HSVtoRGB` applied to the result of `RGBtoHSV r g b` returns `(r, g, b)`
again; for greys and black (`r = g = b`) `RGBtoHSV` reports `h = −1` and `s = 0`, and
the round trip holds for them as well. -/
theorem HSVtoRGB_RGBtoHSV (r g b : Int) (hr : 0 ≤ r ∧ r ≤ 255) (hg : 0 ≤ g ∧ g ≤ 255)
    (hb : 0 ≤ b ∧ b ≤ 255) :
    HSVtoRGB (RGBtoHSV r g b : K × K × K).1 (RGBtoHSV r g b : K × K × K).2.1
      (RGBtoHSV r g b : K × K × K).2.2 = (r, g, b) ∧
    (r = g → g = b →
      (RGBtoHSV r g b : K × K × K).1 = -1 ∧ (RGBtoHSV r g b : K × K × K).2.1 = 0) := by
  refine ⟨colour_round_trip_nonneg r g b hr.1 hg.1 hb.1, ?_⟩
  intro h1 h2
  subst h1
  subst h2
  have hmin : minOfThree ((r : K) / 255) ((r : K) / 255) ((r : K) / 255) = (r : K) / 255 := by
    simp [minOfThree]
  have hmax : maxOfThree ((r : K) / 255) ((r : K) / 255) ((r : K) / 255) = (r : K) / 255 := by
    simp [maxOfThree]
  unfold RGBtoHSV
  simp only
  rw [hmin, hmax, if_neg (by simp)]
  exact ⟨rfl, rfl⟩

theorem HSVtoRGB_RGBtoHSV_witness :
    (HSVtoRGB (RGBtoHSV 255 128 0 : ℚ × ℚ × ℚ).1 (RGBtoHSV 255 128 0 : ℚ × ℚ × ℚ).2.1
      (RGBtoHSV 255 128 0 : ℚ × ℚ × ℚ).2.2 = (255, 128, 0) ∧
    ((255 : Int) = 128 → (128 : Int) = 0 →
      (RGBtoHSV 255 128 0 : ℚ × ℚ × ℚ).1 = -1 ∧ (RGBtoHSV 255 128 0 : ℚ × ℚ × ℚ).2.1 = 0)) ∧
    (HSVtoRGB (RGBtoHSV 90 90 90 : ℚ × ℚ × ℚ).1 (RGBtoHSV 90 90 90 : ℚ × ℚ × ℚ).2.1
      (RGBtoHSV 90 90 90 : ℚ × ℚ × ℚ).2.2 = (90, 90, 90) ∧
    ((90 : Int) = 90 → (90 : Int) = 90 →
      (RGBtoHSV 90 90 90 : ℚ × ℚ × ℚ).1 = -1 ∧ (RGBtoHSV 90 90 90 : ℚ × ℚ × ℚ).2.1 = 0)) :=
  ⟨HSVtoRGB_RGBtoHSV 255 128 0 ⟨by decide, by decide⟩ ⟨by decide, by decide⟩
      ⟨by decide, by decide⟩,
    HSVtoRGB_RGBtoHSV 90 90 90 ⟨by decide, by decide⟩ ⟨by decide, by decide⟩
      ⟨by decide, by decide⟩⟩

end ColourTheorems

section ModelLoadingTheorems

variable {K : Type} [LinearOrderedField K]

end ModelLoadingTheorems

section PredictCheckedTheorems

variable {K : Type} [LinearOrderedField K]

theorem mr_normalize_checked_eq (x : Nat → K) (mdl : mr_model K)
    (hsigma : ∀ j, j < mdl.num_features.toNat → mdl.sigma j ≠ 0) :
    mr_normalize_checked x mdl = some (mr_normalize x mdl) := by
  unfold mr_normalize_checked mr_normalize
  generalize mdl.num_features.toNat = n at hsigma
  induction n with
  | zero => rfl
  | succ n ih =>
    simp only [forLoop]
    rw [ih (fun j hj => hsigma j (Nat.lt_succ_of_lt hj)),
      fdiv_of_ne _ _ (hsigma n (Nat.lt_succ_self n))]

theorem mr_normalize_checked_zero (x : Nat → K) (mdl : mr_model K) (j : Nat)
    (hj : j < mdl.num_features.toNat) (hzero : mdl.sigma j = 0) :
    mr_normalize_checked x mdl = none := by
  unfold mr_normalize_checked
  generalize mdl.num_features.toNat = n at hj
  induction n with
  | zero => omega
  | succ n ih =>
    simp only [forLoop]
    rcases Nat.lt_succ_iff_lt_or_eq.mp hj with h | h
    · rw [ih h]
    · subst h
      rw [hzero, fdiv_zero]
      cases forLoop j
        (fun i (x_normed : Option (Nat → K)) =>
          match x_normed with
          | none => none
          | some x_normed =>
            match fdiv (x i - mdl.mu i) (mdl.sigma i) with
            | none => none
            | some q => some (store x_normed i q))
        (some (fun _ => 0)) <;> rfl

theorem mr_predict_checked_eq (m : MathLib K) (x : Nat → K) (mdl : mr_model K)
    (hvalid : mdl.init_success = 1) (hnf : 0 < mdl.num_features) (hscale : mdl.scale ≠ 0)
    (hsigma : ∀ j, j < mdl.num_features.toNat → mdl.sigma j ≠ 0) :
    mr_predict_checked m x mdl = some (mr_predict m x mdl) := by
  have hvar : mdl.scale ^ 2 ≠ 0 := pow_ne_zero 2 hscale
  unfold mr_predict_checked mr_predict
  rw [if_neg (not_le.mpr hnf), if_neg (by simp [hvalid]), if_neg (by simp [hvalid])]
  simp only [mr_normalize_checked_eq x mdl hsigma]
  have hloop : ∀ n, forLoop n
      (fun i (sum : Option K) =>
        match sum with
        | none => none
        | some sum =>
          match fdiv (-(forLoop mdl.num_features.toNat
              (fun j norm_sum =>
                norm_sum + (mdl.support_vectors (i * mdl.num_features.toNat + j)
                  - mr_normalize x mdl j) ^ 2) 0)) (mdl.scale ^ 2) with
          | none => none
          | some q => some (sum + mdl.alpha i * m.exp q))
      (some 0)
      = some (forLoop n
        (fun i sum =>
          sum + mdl.alpha i * m.exp (-(forLoop mdl.num_features.toNat
              (fun j norm_sum =>
                norm_sum + (mdl.support_vectors (i * mdl.num_features.toNat + j)
                  - mr_normalize x mdl j) ^ 2) 0) / mdl.scale ^ 2))
        0) := by
    intro n
    induction n with
    | zero => rfl
    | succ n ih =>
      simp only [forLoop]
      rw [ih, fdiv_of_ne _ _ hvar]
  rw [hloop]

/-- C2: for a model whose `init_success` is not 1, `mr_predict` evaluates the declaration
`float x_normed[mdl.num_features]` before it tests `init_success`: it returns 0 for every
input when `num_features` is greater than zero, whatever the other fields hold, and has
no defined result when `num_features` is zero or negative. -/
theorem mr_predict_checked_invalid (m : MathLib K) (x : Nat → K) (mdl : mr_model K)
    (h : mdl.init_success ≠ 1) :
    (0 < mdl.num_features → mr_predict_checked m x mdl = some 0) ∧
    (mdl.num_features ≤ 0 → mr_predict_checked m x mdl = none) := by
  constructor
  · intro hnf
    unfold mr_predict_checked
    rw [if_neg (not_le.mpr hnf), if_pos h]
  · intro hnf
    unfold mr_predict_checked
    rw [if_pos hnf]

theorem mr_predict_checked_invalid_witness :
    (mr_predict_checked ratMath demoInput { demoModel with init_success := 0 } = some 0) ∧
    (mr_predict_checked ratMath demoInput
      { demoModel with init_success := 0, num_features := 0 } = none) ∧
    (mr_predict_checked ratMath demoInput (mr_create_model_failed 0 0 0 0) = none) :=
  ⟨(mr_predict_checked_invalid ratMath demoInput { demoModel with init_success := 0 }
      (by decide)).1 (by decide),
    (mr_predict_checked_invalid ratMath demoInput
      { demoModel with init_success := 0, num_features := 0 } (by decide)).2 (by decide),
    (mr_predict_checked_invalid ratMath demoInput (mr_create_model_failed 0 0 0 0)
      (by decide)).2 (by decide)⟩

/-- C25 (amended): for a valid model with `num_features ≥ 1`, `scale ≠ 0` and every
`sigma[j] ≠ 0`, and an exponential with values in (0,1] on arguments that are not
positive, `mr_predict` executes no division by zero, every Gaussian kernel value
`exp(−d_i/scale²)` lies in (0,1] and `|mr_predict(x) − bias| ≤ Σ_{i<num_sv} |alpha[i]|`. -/
theorem mr_predict_checked_bounded (m : MathLib K) (x : Nat → K) (mdl : mr_model K)
    (hexp : ∀ t, t ≤ 0 → 0 < m.exp t ∧ m.exp t ≤ 1)
    (hvalid : mdl.init_success = 1) (hnf : 0 < mdl.num_features) (hscale : mdl.scale ≠ 0)
    (hsigma : ∀ j, j < mdl.num_features.toNat → mdl.sigma j ≠ 0) :
    ∃ v, mr_predict_checked m x mdl = some v ∧
      (∀ i, 0 < m.exp (-(∑ j in Finset.range mdl.num_features.toNat,
            (mdl.support_vectors (i * mdl.num_features.toNat + j)
              - (x j - mdl.mu j) / mdl.sigma j) ^ 2) / mdl.scale ^ 2) ∧
          m.exp (-(∑ j in Finset.range mdl.num_features.toNat,
            (mdl.support_vectors (i * mdl.num_features.toNat + j)
              - (x j - mdl.mu j) / mdl.sigma j) ^ 2) / mdl.scale ^ 2) ≤ 1) ∧
      |v - mdl.bias| ≤ ∑ i in Finset.range mdl.num_sv.toNat, |mdl.alpha i| := by
  have hs : 0 < mdl.scale ^ 2 := by positivity
  have hk : ∀ i, 0 < m.exp (-(∑ j in Finset.range mdl.num_features.toNat,
          (mdl.support_vectors (i * mdl.num_features.toNat + j)
            - (x j - mdl.mu j) / mdl.sigma j) ^ 2) / mdl.scale ^ 2) ∧
        m.exp (-(∑ j in Finset.range mdl.num_features.toNat,
          (mdl.support_vectors (i * mdl.num_features.toNat + j)
            - (x j - mdl.mu j) / mdl.sigma j) ^ 2) / mdl.scale ^ 2) ≤ 1 := by
    intro i
    apply hexp
    apply div_nonpos_of_nonpos_of_nonneg _ hs.le
    rw [neg_nonpos]
    exact Finset.sum_nonneg (fun j _ => sq_nonneg _)
  refine ⟨mr_predict m x mdl, mr_predict_checked_eq m x mdl hvalid hnf hscale hsigma, hk, ?_⟩
  rw [mr_predict_loops m x mdl hvalid, add_sub_cancel_right]
  refine (Finset.abs_sum_le_sum_abs _ _).trans ?_
  apply Finset.sum_le_sum
  intro i _
  rw [abs_mul, abs_of_pos (hk i).1]
  calc |mdl.alpha i| * _ ≤ |mdl.alpha i| * 1 :=
        mul_le_mul_of_nonneg_left (hk i).2 (abs_nonneg _)
    _ = |mdl.alpha i| := mul_one _

theorem mr_predict_checked_bounded_counterexample :
    demoZeroSigma.init_success = 1 ∧ demoZeroSigma.scale ≠ 0 ∧ 0 < demoZeroSigma.num_features ∧
    demoZeroSigma.sigma 0 = 0 ∧ (fun _ => 1 : Nat → ℚ) 0 - demoZeroSigma.mu 0 = 0 ∧
    mr_predict_checked ratKernelMath (fun _ => 1) demoZeroSigma = none ∧
    ({ demoModel with num_features := 0 } : mr_model ℚ).init_success = 1 ∧
    ({ demoModel with num_features := 0 } : mr_model ℚ).scale ≠ 0 ∧
    mr_predict_checked ratKernelMath (fun _ => 1) { demoModel with num_features := 0 }
      = none := by
  refine ⟨rfl, by norm_num [demoZeroSigma, demoModel], by decide, by simp [demoZeroSigma],
    by simp [demoZeroSigma, demoModel], ?_, rfl, by norm_num [demoModel], ?_⟩
  · unfold mr_predict_checked
    rw [if_neg (by decide), if_neg (by decide)]
    simp only
    rw [mr_normalize_checked_zero (fun _ => 1) demoZeroSigma 0 (by decide)
      (by simp [demoZeroSigma])]
  · unfold mr_predict_checked
    rw [if_pos (by decide)]

theorem mr_predict_checked_bounded_witness :
    ∃ v, mr_predict_checked ratKernelMath demoInput demoModel = some v ∧
      (∀ i, 0 < ratKernelMath.exp (-(∑ j in Finset.range demoModel.num_features.toNat,
            (demoModel.support_vectors (i * demoModel.num_features.toNat + j)
              - (demoInput j - demoModel.mu j) / demoModel.sigma j) ^ 2)
            / demoModel.scale ^ 2) ∧
          ratKernelMath.exp (-(∑ j in Finset.range demoModel.num_features.toNat,
            (demoModel.support_vectors (i * demoModel.num_features.toNat + j)
              - (demoInput j - demoModel.mu j) / demoModel.sigma j) ^ 2)
            / demoModel.scale ^ 2) ≤ 1) ∧
      |v - demoModel.bias| ≤ ∑ i in Finset.range demoModel.num_sv.toNat, |demoModel.alpha i| :=
  mr_predict_checked_bounded ratKernelMath demoInput demoModel
    (fun t ht => by
      have h1 : (0 : ℚ) < 1 - t := by linarith
      exact ⟨div_pos one_pos h1, (div_le_one h1).mpr (by linarith)⟩)
    rfl (by decide) (by norm_num [demoModel]) (fun j _ => by norm_num [demoModel])

end PredictCheckedTheorems

section ModelLoadingClaim

variable {K : Type} [LinearOrderedField K]

theorem mr_fill_array_overflow :
    int_mul 65536 32768 = -2147483648 ∧
    mr_fill_array demoScanLib (fun _ _ => true) ""
        (some ["COLS", "65536", "ROWS", "32768", "DATA"])
      = some { data_ptr := some (fun i => ([] : List ℚ).getD i 0), N := 65536, M := 32768 } := by
  have h : int_mul 65536 32768 = -2147483648 := by
    unfold int_mul
    norm_num
  refine ⟨h, ?_⟩
  simp [mr_fill_array, fscanf_s, fscanf_d, demoScanLib, h, mr_fill_array_data]

end ModelLoadingClaim

end MoodDetector
